import Mathlib

/-!
# uhttpd: request header parsing, header reception and request dispatch

A shallow embedding of the request path of `uhttpd.c`:
`uh_http_header_parse`, `uh_http_header_recv`, `uh_path_match` and
`uh_dispatch_request`, and of the callbacks around it: `uh_listener_cb`,
`uh_client_cb`, `uh_timeout_cb` and `uh_kill9_cb`.

Conventions of the embedding

* A `char` is its byte value, a natural number; a `char` buffer is a list of
  bytes and a `char *` into it is an offset into that list.
* A C string is the run of bytes from an offset up to (not including) the
  first NUL byte.
* In-place writes `buffer[i] = c` are `List.set`; the functions return the
  buffer they leave behind together with their C return value.
* `uh_http_response (cl, code, ..); return NULL` is the outcome
  `response code`.
* A callback returns the record it leaves together with the list of what it
  did to the outside (responses sent, handlers called, signals sent); what the
  system calls and the absent functions return is given to it as an argument.
* An `int` is an integer; where a product can leave the range of `int` it is
  wrapped by `int32`.
-/

namespace Uhttpd

/-! ## Characters, buffers and the C string functions -/

/-- A `char` buffer: one byte value per cell. -/
abbrev Buf := List Nat

/-- The byte of a character literal. -/
def ch (c : Char) : Nat := c.toNat

/-- The bytes of a string literal, without the terminating NUL. -/
def bytes (s : String) : List Nat := s.toList.map Char.toNat

/-- The read `buffer[i]`. -/
def rd (b : Buf) (i : Nat) : Nat := b.getD i 0

/-- The write `buffer[i] = v`. -/
def wr (b : Buf) (i v : Nat) : Buf := b.set i v

/-- The C string that starts at offset `p`: the bytes up to the first NUL. -/
def cstr (b : Buf) (p : Nat) : List Nat := (b.drop p).takeWhile (fun c => c != 0)

/-- The libc `strlen` of the string at offset `p`. -/
def strlen (b : Buf) (p : Nat) : Nat := (cstr b p).length

/-- The libc `strchr (buffer + p, c)` for a character `c` other than NUL: the
offset of the first `c` in the string at `p`, or `none` for `NULL`. -/
def strchr (b : Buf) (p c : Nat) : Option Nat :=
  if c ∈ cstr b p then some (p + (cstr b p).indexOf c) else none

/-- The libc `strcmp (buffer + p, lit)` up to sign: `0` when the string at `p`
equals the literal, `1` when it differs (the code only tests for zero). -/
def strcmp (b : Buf) (p : Nat) (lit : List Nat) : Nat :=
  if cstr b p = lit then 0 else 1

/-- The libc `isalpha` in the C locale. -/
def isalpha (c : Nat) : Bool := (65 ≤ c && c ≤ 90) || (97 ≤ c && c ≤ 122)

/-- The libc `strtof` on a text `d '.' d` at offset `p`, scaled by ten so that
the result stays a natural number: `0.9 ↦ 9`, `1.0 ↦ 10`, `1.1 ↦ 11`. -/
def strtof10 (b : Buf) (p : Nat) : Nat := (rd b p - 48) * 10 + (rd b (p + 2) - 48)

/-- Whether the bytes of `needle` stand in `haystack` from offset `i` on. -/
def match_at (haystack : Buf) : Nat → List Nat → Bool
  | _, [] => true
  | i, c :: cs => rd haystack i == c && match_at haystack (i + 1) cs

/-- The scan of `strfind` from offset `i` with `n` start offsets left to try. -/
def strfind_from (haystack : Buf) (hslen : Nat) (needle : List Nat) : Nat → Nat → Option Nat
  | 0, _ => none
  | n + 1, i =>
    if i + needle.length ≤ hslen && match_at haystack i needle then some i
    else strfind_from haystack hslen needle n (i + 1)

/-- Modelled from the spec: `strfind (haystack, hslen, needle, ndlen)` of
uhttpd-utils.c, which is not among the sources. The spec has the receiver
search "for the first occurrence of the sequence CR LF CR LF"; so the result
is the offset of the first occurrence of `needle` that lies wholly within the
first `hslen` bytes of `haystack`, or `none` for `NULL`. -/
def strfind (haystack : Buf) (hslen : Nat) (needle : List Nat) : Option Nat :=
  strfind_from haystack hslen needle hslen 0

/-! ## The request record -/

/-- The request methods `UH_HTTP_MSG_GET`, `UH_HTTP_MSG_HEAD`, `UH_HTTP_MSG_POST`. -/
inductive http_method
  | GET
  | HEAD
  | POST
  deriving DecidableEq, Repr

/-- The record `struct http_request`. `url` and the cells of `headers` are
pointers into the receive buffer (`none` is `NULL`); `headers` has
`array_size (req->headers)` cells, filled pairwise with name and value.
`version` is the `float` of the source times ten. -/
structure http_request where
  method : http_method
  url : Option Nat
  version : Nat
  redirect_status : Nat
  headers : List (Option Nat)
  deriving DecidableEq, Repr

/-- What a call leaves the caller with: a status line sent by
`uh_http_response` together with a `NULL` return, or the request. -/
inductive parse_outcome
  | response (status : Nat)
  | request (req : http_request)
  deriving DecidableEq, Repr

/-- The buffer after the call and the outcome of the call. -/
structure parse_result where
  buffer : Buf
  outcome : parse_outcome
  deriving DecidableEq, Repr

/-! ## `uh_http_header_parse` -/

/-- The locals of the header field loop together with the memory it writes:
the buffer, `hdrname`, `hdrdata`, `hdrcount` and `req->headers`. -/
structure hdr_state where
  buffer : Buf
  hdrname : Option Nat
  hdrdata : Option Nat
  hdrcount : Nat
  headers : List (Option Nat)
  deriving DecidableEq, Repr

/-- The loop `while ((hdrdata + 1) < (buffer + buflen) && *hdrdata == ' ') hdrdata++`,
with `n` bounding the iterations left; it returns the final `hdrdata`. -/
def skip_spaces (b : Buf) (buflen : Nat) : Nat → Nat → Nat
  | 0, d => d
  | n + 1, d => if d + 1 < buflen && rd b d == 32 then skip_spaces b buflen n (d + 1) else d

/-- One pass through the body of the header field loop at index `i`. The
`413` exit gives `Except.error` with the buffer as it then is. -/
def header_step (buflen i : Nat) (s : hdr_state) : Except Buf hdr_state :=
  match s.hdrname, s.hdrdata with
  | some n, some d =>
    if rd s.buffer i == 13 || rd s.buffer i == 10 then
      if s.hdrcount + 1 < s.headers.length then
        .ok { buffer := wr s.buffer i 0
              hdrname := none
              hdrdata := none
              hdrcount := s.hdrcount + 2
              headers := (s.headers.set s.hdrcount (some n)).set (s.hdrcount + 1) (some d) }
      else .error (wr s.buffer i 0)
    else .ok s
  | some _, none =>
    if i + 1 < buflen && rd s.buffer i == 58 then
      .ok { s with buffer := wr s.buffer i 0
                   hdrdata := some (skip_spaces (wr s.buffer i 0) buflen (buflen - (i + 1)) (i + 1)) }
    else .ok s
  | none, _ =>
    if isalpha (rd s.buffer i) then .ok { s with hdrname := some i } else .ok s

/-- The loop `for (i = ...; i < buflen; i++)`, started at `i` with
`n = buflen - i` passes to go. -/
def header_loop (buflen : Nat) : Nat → Nat → hdr_state → Except Buf hdr_state
  | 0, _, s => .ok s
  | n + 1, i, s =>
    match header_step buflen i s with
    | .error b => .error b
    | .ok s' => header_loop buflen n (i + 1) s'

/-- The function `uh_http_header_parse (cl, buffer, buflen)`; `req` is the
record `cl->request` as the call finds it. -/
def uh_http_header_parse (req : http_request) (buffer : Buf) (buflen : Nat) : parse_result :=
  match strfind buffer buflen [13, 10] with
  | none => ⟨buffer, .response 400⟩
  | some h =>
    -- buffer[buflen-1] = 0; *headers++ = 0; *headers++ = 0;
    let b1 := wr (wr (wr buffer (buflen - 1) 0) h 0) (h + 1) 0
    let headers := h + 2
    -- if ((path = strchr(buffer, ' ')) != NULL) *path++ = 0;
    let path := (strchr b1 0 32).map (fun s => s + 1)
    let b2 := match strchr b1 0 32 with
      | some s => wr b1 s 0
      | none => b1
    -- if ((path != NULL) && ((version = strchr(path, ' ')) != NULL)) *version++ = 0;
    let version := (path.bind (fun p => strchr b2 p 32)).map (fun s => s + 1)
    let b3 := match path.bind (fun p => strchr b2 p 32) with
      | some s => wr b2 s 0
      | none => b2
    if strcmp b3 0 (bytes "GET") ≠ 0 ∧ strcmp b3 0 (bytes "HEAD") ≠ 0 ∧
        strcmp b3 0 (bytes "POST") ≠ 0 then
      ⟨b3, .response 405⟩
    else
      let method :=
        if rd b3 0 = ch 'G' then http_method.GET
        else if rd b3 0 = ch 'H' then http_method.HEAD
        else if rd b3 0 = ch 'P' then http_method.POST
        else req.method
      match path with
      | none => ⟨b3, .response 400⟩
      | some p =>
        if strlen b3 p = 0 then ⟨b3, .response 400⟩
        else
          match version with
          | none => ⟨b3, .response 400⟩
          | some v =>
            if strcmp b3 v (bytes "HTTP/0.9") ≠ 0 ∧ strcmp b3 v (bytes "HTTP/1.0") ≠ 0 ∧
                strcmp b3 v (bytes "HTTP/1.1") ≠ 0 then
              ⟨b3, .response 400⟩
            else
              match header_loop buflen (buflen - headers) headers
                  ⟨b3, none, none, 0, req.headers⟩ with
              | .error b => ⟨b, .response 413⟩
              | .ok s =>
                ⟨s.buffer, .request
                  { method := method
                    url := some p
                    version := strtof10 b3 (v + 5)
                    redirect_status := 200
                    headers := s.headers }⟩

/-- A `struct http_request` as `calloc` leaves it, with `c` header cells. -/
def fresh_request (c : Nat) : http_request :=
  { method := .GET, url := none, version := 0, redirect_status := 0,
    headers := List.replicate c none }

/-- The strings of the stored header pairs, read the way `foreach_header`
walks the array: two cells at a time, up to the first `NULL` name. -/
def header_pairs (b : Buf) : List (Option Nat) → List (List Nat × List Nat)
  | some n :: some d :: rest => (cstr b n, cstr b d) :: header_pairs b rest
  | _ => []

/-! ## What the statements about `uh_http_header_parse` are written with -/

/-- The buffer a run of the header loop leaves behind, on either exit. -/
def loop_buffer : Except Buf hdr_state → Buf
  | .error b => b
  | .ok s => s.buffer

/-- The cells after the first CR LF as `buffer[buflen-1] = 0` leaves them,
when the CR LF stands at offset `k`. -/
def prelude_tail (R : Buf) (k buflen : Nat) : Buf :=
  if buflen ≤ k + 2 then R else wr R (buflen - (k + 3)) 0

/-- The result of the parse once the request line has passed its checks: the
header loop runs from `start` and its exit decides between `413` and the
request. -/
def parse_fields (req : http_request) (b3 : Buf) (buflen start : Nat) (method : http_method)
    (p v : Nat) : parse_result :=
  match header_loop buflen (buflen - start) start ⟨b3, none, none, 0, req.headers⟩ with
  | .error b => ⟨b, .response 413⟩
  | .ok s =>
    ⟨s.buffer, .request
      { method := method
        url := some p
        version := strtof10 b3 (v + 5)
        redirect_status := 200
        headers := s.headers }⟩

/-- The text of a line before its first space (the whole line when it has no space). -/
def first_word (l : List Nat) : List Nat := l.takeWhile (fun c => c != 32)

/-- The text of a line after its first space; `none` when the line has no space. -/
def after_space (l : List Nat) : Option (List Nat) :=
  if 32 ∈ l then some ((l.dropWhile (fun c => c != 32)).drop 1) else none

/-- The method that a method text names. -/
def method_of (m : List Nat) : Option http_method :=
  if m = bytes "GET" then some .GET
  else if m = bytes "HEAD" then some .HEAD
  else if m = bytes "POST" then some .POST
  else none

/-- The version, times ten, that a version text names. -/
def version_of (v : List Nat) : Option Nat :=
  if v = bytes "HTTP/0.9" then some 9
  else if v = bytes "HTTP/1.0" then some 10
  else if v = bytes "HTTP/1.1" then some 11
  else none

/-- A header field line as the client writes it: the name, the text after
the first colon (optional spaces, then the value) and the line terminator. -/
structure field_line where
  name : List Nat
  rest : List Nat
  term : List Nat
  deriving DecidableEq, Repr

/-- The field line has the form name ':' spaces value terminator: the name
starts with a letter and has no ':', CR or LF, the text after the colon has no
CR or LF, and the terminator is CR LF, a bare CR or a bare LF. -/
def field_line.wellformed (f : field_line) : Prop :=
  isalpha (f.name.headD 0) = true ∧ 58 ∉ f.name ∧ 13 ∉ f.name ∧ 10 ∉ f.name ∧
    13 ∉ f.rest ∧ 10 ∉ f.rest ∧ (f.term = [13, 10] ∨ f.term = [13] ∨ f.term = [10])

instance (f : field_line) : Decidable f.wellformed := by
  unfold field_line.wellformed
  infer_instance

/-- The bytes of the field line on the wire. -/
def field_line.text (f : field_line) : List Nat := f.name ++ 58 :: (f.rest ++ f.term)

/-- The bytes of the field line once the loop has put a NUL on the colon and
on the first byte of the terminator. -/
def field_line.parsed (f : field_line) : List Nat :=
  f.name ++ 0 :: (f.rest ++ 0 :: f.term.drop 1)

/-- The value of the field: the text after the colon without its leading spaces. -/
def field_line.value (f : field_line) : List Nat := f.rest.dropWhile (fun x => x == 32)

/-- The field lines one after the other, as sent. -/
def fields_text : List field_line → List Nat
  | [] => []
  | f :: fs => f.text ++ fields_text fs

/-- The field lines one after the other, as the loop leaves them. -/
def fields_parsed : List field_line → List Nat
  | [] => []
  | f :: fs => f.parsed ++ fields_parsed fs

/-- The offsets of name and value of each field line, the first line standing
at offset `o`. -/
def field_ptrs : Nat → List field_line → List (Option Nat)
  | _, [] => []
  | o, f :: fs =>
    some o :: some (o + f.name.length + 1 + (f.rest.takeWhile (fun x => x == 32)).length) ::
      field_ptrs (o + f.text.length) fs

/-- A header block: the request line `M SP U SP V`, CR LF, the field lines
and the empty line CR LF that ends the block. -/
def header_block (M U V : List Nat) (fs : List field_line) : List Nat :=
  M ++ 32 :: (U ++ 32 :: (V ++ 13 :: 10 :: (fields_text fs ++ [13, 10])))

/-- The request line as the parse leaves it, with its terminating CR LF. -/
def parsed_line (M U V : List Nat) : List Nat := M ++ 0 :: (U ++ 0 :: (V ++ [0, 0]))

/-- The request line `M SP U SP V` is valid: the method is GET, HEAD or POST,
the url is not empty and has no NUL and no space, the version is HTTP/0.9,
HTTP/1.0 or HTTP/1.1, and no CR LF stands inside the line. -/
def valid_request_line (M U V : List Nat) : Prop :=
  method_of M ≠ none ∧ U ≠ [] ∧ 0 ∉ U ∧ 32 ∉ U ∧ version_of V ≠ none ∧
    ∀ j, j < (M ++ 32 :: (U ++ 32 :: V)).length →
      ¬ (rd (M ++ 32 :: (U ++ 32 :: V)) j = 13 ∧ rd (M ++ 32 :: (U ++ 32 :: V)) (j + 1) = 10)

instance (M U V : List Nat) : Decidable (valid_request_line M U V) := by
  unfold valid_request_line
  infer_instance

/-- The strings of the first `n` header pairs of a parse that returned a
request; `none` when the parse returned no request. -/
def stored_pairs (n : Nat) (r : parse_result) : Option (List (List Nat × List Nat)) :=
  match r.outcome with
  | .request q => some (header_pairs r.buffer (q.headers.take (2 * n)))
  | .response _ => none

/-! ## `uh_path_match` -/

/-- The libc `strstr (hay, needle)` on C strings given by their bytes: the
offset of the first occurrence of `needle` in `hay`, or `none` for `NULL`. -/
def strstr (needle : List Nat) : List Nat → Option Nat
  | [] => if needle = [] then some 0 else none
  | c :: t => if needle.isPrefixOf (c :: t) then some 0 else (strstr needle t).map (fun i => i + 1)

/-- The function `uh_path_match (prefix, url)` on C strings given by their
bytes; `url[strlen (prefix)]` past the last byte of `url` reads its NUL. -/
def uh_path_match (pfx url : List Nat) : Nat :=
  if strstr pfx url = some 0 ∧
      (rd pfx (pfx.length - 1) = 47 ∨ url.length = pfx.length ∨ rd url pfx.length = 47) then 1
  else 0

/-! ## `uh_dispatch_request` -/

/-- The fields of `struct path_info` that the dispatcher reads. -/
structure path_info where
  name : List Nat
  phys : List Nat
  redirected : Bool
  deriving DecidableEq, Repr

/-- A registered interpreter, `struct interpreter`. -/
structure interpreter where
  path : List Nat
  extn : List Nat
  deriving DecidableEq, Repr

/-- The fields of `struct config` that the dispatcher reads; a state or
handler that is `NULL` is `false` or `none`. -/
structure config where
  lua_state : Bool
  lua_prefix : List Nat
  ubus_state : Bool
  ubus_prefix : List Nat
  cgi_prefix : List Nat
  error_handler : Option (List Nat)
  deriving DecidableEq, Repr

/-- The functions that `uh_dispatch_request` calls and whose code is not in
this file: path lookup on a given url, the auth gate, the interpreter table,
and the handlers with the `bool` they return. The handlers read the request
through `cl`, so they are given the request record as it is at the call. -/
structure handlers where
  path_lookup : List Nat → Option path_info
  uh_auth_check : http_request → path_info → Bool
  uh_interpreter_lookup : List Nat → Option interpreter
  uh_cgi_request : http_request → path_info → Option interpreter → Bool
  uh_file_request : http_request → path_info → Bool
  lua_request : http_request → Bool
  ubus_request : http_request → Bool

/-- Modelled from the spec: `uh_path_lookup (cl, url)` of uhttpd-utils.c, which
is not among the sources, for a `url` that may be `NULL`. The spec has the
error handler tried only when one "is configured", the canned 404 being sent
when it "is not configured": an unset url resolves to nothing. -/
def uh_path_lookup (e : handlers) : Option (List Nat) → Option path_info
  | none => none
  | some url => e.path_lookup url

/-- The handler or canned response that a dispatch has invoked. -/
inductive dispatch_action
  | lua
  | ubus
  | cgi (pin : path_info) (ipr : Option interpreter)
  | file (pin : path_info)
  | not_found
  deriving DecidableEq, Repr

/-- What `uh_dispatch_request` leaves: the request record, the one handler it
invoked (if any) and its `bool` return value. -/
structure dispatch_result where
  req : http_request
  action : Option dispatch_action
  ret : Bool
  deriving DecidableEq, Repr

/-- The function `uh_dispatch_request (cl, req)`, built with `HAVE_LUA`,
`HAVE_UBUS` and `HAVE_CGI`; `url` is the C string that `req->url` points to. -/
def uh_dispatch_request (e : handlers) (conf : config) (req : http_request) (url : List Nat) :
    dispatch_result :=
  if conf.lua_state = true ∧ uh_path_match ( config.lua_prefix conf) url ≠ 0 then
    ⟨req, some .lua, e.lua_request req⟩
  else if conf.ubus_state = true ∧ uh_path_match ( config.ubus_prefix conf) url ≠ 0 then
    ⟨req, some .ubus, e.ubus_request req⟩
  else
    match uh_path_lookup e (some url) with
    | some pin =>
      if pin.redirected = false ∧ e.uh_auth_check req pin = true then
        -- the right operand of `||`, with its assignment to ipr, runs only
        -- when the prefix does not match
        if uh_path_match ( config.cgi_prefix conf) pin.name ≠ 0 then
          ⟨req, some (.cgi pin none), e.uh_cgi_request req pin none⟩
        else
          match e.uh_interpreter_lookup pin.phys with
          | some ipr => ⟨req, some (.cgi pin (some ipr)), e.uh_cgi_request req pin (some ipr)⟩
          | none => ⟨req, some (.file pin), e.uh_file_request req pin⟩
      else ⟨req, none, false⟩
    | none =>
      match uh_path_lookup e conf.error_handler with
      | some pin =>
        if e.uh_auth_check req pin = true then
          let req404 := { req with redirect_status := 404 }
          if uh_path_match ( config.cgi_prefix conf) pin.name ≠ 0 then
            ⟨req404, some (.cgi pin none), e.uh_cgi_request req404 pin none⟩
          else
            match e.uh_interpreter_lookup pin.phys with
            | some ipr =>
              ⟨req404, some (.cgi pin (some ipr)), e.uh_cgi_request req404 pin (some ipr)⟩
            | none => ⟨req404, some (.file pin), e.uh_file_request req404 pin⟩
        else ⟨req, none, false⟩
      | none => ⟨req, some .not_found, false⟩

/-! ## A sample site for the dispatcher -/

/-- A site to run the dispatcher on: the script `/cgi-bin/t.php`, the script
`/app.php` outside the CGI directory, the page `/index.html`, the redirected
directory `/dir` and the error page `/404.html`; `.php` files have the
interpreter `/usr/bin/php-cgi`; every request passes the auth gate and every
handler reports success. -/
def sample_site : handlers where
  path_lookup := fun url =>
    if url = bytes "/cgi-bin/t.php" then
      some ⟨bytes "/cgi-bin/t.php", bytes "/www/cgi-bin/t.php", false⟩
    else if url = bytes "/app.php" then some ⟨bytes "/app.php", bytes "/www/app.php", false⟩
    else if url = bytes "/index.html" then
      some ⟨bytes "/index.html", bytes "/www/index.html", false⟩
    else if url = bytes "/dir" then some ⟨bytes "/dir/", bytes "/www/dir", true⟩
    else if url = bytes "/404.html" then some ⟨bytes "/404.html", bytes "/www/404.html", false⟩
    else none
  uh_auth_check := fun _ _ => true
  uh_interpreter_lookup := fun phys =>
    if (bytes ".php").isSuffixOf phys then some ⟨bytes "/usr/bin/php-cgi", bytes ".php"⟩ else none
  uh_cgi_request := fun _ _ _ => true
  uh_file_request := fun _ _ => true
  lua_request := fun _ => true
  ubus_request := fun _ => true

/-- The configuration of the sample site: no plugin, CGI under `/cgi-bin`,
and, when `handler` is set, that url as the 404 error handler. -/
def sample_conf (handler : Option (List Nat)) : config where
  lua_state := false
  lua_prefix := []
  ubus_state := false
  ubus_prefix := []
  cgi_prefix := bytes "/cgi-bin"
  error_handler := handler

/-- A request record as a successful parse of `GET <url> HTTP/1.1` leaves it. -/
def sample_request : http_request :=
  { method := .GET, url := some 4, version := 11, redirect_status := 200,
    headers := List.replicate 64 none }

/-! ## `uh_http_header_recv` -/

/-- The buffer `cl->httpbuf`: the array `buf`, the pointer `ptr` into it (an
offset) and the count `len`. -/
structure httpbuf where
  buf : Buf
  ptr : Nat
  len : Int
  deriving DecidableEq, Repr

/-- What `uh_http_header_recv` leaves: `cl->httpbuf` and the outcome, where
`none` is a `NULL` return with no response sent (the receive gave nothing). -/
structure recv_result where
  httpbuf : httpbuf
  outcome : Option parse_outcome
  deriving DecidableEq, Repr

/-- Modelled from the spec: `uh_tcp_recv (cl, buf, len)` of uhttpd-utils.c,
which is not among the sources. The spec gives the transport one operation
`recv (buf) -> bytes_read | EOF | WouldBlock | Error`; `pending` lists what
the successive calls have to deliver. A call returns the bytes of the first
pending chunk, at most `len` of them; with nothing pending, or an empty chunk,
it returns no byte (a result `<= 0`). -/
def uh_tcp_recv (pending : List (List Nat)) (len : Nat) : List Nat :=
  match pending with
  | [] => []
  | c :: _ => c.take len

/-- The loop `while (blen > 0)` of `uh_http_header_recv`, one chunk of
`pending` per call of `uh_tcp_recv`. A call that leaves part of its chunk
unread has filled the buffer (`blen` is then 0), so the loop ends without
another call and the unread part is never asked for. -/
def header_recv_loop (req : http_request) (hb : httpbuf) :
    List (List Nat) → Buf → Nat → Nat → recv_result
  | [], buf, _, blen =>
    if blen = 0 then ⟨{ hb with buf := buf }, some (.response 413)⟩
    else ⟨{ hb with buf := buf }, none⟩
  | c :: cs, buf, bufptr, blen =>
    if blen = 0 then ⟨{ hb with buf := buf }, some (.response 413)⟩
    else
      let data := uh_tcp_recv (c :: cs) blen
      if data.length = 0 then ⟨{ hb with buf := buf }, none⟩
      else
        let buf1 := buf.take bufptr ++ data ++ buf.drop (bufptr + data.length)
        match strfind buf1 hb.buf.length [13, 10, 13, 10] with
        | some idx =>
          let r := uh_http_header_parse req buf1 (idx + 4)
          ⟨{ buf := r.buffer, ptr := idx + 4, len := ((bufptr + data.length : Nat) : Int) -
              ((idx + 4 : Nat) : Int) }, some r.outcome⟩
        | none => header_recv_loop req hb cs buf1 (bufptr + data.length) (blen - data.length)

/-- The function `uh_http_header_recv (cl)`: `hb` is `cl->httpbuf` as the call
finds it, `req` is `cl->request`, `pending` is what the transport delivers. -/
def uh_http_header_recv (req : http_request) (hb : httpbuf) (pending : List (List Nat)) :
    recv_result :=
  header_recv_loop req hb pending (List.replicate hb.buf.length 0) 0 (hb.buf.length - 1)

/-! ## What the statements about `uh_http_header_recv` are written with -/

/-- The first occurrence of `needle` in the byte stream `s` starts at `idx`. -/
def first_at (s : List Nat) (needle : List Nat) (idx : Nat) : Prop :=
  match_at s idx needle = true ∧ ∀ j, j < idx → match_at s j needle = false

instance (s needle : List Nat) (idx : Nat) : Decidable (first_at s needle idx) := by
  unfold first_at
  infer_instance

/-! ## The pieces of `uh_http_header_parse` used to show that it is local

`parse_after` and `parse_checks` are the body of `uh_http_header_parse` cut in
two; `uh_http_header_parse_unfold` shows that they make up the function. -/

/-- A run of the header loop on a buffer that goes on with the cells `X`. -/
def with_tail (X : Buf) : Except Buf hdr_state → Except Buf hdr_state
  | .error b => .error (b ++ X)
  | .ok s => .ok { s with buffer := s.buffer ++ X }

/-- The checks of `uh_http_header_parse` on the words of the request line and
the header loop after them: `b3` is the buffer with the words terminated,
`path` and `version` are the pointers of the source. -/
def parse_checks (req : http_request) (b3 : Buf) (buflen headers : Nat)
    (path version : Option Nat) : parse_result :=
  if strcmp b3 0 (bytes "GET") ≠ 0 ∧ strcmp b3 0 (bytes "HEAD") ≠ 0 ∧
      strcmp b3 0 (bytes "POST") ≠ 0 then
    ⟨b3, .response 405⟩
  else
    let method :=
      if rd b3 0 = ch 'G' then http_method.GET
      else if rd b3 0 = ch 'H' then http_method.HEAD
      else if rd b3 0 = ch 'P' then http_method.POST
      else req.method
    match path with
    | none => ⟨b3, .response 400⟩
    | some p =>
      if strlen b3 p = 0 then ⟨b3, .response 400⟩
      else
        match version with
        | none => ⟨b3, .response 400⟩
        | some v =>
          if strcmp b3 v (bytes "HTTP/0.9") ≠ 0 ∧ strcmp b3 v (bytes "HTTP/1.0") ≠ 0 ∧
              strcmp b3 v (bytes "HTTP/1.1") ≠ 0 then
            ⟨b3, .response 400⟩
          else
            match header_loop buflen (buflen - headers) headers
                ⟨b3, none, none, 0, req.headers⟩ with
            | .error b => ⟨b, .response 413⟩
            | .ok s =>
              ⟨s.buffer, .request
                { method := method
                  url := some p
                  version := strtof10 b3 (v + 5)
                  redirect_status := 200
                  headers := s.headers }⟩

/-- The part of `uh_http_header_parse` after the three writes that terminate
the first line: `b1` is the buffer they leave, `h` the offset of the CR LF. -/
def parse_after (req : http_request) (b1 : Buf) (buflen h : Nat) : parse_result :=
  let path := (strchr b1 0 32).map (fun s => s + 1)
  let b2 := match strchr b1 0 32 with
    | some s => wr b1 s 0
    | none => b1
  let version := (path.bind (fun p => strchr b2 p 32)).map (fun s => s + 1)
  let b3 := match path.bind (fun p => strchr b2 p 32) with
    | some s => wr b2 s 0
    | none => b2
  parse_checks req b3 buflen (h + 2) path version

/-! ## Inputs of any size -/

/-- A url of `n + 1` bytes: a slash and `n` letters `a`. -/
def long_url (n : Nat) : List Nat := 47 :: List.replicate n 97

/-- The buffer `cl->httpbuf` of a new client, with an array of `n` bytes. -/
def fresh_httpbuf (n : Nat) : httpbuf := ⟨List.replicate n 0, 0, 0⟩

/-! ## Line ends -/

/-- The number of line-end bytes (CR or LF) in a run of bytes. -/
def line_ends (l : List Nat) : Nat := l.countP (fun c => c == 13 || c == 10)

/-- The number of line-end bytes among the `n` cells of `b` from offset `i` on. -/
def eols (b : Buf) : Nat → Nat → Nat
  | _, 0 => 0
  | i, n + 1 => (if rd b i = 13 ∨ rd b i = 10 then 1 else 0) + eols b (i + 1) n

/-! ## Where the stored strings lie -/

/-- The string at offset `p` starts among the first `buflen` cells of `b` and
a NUL at some offset from `p` on, below `buflen`, ends it. -/
def terminated_below (b : Buf) (buflen p : Nat) : Prop :=
  p < buflen ∧ ∃ z, z < buflen ∧ (p ≤ z ∧ rd b z = 0)

instance (b : Buf) (buflen p : Nat) : Decidable (terminated_below b buflen p) := by
  unfold terminated_below
  infer_instance

/-- What holds of the locals of the header field loop before the pass at
index `i`, `H0` being `req->headers` as the call found it: the cells from
`hdrcount` on are untouched, every cell below holds the offset of a string
that a NUL below `i` ends, a name in progress started below `i`, and a value
in progress starts below `buflen`, after the NUL that ends its name, with
nothing but spaces between `i` and its start. -/
def loop_inv (buflen i : Nat) (H0 : List (Option Nat)) (s : hdr_state) : Prop :=
  s.headers.length = H0.length ∧ s.hdrcount ≤ s.headers.length ∧
  s.headers.drop s.hdrcount = H0.drop s.hdrcount ∧
  (∀ cell ∈ s.headers.take s.hdrcount, ∃ p, cell = some p ∧ terminated_below s.buffer i p) ∧
  (∀ n, s.hdrname = some n → n < i) ∧
  (∀ d, s.hdrdata = some d → d < buflen ∧
    (∃ n z, s.hdrname = some n ∧ n ≤ z ∧ z < d ∧ z < i ∧ rd s.buffer z = 0) ∧
    (∀ j, i ≤ j → j < d → rd s.buffer j = 32))

/-! ## A line without a colon among the field lines -/

/-- The field line is one that the header loop stores as one pair: the name
starts with a letter and has no ':', the text after the colon has no CR or LF,
and the terminator is CR LF, a bare CR or a bare LF. Unlike a well-formed
line, the name may hold line breaks. -/
def field_line.storable (f : field_line) : Prop :=
  isalpha (f.name.headD 0) = true ∧ 58 ∉ f.name ∧ 13 ∉ f.rest ∧ 10 ∉ f.rest ∧
    (f.term = [13, 10] ∨ f.term = [13] ∨ f.term = [10])

instance (f : field_line) : Decidable f.storable := by
  unfold field_line.storable
  infer_instance

/-- A header block in which a line without a colon stands among the field
lines: the request line, CR LF, the field lines `fs1`, the line `l` with its
terminator `t`, the field line `f`, the field lines `fs2` and the empty line
CR LF that ends the block. -/
def colonless_block (M U V : List Nat) (fs1 : List field_line) (l t : List Nat)
    (f : field_line) (fs2 : List field_line) : List Nat :=
  M ++ 32 :: (U ++ 32 :: (V ++ 13 :: 10 ::
    ((fields_text fs1 ++ (l ++ (t ++ (f.text ++ fields_text fs2)))) ++ [13, 10])))

/-- The line `l` from its first letter on, its terminator `t` and the field
line `f` after it, read as one field line: the name runs from the first letter
of `l` over the line break to the colon of `f`. -/
def joined_line (l t : List Nat) (f : field_line) : field_line :=
  ⟨l.dropWhile (fun x => !isalpha x) ++ (t ++ f.name), f.rest, f.term⟩

/-! ## `uh_listener_cb` -/

/-- The lines "default max requests" of `main`: the value of
`conf.max_requests` after them, `n` being what the option `-n` or the config
file left there. -/
def default_max_requests (n : Int) : Int := if n ≤ 0 then 3 else n

/-- The fields of `struct listener` that the acceptor reads and writes:
`n_clients`, and of its `conf` the fields `max_requests` and `tls` (set when
the listener speaks TLS). -/
structure listener where
  n_clients : Int
  max_requests : Int
  tls : Bool
  deriving DecidableEq, Repr

/-- What the calls made by one run of `uh_listener_cb` return: `accept` (a
descriptor, or -1), whether `uh_client_add` returned a client, and
`conf->tls_accept`. -/
structure accept_env where
  new_fd : Int
  client_added : Bool
  tls_accept : Int
  deriving DecidableEq, Repr

/-- Modelled from the spec: `uh_client_add (sock, serv)` of uhttpd-utils.c,
which is not among the sources. The spec has the listener count its active
clients in `n_active_clients`, a client being "created on accept": a call
that returns a client has raised `n_clients` by one, a call that returns
`NULL` (`ok` is false) has left the listener as it was. -/
def uh_client_add (serv : listener) (ok : Bool) : listener :=
  if ok = true then { serv with n_clients := serv.n_clients + 1 } else serv

/-- Modelled from the spec: `uh_client_remove (cl)` of uhttpd-utils.c, which is
not among the sources, on a client of the listener `serv`. The spec has the
listener count its active clients in `n_active_clients`: the removal of a
client lowers `n_clients` by one. -/
def uh_client_remove (serv : listener) : listener :=
  { serv with n_clients := serv.n_clients - 1 }

/-- The function `uh_listener_cb (u, events)` on the listener `serv` that `u`
belongs to: the listener it leaves and the descriptor of the connection it has
accepted and kept, if any. -/
def uh_listener_cb (serv : listener) (e : accept_env) : listener × Option Int :=
  if serv.n_clients ≥ serv.max_requests then (serv, none)
  else if e.new_fd ≠ -1 then
    if e.client_added = true then
      if serv.tls = true ∧ e.tls_accept < 1 then
        (uh_client_remove (uh_client_add serv e.client_added), none)
      else (uh_client_add serv e.client_added, some e.new_fd)
    else (uh_client_add serv e.client_added, none)
  else (serv, none)

/-- What happens to a listener: a call of the acceptor, or the removal of one
of its clients. -/
inductive listener_event
  | acceptor (e : accept_env)
  | removal
  deriving DecidableEq, Repr

/-- One event on a listener. A removal takes a client of the listener away,
so there is none to remove when `n_clients` is 0. -/
def listener_step (serv : listener) : listener_event → listener
  | .acceptor e => (uh_listener_cb serv e).1
  | .removal => if 0 < serv.n_clients then uh_client_remove serv else serv

/-- The events on a listener one after the other. -/
def listener_run (serv : listener) (evs : List listener_event) : listener :=
  evs.foldl listener_step serv

/-! ## `uh_client_cb` and the script timers -/

/-- The function `tolower` on a byte. -/
def tolower (c : Nat) : Nat := if 65 ≤ c ∧ c ≤ 90 then c + 32 else c

/-- The function `strcasecmp (b + p, lit)` up to its sign: 0 when the C string
at offset `p` and `lit` are equal with the case of letters ignored, 1 otherwise. -/
def strcasecmp (b : Buf) (p : Nat) (lit : List Nat) : Nat :=
  if (cstr b p).map tolower = lit.map tolower then 0 else 1

/-- The value of an `int` expression whose mathematical value is `x`: `x`
itself when it fits 32 bits, and the two's complement wrap-around otherwise. -/
def int32 (x : Int) : Int := (x + 2147483648) % 4294967296 - 2147483648

/-- The event mask a file descriptor callback is called with: the bits
`ULOOP_READ` and `ULOOP_WRITE`. -/
structure uloop_events where
  read : Bool
  write : Bool
  deriving DecidableEq, Repr

/-- The two callbacks that `cl->timeout.cb` is set to. -/
inductive timeout_handler
  | uh_timeout_cb
  | uh_kill9_cb
  deriving DecidableEq, Repr

/-- The fields of `struct uloop_timeout`: the callback, whether the timer is
armed, and the clock value in milliseconds at which it expires. -/
structure uloop_timeout where
  cb : Option timeout_handler
  pending : Bool
  time : Int
  deriving DecidableEq, Repr

/-- Modelled from the spec: `uloop_timeout_set (t, msecs)` of the event loop,
which is not among the sources. The spec has a timer source hold a "monotonic
deadline" and has the script timer armed with "deadline `now + script_timeout_s`"
and re-armed "for `+1s`": the call arms the timer to expire `msecs`
milliseconds after the clock value `now`. -/
def uloop_timeout_set (t : uloop_timeout) (now msecs : Int) : uloop_timeout :=
  { t with pending := true, time := now + msecs }

/-- The signals the timer callbacks send. -/
inductive signal
  | SIGTERM
  | SIGKILL
  deriving DecidableEq, Repr

/-- The fields of `struct client` that `uh_client_cb` and the timer callbacks
read and write: `dispatched`, `httpbuf`, `request`, `proc.pid`, whether
`proc` has been registered with `uh_child_cb`, and `timeout`; `closed` records
that `uh_client_shutdown` has been called on the client. -/
structure client where
  dispatched : Bool
  httpbuf : httpbuf
  request : http_request
  pid : Int
  proc_added : Bool
  timeout : uloop_timeout
  closed : Bool
  deriving DecidableEq, Repr

/-- A client as `uh_client_add` hands it to the event loop: zeroed, with a
buffer of `n` bytes and `c` header cells. -/
def fresh_client (n c : Nat) : client :=
  { dispatched := false, httpbuf := fresh_httpbuf n, request := fresh_request c, pid := 0,
    proc_added := false, timeout := ⟨none, false, 0⟩, closed := false }

/-- The fields of `struct config` that `uh_client_cb` reads itself, next to
the ones the dispatcher reads. -/
structure client_config where
  dispatch : config
  rfc1918_filter : Bool
  script_timeout : Int

/-- What one call of `uh_client_cb` meets outside the client record: the
chunks the transport delivers to `uh_http_header_recv`, the results of
`sa_rfc1918` on the peer and on the server address, the functions the
dispatcher calls, the `proc.pid` the request handler leaves in the client (0
when it spawned no child), the return value of the response callback `cl->cb`,
and the clock in milliseconds. -/
structure cb_env where
  pending : List (List Nat)
  peer_rfc1918 : Bool
  serv_rfc1918 : Bool
  handlers : handlers
  child_pid : Int
  cb_ret : Bool
  now : Int

/-- What a call of `uh_client_cb` does to the outside, in order. -/
inductive client_action
  | header_recv
  | response (status : Nat)
  | continue_100
  | dispatch (action : Option dispatch_action)
  | process_add
  | timeout_set (msecs : Int)
  | response_cb
  | shutdown
  deriving DecidableEq, Repr

/-- What a call of `uh_client_cb` leaves: the client record and what it did. -/
structure cb_result where
  cl : client
  trace : List client_action
  deriving DecidableEq, Repr

/-- Modelled from the spec: `uh_client_shutdown (cl)` of uhttpd-utils.c, which
is not among the sources. The spec has a client "destroyed on EOF, error,
timeout, or completion of the response callback": the client is closed and
leaves the event loop. -/
def uh_client_shutdown (cl : client) : client := { cl with closed := true }

/-- Modelled from the spec: the macro `foreach_header (i, req->headers)` of
uhttpd.h, which is not among the sources. The spec has the headers as an
"ordered sequence of (name, value)"; the parse fills the cells two at a time
from the first on, so the walk takes the cells in pairs, in order, up to the
first unset name. The result lists the pairs the loop body is run on. -/
def foreach_header : List (Option Nat) → List (Nat × Nat)
  | some n :: some d :: rest => (n, d) :: foreach_header rest
  | _ => []

/-- The three ways the loop over the Expect headers ends. -/
inductive expect_outcome
  | absent
  | continue_100
  | failed_417
  deriving DecidableEq, Repr

/-- The body of the loop "process expect headers" of `uh_client_cb`, run on
the pairs of `foreach_header`: `continue` on a name that is not `Expect`,
`return` after the 417 on a value that is not `100-continue`, `break` after
the `100 Continue`. -/
def expect_loop (b : Buf) : List (Nat × Nat) → expect_outcome
  | [] => .absent
  | (n, d) :: rest =>
    if strcasecmp b n (bytes "Expect") ≠ 0 then expect_loop b rest
    else if strcasecmp b d (bytes "100-continue") ≠ 0 then .failed_417
    else .continue_100

/-- The C string that `req->url` points to in the buffer `b`. -/
def url_of (b : Buf) (req : http_request) : List Nat :=
  match req.url with
  | some p => cstr b p
  | none => []

/-- The part of `uh_client_cb` from "RFC1918 filtering" to "header processing
complete", for a client `cl` whose request `req` has passed the Expect loop;
`sent` is what the call has done so far. -/
def client_dispatch (conf : client_config) (w : cb_env) (cl : client) (req : http_request)
    (sent : List client_action) : cb_result :=
  if conf.rfc1918_filter = true ∧ w.peer_rfc1918 = true ∧ w.serv_rfc1918 = false then
    ⟨uh_client_shutdown cl, sent ++ [.response 403, .shutdown]⟩
  else
    let d := uh_dispatch_request w.handlers conf.dispatch req (url_of cl.httpbuf.buf req)
    if d.ret = false then
      ⟨uh_client_shutdown { cl with request := d.req }, sent ++ [.dispatch d.action, .shutdown]⟩
    else if w.child_pid ≠ 0 then
      ⟨{ cl with
          request := d.req
          pid := w.child_pid
          proc_added := true
          timeout := uloop_timeout_set { cl.timeout with cb := some .uh_timeout_cb } w.now
            (int32 (conf.script_timeout * 1000))
          dispatched := true },
        sent ++ [.dispatch d.action, .process_add,
          .timeout_set (int32 (conf.script_timeout * 1000))]⟩
    else
      ⟨{ cl with request := d.req, pid := w.child_pid, dispatched := true },
        sent ++ [.dispatch d.action]⟩

/-- The function `uh_client_cb (u, events)` on the client `cl` that `u`
belongs to. -/
def uh_client_cb (conf : client_config) (w : cb_env) (cl : client) (events : uloop_events) :
    cb_result :=
  if cl.dispatched = false then
    if events.read = false then ⟨cl, []⟩
    else
      let r := uh_http_header_recv cl.request cl.httpbuf w.pending
      match r.outcome with
      | none => ⟨uh_client_shutdown { cl with httpbuf := r.httpbuf }, [.header_recv, .shutdown]⟩
      | some (.response status) =>
        ⟨uh_client_shutdown { cl with httpbuf := r.httpbuf },
          [.header_recv, .response status, .shutdown]⟩
      | some (.request req) =>
        let cl1 := { cl with httpbuf := r.httpbuf, request := req }
        match expect_loop r.httpbuf.buf (foreach_header req.headers) with
        | .failed_417 =>
          ⟨uh_client_shutdown cl1, [.header_recv, .response 417, .shutdown]⟩
        | .continue_100 =>
          client_dispatch conf w { cl1 with httpbuf := { cl1.httpbuf with len := 0 } } req
            [.header_recv, .continue_100]
        | .absent => client_dispatch conf w cl1 req [.header_recv]
  else if w.cb_ret = false then ⟨uh_client_shutdown cl, [.response_cb, .shutdown]⟩
  else ⟨cl, [.response_cb]⟩

/-- The function `uh_kill9_cb (t)` on the client `cl` that `t` belongs to;
`alive` says whether `kill (cl->proc.pid, 0)` returned 0. It returns the
signals it has sent. -/
def uh_kill9_cb (cl : client) (alive : Bool) : client × List signal :=
  if alive = true then (cl, [.SIGKILL]) else (cl, [])

/-- The function `uh_timeout_cb (t)` on the client `cl` that `t` belongs to,
called at the clock value `now`; `alive` says whether `kill (cl->proc.pid, 0)`
returned 0. It returns the signals it has sent. -/
def uh_timeout_cb (cl : client) (alive : Bool) (now : Int) : client × List signal :=
  if alive = true then
    ({ cl with timeout := uloop_timeout_set { cl.timeout with cb := some .uh_kill9_cb } now 1000 },
      [.SIGTERM])
  else (cl, [])

/-- Modelled from the spec: the expiry of `cl->timeout` in the event loop,
which is not among the sources. The spec has a timer source fire "once at/after
the deadline (re-arm is explicit)"; the expiry is taken at the deadline, so
that the clock counts timer time. A pending timer stops being pending and its
callback runs; the signals sent come back with the clock value. -/
def timeout_expire (cl : client) (alive : Bool) : client × List (Int × signal) :=
  if cl.timeout.pending = true then
    let cl1 := { cl with timeout := { cl.timeout with pending := false } }
    match cl.timeout.cb with
    | some .uh_timeout_cb =>
      ((uh_timeout_cb cl1 alive cl.timeout.time).1,
        (uh_timeout_cb cl1 alive cl.timeout.time).2.map (fun s => (cl.timeout.time, s)))
    | some .uh_kill9_cb =>
      ((uh_kill9_cb cl1 alive).1, (uh_kill9_cb cl1 alive).2.map (fun s => (cl.timeout.time, s)))
    | none => (cl1, [])
  else (cl, [])

/-- The expiries of `cl->timeout` one after the other, `alive` saying at each
whether the child still exists: the signals sent, with the clock values. -/
def timeout_run (cl : client) : List Bool → List (Int × signal)
  | [] => []
  | a :: rest => (timeout_expire cl a).2 ++ timeout_run (timeout_expire cl a).1 rest

/-- The callbacks of one connection one after the other, each with its event
mask and what it meets: the client record at the end and all that was done.
A client that has been shut down has left the event loop, so no later
callback reaches it. -/
def client_run (conf : client_config) : client → List (uloop_events × cb_env) → cb_result
  | cl, [] => ⟨cl, []⟩
  | cl, (ev, w) :: rest =>
    if cl.closed = true then ⟨cl, []⟩
    else
      ⟨(client_run conf (uh_client_cb conf w cl ev).cl rest).cl,
        (uh_client_cb conf w cl ev).trace ++
          (client_run conf (uh_client_cb conf w cl ev).cl rest).trace⟩

/-- The header of a stored pair that the Expect loop acts on: the value of the
first pair, in the order of the headers, whose name is `Expect` with the case
of letters ignored. -/
def first_expect (b : Buf) (hs : List (Nat × Nat)) : Option (List Nat) :=
  (hs.find? (fun p => (cstr b p.1).map tolower == (bytes "Expect").map tolower)).map
    (fun p => cstr b p.2)

/-- An environment for the sample site: the stream `pending`, no RFC1918
address, the handlers of the sample site, which all succeed, a request
handler that leaves `pid` in the client, a response callback that asks to go
on, and the clock at `now`. -/
def sample_env (pending : List (List Nat)) (pid now : Int) : cb_env :=
  { pending := pending, peer_rfc1918 := false, serv_rfc1918 := false, handlers := sample_site,
    child_pid := pid, cb_ret := true, now := now }

/-- Whether an action is a call of `uh_dispatch_request`. -/
def is_dispatch : client_action → Bool
  | .dispatch _ => true
  | _ => false

/-! # Theorems -/

/-! ## Reading and writing a buffer -/

theorem rd_nil (i : Nat) : rd [] i = 0 := by
  simp [rd]

theorem rd_cons_zero (x : Nat) (b : Buf) : rd (x :: b) 0 = x := rfl

theorem rd_cons_succ (x : Nat) (b : Buf) (i : Nat) : rd (x :: b) (i + 1) = rd b i := rfl

theorem rd_append_left (A B : Buf) (i : Nat) (h : i < A.length) : rd (A ++ B) i = rd A i := by
  unfold rd
  exact List.getD_append A B 0 i h

theorem rd_append_right (A B : Buf) (i : Nat) : rd (A ++ B) (A.length + i) = rd B i := by
  unfold rd
  rw [List.getD_append_right A B 0 (A.length + i) (Nat.le_add_right _ _)]
  simp

theorem rd_append_right_of_le (A B : Buf) (i : Nat) (h : A.length ≤ i) :
    rd (A ++ B) i = rd B (i - A.length) := by
  unfold rd
  exact List.getD_append_right A B 0 i h

theorem rd_of_length_le (b : Buf) (i : Nat) (h : b.length ≤ i) : rd b i = 0 := by
  unfold rd
  simp [List.getElem?_eq_none h]

theorem rd_mid_aux (b : Buf) (i : Nat) (h : i < b.length) : rd b i ∈ b := by
  unfold rd
  rw [List.getD_eq_getElem b 0 h]
  exact List.getElem_mem h

theorem rd_mem (b : Buf) (i : Nat) (h : i < b.length) : rd b i ∈ b := by
  unfold rd
  rw [List.getD_eq_getElem b 0 h]
  exact List.getElem_mem h

theorem length_wr (b : Buf) (i v : Nat) : (wr b i v).length = b.length := by
  simp [wr]

theorem rd_wr_same (b : Buf) (i v : Nat) (h : i < b.length) : rd (wr b i v) i = v := by
  simp [rd, wr, List.getElem?_set_self h]

theorem rd_wr_ne (b : Buf) (i j v : Nat) (h : i ≠ j) : rd (wr b i v) j = rd b j := by
  simp [rd, wr, List.getElem?_set_ne h]

theorem wr_append_left (A B : Buf) (i v : Nat) (h : i < A.length) :
    wr (A ++ B) i v = wr A i v ++ B := by
  simp [wr, List.set_append_left i v h]

theorem wr_append_right (A B : Buf) (i v : Nat) :
    wr (A ++ B) (A.length + i) v = A ++ wr B i v := by
  simp [wr, List.set_append_right]

theorem wr_append_right_of_le (A B : Buf) (i v : Nat) (h : A.length ≤ i) :
    wr (A ++ B) i v = A ++ wr B (i - A.length) v := by
  simp [wr, List.set_append_right i v h]

theorem wr_cons_zero (x : Nat) (B : Buf) (v : Nat) : wr (x :: B) 0 v = v :: B := rfl

theorem wr_cons_succ (x : Nat) (B : Buf) (i v : Nat) : wr (x :: B) (i + 1) v = x :: wr B i v := rfl

theorem wr_of_length_le (b : Buf) (i v : Nat) (h : b.length ≤ i) : wr b i v = b := by
  simp [wr, List.set_eq_of_length_le h]

theorem take_wr_of_le (b : Buf) (i k v : Nat) (h : k ≤ i) : (wr b i v).take k = b.take k := by
  rcases Nat.eq_or_lt_of_le h with h1 | h1
  · subst h1
    unfold wr
    rw [List.set_eq_take_append_cons_drop]
    split
    · rw [List.take_append_of_le_length (by simp; omega)]
      simp
    · rfl
  · exact List.take_set_of_lt v b h1

/-! ## C strings inside a buffer -/

theorem cstr_at (P A R : Buf) (h0 : 0 ∉ A) : cstr (P ++ A ++ 0 :: R) P.length = A := by
  unfold cstr
  rw [List.append_assoc, List.drop_left]
  rw [List.takeWhile_append_of_pos]
  · simp
  · intro a ha
    have : a ≠ 0 := fun h => h0 (h ▸ ha)
    simpa using this

theorem cstr_zero (A R : Buf) (h0 : 0 ∉ A) : cstr (A ++ 0 :: R) 0 = A := by
  simpa using cstr_at [] A R h0

theorem indexOf_append_cons (A B : List Nat) (c : Nat) (hc : c ∉ A) :
    (A ++ c :: B).indexOf c = A.length := by
  induction A with
  | nil => simp
  | cons a A ih =>
    have hne : a ≠ c := fun h => hc (h ▸ List.mem_cons_self _ _)
    have hc' : c ∉ A := fun h => hc (List.mem_cons_of_mem _ h)
    rw [List.cons_append, List.indexOf_cons_ne _ hne, ih hc']
    rfl

theorem strchr_found (P A B R : Buf) (c : Nat) (hc0 : c ≠ 0) (hc : c ∉ A) (h0 : 0 ∉ A)
    (hB : 0 ∉ B) :
    strchr (P ++ (A ++ c :: B) ++ 0 :: R) P.length c = some (P.length + A.length) := by
  have h0' : 0 ∉ A ++ c :: B := by
    intro h
    rcases List.mem_append.mp h with h | h
    · exact h0 h
    · rcases List.mem_cons.mp h with h | h
      · exact hc0 h.symm
      · exact hB h
  unfold strchr
  rw [cstr_at P _ R h0', if_pos (by simp), indexOf_append_cons A B c hc]

theorem strchr_none (P A R : Buf) (c : Nat) (hc : c ∉ A) (h0 : 0 ∉ A) :
    strchr (P ++ A ++ 0 :: R) P.length c = none := by
  unfold strchr
  rw [cstr_at P A R h0, if_neg hc]

/-! ## `strfind` finds the first occurrence -/

theorem match_at_crlf (b : Buf) (i : Nat) :
    match_at b i [13, 10] = true ↔ rd b i = 13 ∧ rd b (i + 1) = 10 := by
  simp [match_at]

theorem strfind_from_some (b : Buf) (hslen : Nat) (needle : List Nat) (h : Nat)
    (hfit : h + needle.length ≤ hslen) (hm : match_at b h needle = true) :
    ∀ (n i : Nat), i ≤ h → h < i + n →
      (∀ j, i ≤ j → j < h → match_at b j needle = false) →
      strfind_from b hslen needle n i = some h := by
  intro n
  induction n with
  | zero => intro i h1 h2; omega
  | succ n ih =>
    intro i h1 h2 hno
    unfold strfind_from
    rcases Nat.eq_or_lt_of_le h1 with h3 | h3
    · subst h3
      simp [hfit, hm]
    · have hj := hno i (Nat.le_refl _) h3
      simp only [hj, Bool.and_false, Bool.false_eq_true, if_false]
      exact ih (i + 1) h3 (by omega) (fun j hj1 hj2 => hno j (by omega) hj2)

theorem strfind_from_none (b : Buf) (hslen : Nat) (needle : List Nat) :
    ∀ (n i : Nat),
      (∀ j, i ≤ j → j < i + n → j + needle.length ≤ hslen → match_at b j needle = false) →
      strfind_from b hslen needle n i = none := by
  intro n
  induction n with
  | zero => intro i _; rfl
  | succ n ih =>
    intro i hno
    unfold strfind_from
    have hi : (decide (i + needle.length ≤ hslen) && match_at b i needle) = false := by
      by_cases hfit : i + needle.length ≤ hslen
      · simp [hno i (Nat.le_refl _) (by omega) hfit]
      · simp [hfit]
    rw [hi]
    simp only [Bool.false_eq_true, if_false]
    exact ih (i + 1) (fun j hj1 hj2 hj3 => hno j (by omega) (by omega) hj3)

theorem strfind_from_spec (b : Buf) (hslen : Nat) (needle : List Nat) :
    ∀ (n i h : Nat), strfind_from b hslen needle n i = some h →
      i ≤ h ∧ h < i + n ∧ h + needle.length ≤ hslen ∧ match_at b h needle = true ∧
      ∀ j, i ≤ j → j < h → match_at b j needle = false := by
  intro n
  induction n with
  | zero => intro i h hh; simp [strfind_from] at hh
  | succ n ih =>
    intro i h hh
    unfold strfind_from at hh
    by_cases hc : (decide (i + needle.length ≤ hslen) && match_at b i needle) = true
    · rw [if_pos hc] at hh
      have hih : i = h := by simpa using hh
      subst hih
      simp only [Bool.and_eq_true, decide_eq_true_eq] at hc
      exact ⟨Nat.le_refl _, by omega, hc.1, hc.2, fun j h1 h2 => by omega⟩
    · rw [if_neg hc] at hh
      obtain ⟨h1, h2, h3, h4, h5⟩ := ih (i + 1) h hh
      refine ⟨by omega, by omega, h3, h4, ?_⟩
      intro j hj1 hj2
      rcases Nat.eq_or_lt_of_le hj1 with e | e
      · subst e
        have hfit : i + needle.length ≤ hslen := by omega
        simpa [hfit] using hc
      · exact h5 j e hj2

theorem strfind_some (b : Buf) (hslen : Nat) (needle : List Nat) (h : Nat)
    (hfit : h + needle.length ≤ hslen) (hpos : 0 < needle.length)
    (hm : match_at b h needle = true)
    (hno : ∀ j, j < h → match_at b j needle = false) :
    strfind b hslen needle = some h :=
  strfind_from_some b hslen needle h hfit hm hslen 0 (Nat.zero_le _) (by omega)
    (fun j _ hj => hno j hj)

theorem strfind_spec (b : Buf) (hslen : Nat) (needle : List Nat) (h : Nat)
    (hh : strfind b hslen needle = some h) :
    h + needle.length ≤ hslen ∧ match_at b h needle = true ∧
      ∀ j, j < h → match_at b j needle = false := by
  obtain ⟨_, _, h3, h4, h5⟩ := strfind_from_spec b hslen needle hslen 0 h hh
  exact ⟨h3, h4, fun j hj => h5 j (Nat.zero_le _) hj⟩

theorem strfind_none (b : Buf) (hslen : Nat) (needle : List Nat)
    (hno : ∀ j, j + needle.length ≤ hslen → match_at b j needle = false) :
    strfind b hslen needle = none :=
  strfind_from_none b hslen needle hslen 0 (fun j _ _ hj => hno j hj)

/-! ## The header field loop writes only where it walks -/

theorem header_step_buffer (buflen i : Nat) (s : hdr_state) :
    loop_buffer (header_step buflen i s) = s.buffer ∨
      loop_buffer (header_step buflen i s) = wr s.buffer i 0 := by
  unfold header_step
  split
  · split
    · split
      · right; rfl
      · right; rfl
    · left; rfl
  · split
    · right; rfl
    · left; rfl
  · split
    · left; rfl
    · left; rfl

theorem header_step_frame (buflen i : Nat) (s : hdr_state) :
    (loop_buffer (header_step buflen i s)).take i = s.buffer.take i ∧
      (loop_buffer (header_step buflen i s)).drop (i + 1) = s.buffer.drop (i + 1) ∧
      (loop_buffer (header_step buflen i s)).length = s.buffer.length := by
  rcases header_step_buffer buflen i s with h | h
  · rw [h]; exact ⟨rfl, rfl, rfl⟩
  · rw [h]
    exact ⟨take_wr_of_le _ _ _ _ (Nat.le_refl _), List.drop_set_of_lt _ _ (Nat.lt_succ_self _),
      length_wr _ _ _⟩

theorem header_loop_frame (buflen : Nat) :
    ∀ (n i : Nat) (s : hdr_state),
      (loop_buffer (header_loop buflen n i s)).take i = s.buffer.take i ∧
      (loop_buffer (header_loop buflen n i s)).drop (i + n) = s.buffer.drop (i + n) ∧
      (loop_buffer (header_loop buflen n i s)).length = s.buffer.length := by
  intro n
  induction n with
  | zero => intro i s; exact ⟨rfl, rfl, rfl⟩
  | succ n ih =>
    intro i s
    obtain ⟨f1, f2, f3⟩ := header_step_frame buflen i s
    unfold header_loop
    cases hs : header_step buflen i s with
    | error b =>
      rw [hs] at f1 f2 f3
      simp only [loop_buffer] at f1 f2 f3 ⊢
      refine ⟨f1, ?_, f3⟩
      have := congrArg (List.drop n) f2
      simpa [List.drop_drop, Nat.add_comm, Nat.add_left_comm, Nat.add_assoc] using this
    | ok s' =>
      rw [hs] at f1 f2 f3
      simp only [loop_buffer] at f1 f2 f3
      obtain ⟨g1, g2, g3⟩ := ih (i + 1) s'
      simp only []
      refine ⟨?_, ?_, by rw [g3, f3]⟩
      · have := congrArg (List.take i) g1
        rw [List.take_take, List.take_take] at this
        simpa [f1] using this
      · have e : i + (n + 1) = i + 1 + n := by omega
        rw [e, g2]
        have := congrArg (List.drop n) f2
        simpa [List.drop_drop, Nat.add_comm, Nat.add_left_comm, Nat.add_assoc] using this

/-! ## The request line -/

theorem length_prelude_tail (R : Buf) (k buflen : Nat) :
    (prelude_tail R k buflen).length = R.length := by
  unfold prelude_tail
  split <;> simp [length_wr]

theorem wr_mid (P : Buf) (x : Nat) (R : Buf) (v : Nat) :
    wr (P ++ x :: R) P.length v = P ++ v :: R := by
  have := wr_append_right P (x :: R) 0 v
  simpa [wr_cons_zero] using this

theorem prelude_wr (L R : Buf) (buflen : Nat) (hlen : L.length + 2 ≤ buflen) :
    wr (wr (wr (L ++ 13 :: 10 :: R) (buflen - 1) 0) L.length 0) (L.length + 1) 0 =
      L ++ 0 :: 0 :: prelude_tail R L.length buflen := by
  have e1 : wr (L ++ 13 :: 10 :: R) (buflen - 1) 0 =
      L ++ 13 :: (if buflen ≤ L.length + 2 then 0 else 10) :: prelude_tail R L.length buflen := by
    unfold prelude_tail
    by_cases hb : buflen ≤ L.length + 2
    · have hb' : buflen - 1 = L.length + 1 := by omega
      rw [hb', if_pos hb, if_pos hb]
      have := wr_append_right L (13 :: 10 :: R) 1 0
      simpa [wr_cons_succ, wr_cons_zero] using this
    · have hb' : buflen - 1 = L.length + (buflen - (L.length + 3) + 2) := by omega
      rw [hb', if_neg hb, if_neg hb, wr_append_right]
      rfl
  rw [e1, wr_mid]
  have := wr_mid (L ++ [0]) (if buflen ≤ L.length + 2 then 0 else 10)
    (prelude_tail R L.length buflen) 0
  simpa using this

theorem ite_zero_one_ne_zero (c : Prop) [Decidable c] :
    (if c then (0 : Nat) else 1) ≠ 0 ↔ ¬ c := by
  by_cases h : c <;> simp [h]

theorem cstr_at' (P A R : Buf) (h0 : 0 ∉ A) : cstr (P ++ (A ++ 0 :: R)) P.length = A := by
  have := cstr_at P A R h0
  simpa using this

theorem strchr_found' (P A B R : Buf) (c : Nat) (hc0 : c ≠ 0) (hc : c ∉ A) (h0 : 0 ∉ A)
    (hB : 0 ∉ B) :
    strchr (P ++ (A ++ c :: (B ++ 0 :: R))) P.length c = some (P.length + A.length) := by
  have := strchr_found P A B R c hc0 hc h0 hB
  simpa using this

theorem strchr_none' (P A R : Buf) (c : Nat) (hc : c ∉ A) (h0 : 0 ∉ A) :
    strchr (P ++ (A ++ 0 :: R)) P.length c = none := by
  have := strchr_none P A R c hc h0
  simpa using this

theorem wr_mid' (P A : Buf) (x : Nat) (R : Buf) (v : Nat) :
    wr (P ++ (A ++ x :: R)) (P.length + A.length) v = P ++ (A ++ v :: R) := by
  have := wr_mid (P ++ A) x R v
  simpa using this

theorem parse_three (req : http_request) (M U V R : Buf) (buflen : Nat)
    (hM0 : 0 ∉ M) (hM : 32 ∉ M) (hU0 : 0 ∉ U) (hU : 32 ∉ U) (hV0 : 0 ∉ V)
    (hfind : strfind (M ++ 32 :: (U ++ 32 :: (V ++ 13 :: 10 :: R))) buflen [13, 10] =
      some (M.length + 1 + U.length + 1 + V.length)) :
    uh_http_header_parse req (M ++ 32 :: (U ++ 32 :: (V ++ 13 :: 10 :: R))) buflen =
      (let h := M.length + 1 + U.length + 1 + V.length
       let b3 := M ++ 0 :: (U ++ 0 :: (V ++ 0 :: 0 :: prelude_tail R h buflen))
       if M ≠ bytes "GET" ∧ M ≠ bytes "HEAD" ∧ M ≠ bytes "POST" then ⟨b3, .response 405⟩
       else if U = [] then ⟨b3, .response 400⟩
       else if V ≠ bytes "HTTP/0.9" ∧ V ≠ bytes "HTTP/1.0" ∧ V ≠ bytes "HTTP/1.1" then
         ⟨b3, .response 400⟩
       else parse_fields req b3 buflen (h + 2)
         (if rd b3 0 = ch 'G' then http_method.GET
          else if rd b3 0 = ch 'H' then http_method.HEAD
          else if rd b3 0 = ch 'P' then http_method.POST
          else req.method) (M.length + 1) (M.length + 1 + U.length + 1)) := by
  have hfit := (strfind_spec _ _ _ _ hfind).1
  simp only [List.length_cons, List.length_nil] at hfit
  have hpre := prelude_wr (M ++ 32 :: (U ++ 32 :: V)) R buflen (by simp; omega)
  simp only [List.append_assoc, List.cons_append, List.length_append, List.length_cons] at hpre
  have e0 : M.length + (U.length + (V.length + 1) + 1) = M.length + 1 + U.length + 1 + V.length := by
    omega
  rw [e0] at hpre
  have hc1 := strchr_found' [] M (U ++ 32 :: V) (0 :: prelude_tail R
    (M.length + 1 + U.length + 1 + V.length) buflen) 32 (by decide) hM hM0 (by
      simp only [List.mem_append, List.mem_cons]
      rintro (h | h | h)
      · exact hU0 h
      · exact absurd h (by decide)
      · exact hV0 h)
  simp only [List.nil_append, List.length_nil, Nat.zero_add, List.append_assoc,
    List.cons_append] at hc1
  have hw1 := wr_mid' [] M 32 (U ++ 32 :: (V ++ 0 :: 0 :: prelude_tail R
    (M.length + 1 + U.length + 1 + V.length) buflen)) 0
  simp only [List.nil_append, List.length_nil, Nat.zero_add] at hw1
  have hc2 := strchr_found' (M ++ [0]) U V (0 :: prelude_tail R
    (M.length + 1 + U.length + 1 + V.length) buflen) 32 (by decide) hU hU0 hV0
  simp only [List.append_assoc, List.cons_append, List.nil_append, List.length_append,
    List.length_cons, List.length_nil, Nat.zero_add] at hc2
  have hw2 := wr_mid' (M ++ [0]) U 32 (V ++ 0 :: 0 :: prelude_tail R
    (M.length + 1 + U.length + 1 + V.length) buflen) 0
  simp only [List.append_assoc, List.cons_append, List.nil_append, List.length_append,
    List.length_cons, List.length_nil, Nat.zero_add] at hw2
  have hs0 := cstr_at' [] M (U ++ 0 :: (V ++ 0 :: 0 :: prelude_tail R
    (M.length + 1 + U.length + 1 + V.length) buflen)) hM0
  simp only [List.nil_append, List.length_nil] at hs0
  have hs1 := cstr_at' (M ++ [0]) U (V ++ 0 :: 0 :: prelude_tail R
    (M.length + 1 + U.length + 1 + V.length) buflen) hU0
  simp only [List.append_assoc, List.cons_append, List.nil_append, List.length_append,
    List.length_cons, List.length_nil, Nat.zero_add] at hs1
  have hs2 := cstr_at' (M ++ 0 :: (U ++ [0])) V (0 :: prelude_tail R
    (M.length + 1 + U.length + 1 + V.length) buflen) hV0
  simp only [List.append_assoc, List.cons_append, List.nil_append, List.length_append,
    List.length_cons, List.length_nil, Nat.zero_add] at hs2
  have e1 : M.length + (U.length + 1 + 1) = M.length + 1 + U.length + 1 := by omega
  rw [e1] at hs2
  unfold uh_http_header_parse
  rw [hfind]
  simp only [hpre, hc1, hw1, Option.map_some', Option.some_bind, hc2, hw2, strcmp, hs0, hs1, hs2,
    strlen, parse_fields, ite_zero_one_ne_zero, List.length_eq_zero, ne_eq]

theorem parse_two (req : http_request) (M U R : Buf) (buflen : Nat)
    (hM0 : 0 ∉ M) (hM : 32 ∉ M) (hU0 : 0 ∉ U) (hU : 32 ∉ U)
    (hfind : strfind (M ++ 32 :: (U ++ 13 :: 10 :: R)) buflen [13, 10] =
      some (M.length + 1 + U.length)) :
    (uh_http_header_parse req (M ++ 32 :: (U ++ 13 :: 10 :: R)) buflen).outcome =
      if M ≠ bytes "GET" ∧ M ≠ bytes "HEAD" ∧ M ≠ bytes "POST" then .response 405
      else .response 400 := by
  have hfit := (strfind_spec _ _ _ _ hfind).1
  simp only [List.length_cons, List.length_nil] at hfit
  have hpre := prelude_wr (M ++ 32 :: U) R buflen (by simp; omega)
  simp only [List.append_assoc, List.cons_append, List.length_append, List.length_cons] at hpre
  have e0 : M.length + (U.length + 1) = M.length + 1 + U.length := by omega
  rw [e0] at hpre
  have hc1 := strchr_found' [] M U (0 :: prelude_tail R (M.length + 1 + U.length) buflen) 32
    (by decide) hM hM0 hU0
  simp only [List.nil_append, List.length_nil, Nat.zero_add, List.append_assoc,
    List.cons_append] at hc1
  have hw1 := wr_mid' [] M 32 (U ++ 0 :: 0 :: prelude_tail R (M.length + 1 + U.length) buflen) 0
  simp only [List.nil_append, List.length_nil, Nat.zero_add] at hw1
  have hc2 := strchr_none' (M ++ [0]) U (0 :: prelude_tail R (M.length + 1 + U.length) buflen) 32
    hU hU0
  simp only [List.append_assoc, List.cons_append, List.nil_append, List.length_append,
    List.length_cons, List.length_nil, Nat.zero_add] at hc2
  have hs0 := cstr_at' [] M (U ++ 0 :: 0 :: prelude_tail R (M.length + 1 + U.length) buflen) hM0
  simp only [List.nil_append, List.length_nil] at hs0
  unfold uh_http_header_parse
  rw [hfind]
  simp only [hpre, hc1, hw1, Option.map_some', Option.some_bind, hc2, strcmp, hs0,
    Option.map_none', ite_zero_one_ne_zero, ne_eq]
  split_ifs <;> rfl

theorem parse_one (req : http_request) (L R : Buf) (buflen : Nat)
    (hL0 : 0 ∉ L) (hL : 32 ∉ L)
    (hfind : strfind (L ++ 13 :: 10 :: R) buflen [13, 10] = some L.length) :
    (uh_http_header_parse req (L ++ 13 :: 10 :: R) buflen).outcome =
      if L ≠ bytes "GET" ∧ L ≠ bytes "HEAD" ∧ L ≠ bytes "POST" then .response 405
      else .response 400 := by
  have hfit := (strfind_spec _ _ _ _ hfind).1
  simp only [List.length_cons, List.length_nil] at hfit
  have hpre := prelude_wr L R buflen (by omega)
  have hc1 := strchr_none' [] L (0 :: prelude_tail R L.length buflen) 32 hL hL0
  simp only [List.nil_append, List.length_nil] at hc1
  have hs0 := cstr_at' [] L (0 :: prelude_tail R L.length buflen) hL0
  simp only [List.nil_append, List.length_nil] at hs0
  unfold uh_http_header_parse
  rw [hfind]
  simp only [hpre, hc1, Option.map_none', Option.none_bind, strcmp, hs0,
    ite_zero_one_ne_zero, ne_eq]
  split_ifs <;> rfl

theorem strfind_crlf_line (L R : Buf) (buflen : Nat)
    (hcrlf : ∀ j, j < L.length →
      ¬ (rd (L ++ 13 :: 10 :: R) j = 13 ∧ rd (L ++ 13 :: 10 :: R) (j + 1) = 10))
    (hlen : L.length + 2 ≤ buflen) :
    strfind (L ++ 13 :: 10 :: R) buflen [13, 10] = some L.length := by
  apply strfind_some
  · simpa using hlen
  · simp
  · rw [match_at_crlf]
    have h1 := rd_append_right L (13 :: 10 :: R) 0
    have h2 := rd_append_right L (13 :: 10 :: R) 1
    simp only [Nat.add_zero, rd_cons_zero, rd_cons_succ] at h1 h2
    exact ⟨h1, h2⟩
  · intro j hj
    have := hcrlf j hj
    rw [← match_at_crlf] at this
    simpa using this

/-! ## The words of a request line -/

theorem first_word_not_mem (l : List Nat) : 32 ∉ first_word l := by
  unfold first_word
  intro h
  have := List.mem_takeWhile_imp h
  simp at this

theorem first_word_of_not_mem (l : List Nat) (h : 32 ∉ l) : first_word l = l := by
  unfold first_word
  apply List.takeWhile_eq_self_iff.mpr
  intro a ha
  have : a ≠ 32 := fun e => h (e ▸ ha)
  simpa using this

theorem after_space_of_not_mem (l : List Nat) (h : 32 ∉ l) : after_space l = none := by
  simp [after_space, h]

theorem split_space (l : List Nat) (h : 32 ∈ l) :
    ∃ rest, after_space l = some rest ∧ l = first_word l ++ 32 :: rest := by
  refine ⟨(l.dropWhile (fun c => c != 32)).drop 1, by simp [after_space, h], ?_⟩
  induction l with
  | nil => simp at h
  | cons a l ih =>
    by_cases ha : a = 32
    · subst ha
      simp [first_word]
    · have h' : 32 ∈ l := by
        rcases List.mem_cons.mp h with e | e
        · exact absurd e.symm ha
        · exact e
      have := ih h'
      simp only [first_word] at this ⊢
      rw [List.takeWhile_cons_of_pos (by simpa using ha),
        List.dropWhile_cons_of_pos (by simpa using ha)]
      rw [List.cons_append, ← this]

theorem bytes_GET : bytes "GET" = [71, 69, 84] := by decide

theorem bytes_HEAD : bytes "HEAD" = [72, 69, 65, 68] := by decide

theorem bytes_POST : bytes "POST" = [80, 79, 83, 84] := by decide

theorem bytes_HTTP09 : bytes "HTTP/0.9" = [72, 84, 84, 80, 47, 48, 46, 57] := by decide

theorem bytes_HTTP10 : bytes "HTTP/1.0" = [72, 84, 84, 80, 47, 49, 46, 48] := by decide

theorem bytes_HTTP11 : bytes "HTTP/1.1" = [72, 84, 84, 80, 47, 49, 46, 49] := by decide

theorem method_of_eq_none (m : List Nat) :
    method_of m = none ↔ m ≠ bytes "GET" ∧ m ≠ bytes "HEAD" ∧ m ≠ bytes "POST" := by
  unfold method_of
  split_ifs <;> simp_all

theorem version_of_eq_none (v : List Nat) :
    version_of v = none ↔ v ≠ bytes "HTTP/0.9" ∧ v ≠ bytes "HTTP/1.0" ∧ v ≠ bytes "HTTP/1.1" := by
  unfold version_of
  split_ifs <;> simp_all

theorem method_switch (M R : Buf) (m d : http_method) (h : method_of M = some m) :
    (if rd (M ++ R) 0 = ch 'G' then http_method.GET
      else if rd (M ++ R) 0 = ch 'H' then http_method.HEAD
      else if rd (M ++ R) 0 = ch 'P' then http_method.POST
      else d) = m := by
  unfold method_of at h
  split_ifs at h with h1 h2 h3
  · subst h1; rw [bytes_GET]; simpa [rd, ch] using h
  · subst h2; rw [bytes_HEAD]; simpa [rd, ch] using h
  · subst h3; rw [bytes_POST]; simpa [rd, ch] using h

theorem strtof10_version (P V R : Buf) (ver : Nat) (h : version_of V = some ver) :
    strtof10 (P ++ (V ++ R)) (P.length + 5) = ver := by
  unfold strtof10
  rw [Nat.add_assoc, rd_append_right, rd_append_right]
  unfold version_of at h
  split_ifs at h with h1 h2 h3
  · subst h1; rw [bytes_HTTP09]; simpa [rd] using h
  · subst h2; rw [bytes_HTTP10]; simpa [rd] using h
  · subst h3; rw [bytes_HTTP11]; simpa [rd] using h

/-! ## The header field loop on well-formed field lines -/

theorem header_loop_succ (buflen n i : Nat) (s : hdr_state) :
    header_loop buflen (n + 1) i s =
      match header_step buflen i s with
      | .error b => .error b
      | .ok s' => header_loop buflen n (i + 1) s' := rfl

theorem header_loop_add (buflen : Nat) :
    ∀ (a b i : Nat) (s : hdr_state),
      header_loop buflen (a + b) i s =
        match header_loop buflen a i s with
        | .error e => .error e
        | .ok s' => header_loop buflen b (i + a) s' := by
  intro a
  induction a with
  | zero => intro b i s; simp [header_loop]
  | succ a ih =>
    intro b i s
    have e : a + 1 + b = (a + b) + 1 := by omega
    rw [e, header_loop_succ, header_loop_succ]
    cases header_step buflen i s with
    | error x => rfl
    | ok s' =>
      simp only []
      rw [ih b (i + 1) s']
      have e2 : i + 1 + a = i + (a + 1) := by omega
      rw [e2]

theorem header_loop_skip (buflen : Nat) (s : hdr_state) :
    ∀ (n i : Nat), (∀ j, i ≤ j → j < i + n → header_step buflen j s = .ok s) →
      header_loop buflen n i s = .ok s := by
  intro n
  induction n with
  | zero => intro i _; rfl
  | succ n ih =>
    intro i h
    rw [header_loop_succ, h i (Nat.le_refl _) (by omega)]
    exact ih (i + 1) (fun j h1 h2 => h j (by omega) (by omega))

theorem header_step_idle (buflen i : Nat) (b : Buf) (c : Nat) (H : List (Option Nat))
    (h : isalpha (rd b i) = false) :
    header_step buflen i ⟨b, none, none, c, H⟩ = .ok ⟨b, none, none, c, H⟩ := by
  simp [header_step, h]

theorem header_step_start (buflen i : Nat) (b : Buf) (c : Nat) (H : List (Option Nat))
    (h : isalpha (rd b i) = true) :
    header_step buflen i ⟨b, none, none, c, H⟩ = .ok ⟨b, some i, none, c, H⟩ := by
  simp [header_step, h]

theorem header_step_name (buflen i : Nat) (b : Buf) (n c : Nat) (H : List (Option Nat))
    (h : rd b i ≠ 58) :
    header_step buflen i ⟨b, some n, none, c, H⟩ = .ok ⟨b, some n, none, c, H⟩ := by
  simp [header_step, h]

theorem header_step_colon (buflen i : Nat) (b : Buf) (n c : Nat) (H : List (Option Nat))
    (h : rd b i = 58) (hi : i + 1 < buflen) :
    header_step buflen i ⟨b, some n, none, c, H⟩ =
      .ok ⟨wr b i 0, some n,
        some (skip_spaces (wr b i 0) buflen (buflen - (i + 1)) (i + 1)), c, H⟩ := by
  simp [header_step, h, hi]

theorem header_step_value (buflen i : Nat) (b : Buf) (n d c : Nat) (H : List (Option Nat))
    (h13 : rd b i ≠ 13) (h10 : rd b i ≠ 10) :
    header_step buflen i ⟨b, some n, some d, c, H⟩ = .ok ⟨b, some n, some d, c, H⟩ := by
  simp [header_step, h13, h10]

theorem header_step_store (buflen i : Nat) (b : Buf) (n d c : Nat) (H : List (Option Nat))
    (h : rd b i = 13 ∨ rd b i = 10) (hc : c + 1 < H.length) :
    header_step buflen i ⟨b, some n, some d, c, H⟩ =
      .ok ⟨wr b i 0, none, none, c + 2, (H.set c (some n)).set (c + 1) (some d)⟩ := by
  rcases h with h | h <;> simp [header_step, h, hc]

theorem header_step_full (buflen i : Nat) (b : Buf) (n d c : Nat) (H : List (Option Nat))
    (h : rd b i = 13 ∨ rd b i = 10) (hc : ¬ c + 1 < H.length) :
    header_step buflen i ⟨b, some n, some d, c, H⟩ = .error (wr b i 0) := by
  rcases h with h | h <;> simp [header_step, h, hc]

theorem rd_mid (P M R : Buf) (j : Nat) (h1 : P.length ≤ j) (h2 : j < P.length + M.length) :
    rd (P ++ (M ++ R)) j ∈ M := by
  rw [rd_append_right_of_le P _ j h1, rd_append_left M R _ (by omega)]
  exact rd_mid_aux M _ (by omega)

theorem skip_spaces_rest (t : Nat) (X : Buf) (buflen : Nat) (ht : t ≠ 32) :
    ∀ (rest P : Buf) (n : Nat), rest.length ≤ n → P.length + rest.length < buflen →
      skip_spaces (P ++ (rest ++ t :: X)) buflen n P.length =
        P.length + (rest.takeWhile (fun c => c == 32)).length := by
  intro rest
  induction rest with
  | nil =>
    intro P n _ _
    have hr : rd (P ++ ([] ++ t :: X)) P.length = t := by
      have := rd_append_right P (t :: X) 0
      simpa [rd_cons_zero] using this
    cases n with
    | zero => simp [skip_spaces]
    | succ n =>
      have hc : (decide (P.length + 1 < buflen) && rd (P ++ ([] ++ t :: X)) P.length == 32) =
          false := by
        rw [hr]; simp [ht]
      unfold skip_spaces
      rw [hc]
      simp
  | cons r rs ih =>
    intro P n hn hlen
    simp only [List.length_cons] at hn hlen
    obtain ⟨n', rfl⟩ : ∃ n', n = n' + 1 := ⟨n - 1, by omega⟩
    have hr : rd (P ++ (r :: rs ++ t :: X)) P.length = r := by
      have := rd_append_right P (r :: rs ++ t :: X) 0
      simpa [rd_cons_zero] using this
    unfold skip_spaces
    by_cases hr32 : r = 32
    · subst hr32
      have hlt : P.length + 1 < buflen := by omega
      simp only [hr, hlt, decide_True, beq_self_eq_true, Bool.and_self, if_true]
      have := ih (P ++ [32]) n' (by omega) (by simp; omega)
      simp only [List.append_assoc, List.singleton_append, List.length_append,
        List.length_singleton] at this
      rw [List.cons_append, this]
      simp
      omega
    · have hc : (decide (P.length + 1 < buflen) &&
          rd (P ++ (r :: rs ++ t :: X)) P.length == 32) = false := by
        rw [hr]; simp [hr32]
      rw [hc]
      simp [hr32]

theorem isalpha_zero : isalpha 0 = false := by decide

theorem header_loop_line (buflen : Nat) (A name rest : Buf) (t : Nat) (X : Buf) (c : Nat)
    (H : List (Option Nat))
    (hname : isalpha (name.headD 0) = true) (hcolon : 58 ∉ name)
    (h13 : 13 ∉ rest) (h10 : 10 ∉ rest) (ht : t = 13 ∨ t = 10)
    (hlen : A.length + name.length + 1 + rest.length < buflen) :
    header_loop buflen (name.length + 1 + rest.length + 1) A.length
        ⟨A ++ (name ++ 58 :: (rest ++ t :: X)), none, none, c, H⟩ =
      if c + 1 < H.length then
        .ok ⟨A ++ (name ++ 0 :: (rest ++ 0 :: X)), none, none, c + 2,
          (H.set c (some A.length)).set (c + 1)
            (some (A.length + name.length + 1 + (rest.takeWhile (fun x => x == 32)).length))⟩
      else .error (A ++ (name ++ 0 :: (rest ++ 0 :: X))) := by
  obtain ⟨a, nm, rfl⟩ : ∃ a nm, name = a :: nm := by
    cases name with
    | nil => simp [isalpha_zero] at hname
    | cons a nm => exact ⟨a, nm, rfl⟩
  simp only [List.headD_cons] at hname
  simp only [List.length_cons] at hlen ⊢
  have eN : nm.length + 1 + 1 + rest.length + 1 = (nm.length + ((rest.length + 1) + 1)) + 1 := by
    omega
  rw [eN, header_loop_succ]
  -- the first letter of the name
  have hr0 : rd (A ++ (a :: nm ++ 58 :: (rest ++ t :: X))) A.length = a := by
    have := rd_append_right A (a :: nm ++ 58 :: (rest ++ t :: X)) 0
    simpa [rd_cons_zero] using this
  rw [header_step_start _ _ _ _ _ (by rw [hr0]; exact hname)]
  simp only []
  -- the other bytes of the name
  rw [header_loop_add]
  have hskip1 := header_loop_skip buflen
    ⟨A ++ (a :: nm ++ 58 :: (rest ++ t :: X)), some A.length, none, c, H⟩ nm.length
    (A.length + 1) (by
      intro j hj1 hj2
      apply header_step_name
      have hb : A ++ (a :: nm ++ 58 :: (rest ++ t :: X)) =
          (A ++ [a]) ++ (nm ++ 58 :: (rest ++ t :: X)) := by simp
      have hm := rd_mid (A ++ [a]) nm (58 :: (rest ++ t :: X)) j (by simpa using hj1)
        (by simpa using hj2)
      rw [← hb] at hm
      intro h58
      exact hcolon (List.mem_cons_of_mem _ (h58 ▸ hm)))
  rw [hskip1]
  simp only []
  -- the colon
  rw [header_loop_succ]
  have hb1 : A ++ (a :: nm ++ 58 :: (rest ++ t :: X)) =
      (A ++ a :: nm) ++ 58 :: (rest ++ t :: X) := by simp
  have hl1 : (A ++ a :: nm).length = A.length + 1 + nm.length := by simp; omega
  have hr1 : rd (A ++ (a :: nm ++ 58 :: (rest ++ t :: X))) (A.length + 1 + nm.length) = 58 := by
    rw [hb1, ← hl1]
    have := rd_append_right (A ++ a :: nm) (58 :: (rest ++ t :: X)) 0
    simpa [rd_cons_zero] using this
  have hw1 : wr (A ++ (a :: nm ++ 58 :: (rest ++ t :: X))) (A.length + 1 + nm.length) 0 =
      (A ++ a :: nm ++ [0]) ++ (rest ++ t :: X) := by
    rw [hb1, ← hl1, wr_mid]
    simp
  rw [header_step_colon _ _ _ _ _ _ hr1 (by omega), hw1]
  simp only []
  have hl2 : (A ++ a :: nm ++ [0]).length = A.length + 1 + nm.length + 1 := by simp; omega
  have hsp := skip_spaces_rest t X buflen (by rcases ht with h | h <;> omega) rest
    (A ++ a :: nm ++ [0]) (buflen - (A.length + 1 + nm.length + 1)) (by omega) (by rw [hl2]; omega)
  rw [hl2] at hsp
  rw [hsp]
  -- the text after the colon
  rw [header_loop_add]
  have hskip2 := header_loop_skip buflen
    ⟨(A ++ a :: nm ++ [0]) ++ (rest ++ t :: X), some A.length,
      some (A.length + 1 + nm.length + 1 + (rest.takeWhile (fun x => x == 32)).length), c, H⟩
    rest.length (A.length + 1 + nm.length + 1) (by
      intro j hj1 hj2
      have hm := rd_mid (A ++ a :: nm ++ [0]) rest (t :: X) j (by rw [hl2]; exact hj1)
        (by rw [hl2]; exact hj2)
      apply header_step_value
      · intro h; exact h13 (h ▸ hm)
      · intro h; exact h10 (h ▸ hm))
  rw [hskip2]
  simp only []
  -- the line terminator
  rw [header_loop_succ]
  have hb2 : (A ++ a :: nm ++ [0]) ++ (rest ++ t :: X) =
      (A ++ a :: nm ++ [0] ++ rest) ++ t :: X := by simp
  have hl3 : (A ++ a :: nm ++ [0] ++ rest).length = A.length + 1 + nm.length + 1 + rest.length := by
    simp; omega
  have hr2 : rd ((A ++ a :: nm ++ [0]) ++ (rest ++ t :: X))
      (A.length + 1 + nm.length + 1 + rest.length) = t := by
    rw [hb2, ← hl3]
    have := rd_append_right (A ++ a :: nm ++ [0] ++ rest) (t :: X) 0
    simpa [rd_cons_zero] using this
  have hw2 : wr ((A ++ a :: nm ++ [0]) ++ (rest ++ t :: X))
      (A.length + 1 + nm.length + 1 + rest.length) 0 =
      A ++ (a :: nm ++ 0 :: (rest ++ 0 :: X)) := by
    rw [hb2, ← hl3, wr_mid]
    simp
  have ht' : rd ((A ++ a :: nm ++ [0]) ++ (rest ++ t :: X))
      (A.length + 1 + nm.length + 1 + rest.length) = 13 ∨
      rd ((A ++ a :: nm ++ [0]) ++ (rest ++ t :: X))
      (A.length + 1 + nm.length + 1 + rest.length) = 10 := by
    rw [hr2]; exact ht
  have eD : A.length + (nm.length + 1) + 1 + (rest.takeWhile (fun x => x == 32)).length =
      A.length + 1 + nm.length + 1 + (rest.takeWhile (fun x => x == 32)).length := by omega
  by_cases hc : c + 1 < H.length
  · rw [header_step_store _ _ _ _ _ _ _ ht' hc, hw2, if_pos hc]
    simp only [header_loop]
    rw [eD]
  · rw [header_step_full _ _ _ _ _ _ _ ht' hc, hw2, if_neg hc]

theorem length_field_ptrs (fs : List field_line) : ∀ o, (field_ptrs o fs).length = 2 * fs.length := by
  induction fs with
  | nil => intro o; rfl
  | cons f fs ih => intro o; simp [field_ptrs, ih]; omega

theorem length_parsed (f : field_line) (h : f.wellformed) : f.parsed.length = f.text.length := by
  obtain ⟨_, _, _, _, _, _, ht⟩ := h
  unfold field_line.parsed field_line.text
  rcases ht with ht | ht | ht <;> simp [ht]

theorem set_two (H : List (Option Nat)) (c : Nat) (x y : Option Nat) (hc : c + 1 < H.length) :
    (H.set c x).set (c + 1) y = H.take c ++ x :: y :: H.drop (c + 2) := by
  induction H generalizing c with
  | nil => simp at hc
  | cons a H ih =>
    cases c with
    | zero =>
      cases H with
      | nil => simp at hc
      | cons b H => simp
    | succ c =>
      simp only [List.length_cons] at hc
      have := ih c (by omega)
      simp only [List.set_cons_succ, List.take_succ_cons, List.cons_append, List.drop_succ_cons]
      rw [this]

theorem header_loop_fields (buflen : Nat) (E T : Buf) (hE : ∀ x ∈ E, isalpha x = false)
    (hE1 : E ≠ []) :
    ∀ (fs : List field_line) (A : Buf) (c : Nat) (H : List (Option Nat)),
      (∀ f ∈ fs, f.wellformed) →
      A.length + (fields_text fs).length + E.length = buflen →
      ∃ b, header_loop buflen ((fields_text fs).length + E.length) A.length
          ⟨A ++ (fields_text fs ++ (E ++ T)), none, none, c, H⟩ =
        if 2 * fs.length ≤ H.length - c then
          .ok ⟨A ++ (fields_parsed fs ++ (E ++ T)), none, none, c + 2 * fs.length,
            H.take c ++ (field_ptrs A.length fs ++ H.drop (c + 2 * fs.length))⟩
        else .error b := by
  intro fs
  induction fs with
  | nil =>
    intro A c H _ hlen
    refine ⟨[], ?_⟩
    simp only [fields_text, fields_parsed, field_ptrs, List.length_nil, Nat.zero_add,
      Nat.mul_zero, Nat.zero_le, if_true, Nat.add_zero, List.nil_append,
      List.take_append_drop]
    apply header_loop_skip
    intro j hj1 hj2
    apply header_step_idle
    exact hE _ (rd_mid A E T j hj1 hj2)
  | cons f fs ih =>
    intro A c H hwf hlen
    have hf := hwf f (List.mem_cons_self _ _)
    have hfs : ∀ g ∈ fs, g.wellformed := fun g hg => hwf g (List.mem_cons_of_mem _ hg)
    obtain ⟨hn, hcol, _, _, h13, h10, hterm⟩ := hf
    obtain ⟨t, junk, hteq, ht, hjunk⟩ : ∃ t junk, f.term = t :: junk ∧ (t = 13 ∨ t = 10) ∧
        ∀ x ∈ junk, isalpha x = false := by
      rcases hterm with h | h | h
      · exact ⟨13, [10], h, Or.inl rfl, by simp; decide⟩
      · exact ⟨13, [], h, Or.inl rfl, by simp⟩
      · exact ⟨10, [], h, Or.inr rfl, by simp⟩
    have hE2 : 0 < E.length := List.length_pos.mpr hE1
    have htext : f.text = f.name ++ 58 :: (f.rest ++ t :: junk) := by
      simp [field_line.text, hteq]
    have hparsed : f.parsed = f.name ++ 0 :: (f.rest ++ 0 :: junk) := by
      simp [field_line.parsed, hteq]
    have hb0 : A ++ (fields_text (f :: fs) ++ (E ++ T)) =
        A ++ (f.name ++ 58 :: (f.rest ++ t :: (junk ++ (fields_text fs ++ (E ++ T))))) := by
      simp [fields_text, htext]
    have hcount : (fields_text (f :: fs)).length + E.length =
        (f.name.length + 1 + f.rest.length + 1) +
          (junk.length + ((fields_text fs).length + E.length)) := by
      simp [fields_text, htext]; omega
    have hlen' : A.length + f.name.length + 1 + f.rest.length < buflen := by
      rw [← hlen]; simp [fields_text, htext]; omega
    rw [hb0, hcount, header_loop_add,
      header_loop_line buflen A f.name f.rest t _ c H hn hcol h13 h10 ht hlen']
    by_cases hc : c + 1 < H.length
    swap
    · refine ⟨A ++ (f.name ++ 0 :: (f.rest ++ 0 :: (junk ++ (fields_text fs ++ (E ++ T))))), ?_⟩
      rw [if_neg hc, if_neg (by simp only [List.length_cons]; omega)]
    rw [if_pos hc]
    simp only []
    rw [header_loop_add]
    have hA1 : A ++ (f.name ++ 0 :: (f.rest ++ 0 :: (junk ++ (fields_text fs ++ (E ++ T))))) =
        (A ++ (f.name ++ 0 :: (f.rest ++ [0]))) ++ (junk ++ (fields_text fs ++ (E ++ T))) := by
      simp
    have hl1 : (A ++ (f.name ++ 0 :: (f.rest ++ [0]))).length =
        A.length + (f.name.length + 1 + f.rest.length + 1) := by
      simp; omega
    have hskip := header_loop_skip buflen
      ⟨A ++ (f.name ++ 0 :: (f.rest ++ 0 :: (junk ++ (fields_text fs ++ (E ++ T))))), none, none,
        c + 2, (H.set c (some A.length)).set (c + 1)
          (some (A.length + f.name.length + 1 + (f.rest.takeWhile (fun x => x == 32)).length))⟩
      junk.length (A.length + (f.name.length + 1 + f.rest.length + 1)) (by
        intro j hj1 hj2
        apply header_step_idle
        rw [hA1]
        exact hjunk _ (rd_mid _ junk _ j (by rw [hl1]; exact hj1) (by rw [hl1]; exact hj2)))
    rw [hskip]
    simp only []
    have hA2 : A ++ (f.name ++ 0 :: (f.rest ++ 0 :: (junk ++ (fields_text fs ++ (E ++ T))))) =
        (A ++ f.parsed) ++ (fields_text fs ++ (E ++ T)) := by
      simp [hparsed]
    have hl2 : (A ++ f.parsed).length =
        A.length + (f.name.length + 1 + f.rest.length + 1) + junk.length := by
      simp [hparsed]; omega
    have hl3 : (A ++ f.parsed).length = A.length + f.text.length := by
      simp [hparsed, htext]
    obtain ⟨b, hb⟩ := ih (A ++ f.parsed) (c + 2)
      ((H.set c (some A.length)).set (c + 1)
          (some (A.length + f.name.length + 1 + (f.rest.takeWhile (fun x => x == 32)).length)))
      hfs (by rw [hl2, ← hlen]; simp [fields_text, htext]; omega)
    refine ⟨b, ?_⟩
    rw [hA2, ← hl2, hb]
    simp only [List.length_set, List.length_cons]
    have hcond : (2 * fs.length ≤ H.length - (c + 2)) ↔ (2 * (fs.length + 1) ≤ H.length - c) := by
      omega
    by_cases hk : 2 * fs.length ≤ H.length - (c + 2)
    · rw [if_pos hk, if_pos (hcond.mp hk)]
      have e1 : c + 2 + 2 * fs.length = c + 2 * (fs.length + 1) := by omega
      rw [set_two H c _ _ hc]
      simp only [field_ptrs, fields_parsed, List.append_assoc, e1, hl3]
      congr 2
      have e2 : (H.take c ++ some A.length ::
          some (A.length + f.name.length + 1 + (f.rest.takeWhile (fun x => x == 32)).length) ::
          H.drop (c + 2)) = (H.take c ++ [some A.length,
          some (A.length + f.name.length + 1 + (f.rest.takeWhile (fun x => x == 32)).length)]) ++
          H.drop (c + 2) := by simp
      have e3 : (H.take c ++ [some A.length,
          some (A.length + f.name.length + 1 +
            (f.rest.takeWhile (fun x => x == 32)).length)]).length = c + 2 := by
        simp; omega
      rw [e2, List.take_left' e3]
      have e4 : c + 2 * (fs.length + 1) = (c + 2) + 2 * fs.length := by omega
      rw [e4, ← e3, List.drop_append, List.drop_drop]
      simp only [List.append_assoc, List.cons_append, List.nil_append, e3]
    · rw [if_neg hk, if_neg (fun h => hk (hcond.mpr h))]

theorem method_of_no_nul_sp (M : List Nat) (m : http_method) (h : method_of M = some m) :
    0 ∉ M ∧ 32 ∉ M := by
  unfold method_of at h
  split_ifs at h with h1 h2 h3
  · subst h1; rw [bytes_GET]; decide
  · subst h2; rw [bytes_HEAD]; decide
  · subst h3; rw [bytes_POST]; decide

theorem version_of_no_nul (V : List Nat) (ver : Nat) (h : version_of V = some ver) : 0 ∉ V := by
  unfold version_of at h
  split_ifs at h with h1 h2 h3
  · subst h1; rw [bytes_HTTP09]; decide
  · subst h2; rw [bytes_HTTP10]; decide
  · subst h3; rw [bytes_HTTP11]; decide

theorem length_header_block (M U V : List Nat) (fs : List field_line) :
    (header_block M U V fs).length =
      M.length + 1 + U.length + 1 + V.length + 2 + (fields_text fs).length + 2 := by
  simp [header_block]; omega

theorem length_parsed_line (M U V : List Nat) :
    (parsed_line M U V).length = M.length + 1 + U.length + 1 + V.length + 2 := by
  simp [parsed_line]; omega

theorem parse_block (req : http_request) (M U V : List Nat) (fs : List field_line) (T : Buf)
    (m : http_method) (ver : Nat)
    (hM : method_of M = some m) (hU : U ≠ []) (hU0 : 0 ∉ U) (hUsp : 32 ∉ U)
    (hV : version_of V = some ver)
    (hline : ∀ j, j < (M ++ 32 :: (U ++ 32 :: V)).length →
      ¬ (rd (header_block M U V fs) j = 13 ∧ rd (header_block M U V fs) (j + 1) = 10))
    (hwf : ∀ f ∈ fs, f.wellformed) :
    ∃ b, uh_http_header_parse req (header_block M U V fs ++ T) (header_block M U V fs).length =
      if 2 * fs.length ≤ req.headers.length then
        ⟨parsed_line M U V ++ (fields_parsed fs ++ ([13, 0] ++ T)), .request
          { method := m
            url := some (M.length + 1)
            version := ver
            redirect_status := 200
            headers := field_ptrs (parsed_line M U V).length fs ++
              req.headers.drop (2 * fs.length) }⟩
      else ⟨b, .response 413⟩ := by
  obtain ⟨hM0, hMsp⟩ := method_of_no_nul_sp M m hM
  have hV0 := version_of_no_nul V ver hV
  have hbuf : header_block M U V fs ++ T =
      M ++ 32 :: (U ++ 32 :: (V ++ 13 :: 10 :: (fields_text fs ++ 13 :: 10 :: T))) := by
    simp [header_block]
  have hbuf' : header_block M U V fs ++ T =
      (M ++ 32 :: (U ++ 32 :: V)) ++ 13 :: 10 :: (fields_text fs ++ 13 :: 10 :: T) := by
    simp [header_block]
  have hLlen : (M ++ 32 :: (U ++ 32 :: V)).length = M.length + 1 + U.length + 1 + V.length := by
    simp; omega
  have hblen := length_header_block M U V fs
  have hfind : strfind (header_block M U V fs ++ T) (header_block M U V fs).length [13, 10] =
      some (M.length + 1 + U.length + 1 + V.length) := by
    rw [← hLlen, hbuf']
    apply strfind_crlf_line
    · intro j hj
      rw [← hbuf']
      have h1 : j < (header_block M U V fs).length := by rw [hblen]; omega
      have h2 : j + 1 < (header_block M U V fs).length := by rw [hblen]; omega
      rw [rd_append_left _ _ _ h1, rd_append_left _ _ _ h2]
      exact hline j hj
    · rw [hblen]; omega
  rw [hbuf] at hfind ⊢
  rw [parse_three req M U V _ _ hM0 hMsp hU0 hUsp hV0 hfind]
  simp only []
  rw [if_neg (fun h => by rw [(method_of_eq_none M).mpr h] at hM; simp at hM), if_neg hU,
    if_neg (fun h => by rw [(version_of_eq_none V).mpr h] at hV; simp at hV)]
  -- the cells after the request line, with the last LF of the block put to NUL
  have htail : prelude_tail (fields_text fs ++ 13 :: 10 :: T)
      (M.length + 1 + U.length + 1 + V.length) (header_block M U V fs).length =
      fields_text fs ++ ([13, 0] ++ T) := by
    unfold prelude_tail
    rw [if_neg (by rw [hblen]; omega)]
    have e : (header_block M U V fs).length - (M.length + 1 + U.length + 1 + V.length + 3) =
        (fields_text fs).length + 1 := by rw [hblen]; omega
    rw [e, wr_append_right]
    rfl
  rw [htail]
  have hb3 : M ++ 0 :: (U ++ 0 :: (V ++ 0 :: 0 :: (fields_text fs ++ ([13, 0] ++ T)))) =
      parsed_line M U V ++ (fields_text fs ++ ([13, 0] ++ T)) := by
    simp [parsed_line]
  have hver : ∀ X : Buf, strtof10 (M ++ 0 :: (U ++ 0 :: (V ++ 0 :: 0 :: X)))
      (M.length + 1 + U.length + 1 + 5) = ver := by
    intro X
    have := strtof10_version (M ++ 0 :: (U ++ [0])) V (0 :: 0 :: X) ver hV
    simp only [List.append_assoc, List.cons_append, List.nil_append, List.length_append,
      List.length_cons, List.length_nil, Nat.zero_add] at this
    have e3 : M.length + (U.length + 1 + 1) + 5 = M.length + 1 + U.length + 1 + 5 := by omega
    rw [e3] at this
    exact this
  have hmeth := method_switch M (0 :: (U ++ 0 :: (V ++ 0 :: 0 ::
    (fields_text fs ++ ([13, 0] ++ T))))) m req.method hM
  unfold parse_fields
  rw [hver, hmeth, hb3]
  have hpl := length_parsed_line M U V
  obtain ⟨b, hloop⟩ := header_loop_fields (header_block M U V fs).length [13, 0] T
    (by decide) (by simp) fs (parsed_line M U V) 0 req.headers hwf
    (by rw [hpl, hblen]; simp)
  have ecount : (header_block M U V fs).length - (M.length + 1 + U.length + 1 + V.length + 2) =
      (fields_text fs).length + ([13, 0] : List Nat).length := by
    rw [hblen]; simp only [List.length_cons, List.length_nil]; omega
  rw [ecount, ← hpl, hloop]
  refine ⟨b, ?_⟩
  simp only [Nat.sub_zero, Nat.zero_add, List.take_zero, List.nil_append]
  split_ifs <;> rfl

theorem valid_line_first_crlf (M U V : List Nat) (fs : List field_line)
    (h : valid_request_line M U V) :
    ∀ j, j < (M ++ 32 :: (U ++ 32 :: V)).length →
      ¬ (rd (header_block M U V fs) j = 13 ∧ rd (header_block M U V fs) (j + 1) = 10) := by
  obtain ⟨_, _, _, _, _, hno⟩ := h
  intro j hj
  have hb : header_block M U V fs =
      (M ++ 32 :: (U ++ 32 :: V)) ++ (13 :: 10 :: (fields_text fs ++ [13, 10])) := by
    simp [header_block]
  rw [hb, rd_append_left _ _ _ hj]
  rcases Nat.lt_or_ge (j + 1) (M ++ 32 :: (U ++ 32 :: V)).length with h1 | h1
  · rw [rd_append_left _ _ _ h1]
    exact hno j hj
  · have e : j + 1 = (M ++ 32 :: (U ++ 32 :: V)).length + 0 := by omega
    rw [e, rd_append_right, rd_cons_zero]
    intro hc
    exact absurd hc.2 (by decide)

theorem parse_block_valid (req : http_request) (M U V : List Nat) (fs : List field_line)
    (T : Buf) (hline : valid_request_line M U V) (hwf : ∀ f ∈ fs, f.wellformed) :
    ∃ m ver b, method_of M = some m ∧ version_of V = some ver ∧
      uh_http_header_parse req (header_block M U V fs ++ T) (header_block M U V fs).length =
      if 2 * fs.length ≤ req.headers.length then
        ⟨parsed_line M U V ++ (fields_parsed fs ++ ([13, 0] ++ T)), .request
          { method := m
            url := some (M.length + 1)
            version := ver
            redirect_status := 200
            headers := field_ptrs (parsed_line M U V).length fs ++
              req.headers.drop (2 * fs.length) }⟩
      else ⟨b, .response 413⟩ := by
  have hfirst := valid_line_first_crlf M U V fs hline
  obtain ⟨hM, hU, hU0, hUsp, hV, _⟩ := hline
  obtain ⟨m, hm⟩ := Option.ne_none_iff_exists'.mp hM
  obtain ⟨ver, hver⟩ := Option.ne_none_iff_exists'.mp hV
  obtain ⟨b, hb⟩ := parse_block req M U V fs T m ver hm hU hU0 hUsp hver hfirst hwf
  exact ⟨m, ver, b, hm, hver, hb⟩

theorem header_pairs_fields (X : Buf) :
    ∀ (fs : List field_line) (A : Buf), (∀ f ∈ fs, f.wellformed) →
      (∀ f ∈ fs, 0 ∉ f.name ∧ 0 ∉ f.rest) →
      header_pairs (A ++ (fields_parsed fs ++ X)) (field_ptrs A.length fs) =
        fs.map (fun f => (f.name, f.value)) := by
  intro fs
  induction fs with
  | nil => intro A _ _; rfl
  | cons f fs ih =>
    intro A hwf hnul
    have hf := hwf f (List.mem_cons_self _ _)
    obtain ⟨hn0, hr0⟩ := hnul f (List.mem_cons_self _ _)
    have hlen := length_parsed f hf
    simp only [field_ptrs, header_pairs, List.map_cons]
    have hb1 : A ++ (fields_parsed (f :: fs) ++ X) =
        A ++ (f.name ++ 0 :: (f.rest ++ 0 :: (f.term.drop 1 ++ (fields_parsed fs ++ X)))) := by
      simp [fields_parsed, field_line.parsed]
    have hs1 : cstr (A ++ (fields_parsed (f :: fs) ++ X)) A.length = f.name := by
      rw [hb1]
      exact cstr_at' A f.name _ hn0
    have hsplit : f.rest = f.rest.takeWhile (fun x => x == 32) ++ f.value := by
      unfold field_line.value
      exact (List.takeWhile_append_dropWhile _ _).symm
    have hv0 : 0 ∉ f.value := by
      unfold field_line.value
      intro h
      exact hr0 ((List.dropWhile_sublist _).subset h)
    have hb2 : A ++ (fields_parsed (f :: fs) ++ X) =
        (A ++ f.name ++ 0 :: f.rest.takeWhile (fun x => x == 32)) ++
          (f.value ++ 0 :: (f.term.drop 1 ++ (fields_parsed fs ++ X))) := by
      rw [hb1]
      conv_lhs => rw [hsplit]
      simp
    have hl2 : (A ++ f.name ++ 0 :: f.rest.takeWhile (fun x => x == 32)).length =
        A.length + f.name.length + 1 + (f.rest.takeWhile (fun x => x == 32)).length := by
      simp; omega
    have hs2 : cstr (A ++ (fields_parsed (f :: fs) ++ X))
        (A.length + f.name.length + 1 + (f.rest.takeWhile (fun x => x == 32)).length) =
        f.value := by
      rw [hb2, ← hl2]
      exact cstr_at' _ f.value _ hv0
    rw [hs1, hs2]
    have hb3 : A ++ (fields_parsed (f :: fs) ++ X) = (A ++ f.parsed) ++ (fields_parsed fs ++ X) := by
      simp [fields_parsed]
    have hl3 : (A ++ f.parsed).length = A.length + f.text.length := by
      simp [hlen]
    rw [hb3, ← hl3, ih (A ++ f.parsed) (fun g hg => hwf g (List.mem_cons_of_mem _ hg))
      (fun g hg => hnul g (List.mem_cons_of_mem _ hg))]

/-- C3: with `C = array_size (req->headers)` cells, that is `C / 2` pairs, a
valid request that carries at most `C / 2` well-formed header fields is
accepted, and the header cells hold, in order, the offsets of name and value
of every field (the other cells are left as they were); one that carries more
than `C / 2` fields is answered 413 and no request is returned. -/
theorem header_parse_field_limit (req : http_request) (M U V : List Nat)
    (fs : List field_line) (T : Buf)
    (hline : valid_request_line M U V) (hwf : ∀ f ∈ fs, f.wellformed) :
    (fs.length ≤ req.headers.length / 2 →
      ∃ q, (uh_http_header_parse req (header_block M U V fs ++ T)
          (header_block M U V fs).length).outcome = .request q ∧
        q.headers.take (2 * fs.length) =
          field_ptrs (M.length + 1 + U.length + 1 + V.length + 2) fs ∧
        q.headers.drop (2 * fs.length) = req.headers.drop (2 * fs.length)) ∧
    (req.headers.length / 2 < fs.length →
      (uh_http_header_parse req (header_block M U V fs ++ T)
          (header_block M U V fs).length).outcome = .response 413) := by
  obtain ⟨m, ver, b, _, _, hp⟩ := parse_block_valid req M U V fs T hline hwf
  rw [hp]
  constructor
  · intro hn
    rw [if_pos (by omega)]
    refine ⟨_, rfl, ?_, ?_⟩
    · simp only []
      rw [List.take_left' (by rw [length_field_ptrs]), length_parsed_line]
    · simp only []
      rw [List.drop_left' (by rw [length_field_ptrs])]
  · intro hn
    rw [if_neg (by omega)]

theorem eols_wr (b : Buf) (j v : Nat) : ∀ (n i : Nat), j < i → eols (wr b j v) i n = eols b i n := by
  intro n
  induction n with
  | zero => intro i _; rfl
  | succ n ih =>
    intro i hj
    simp only [eols]
    rw [rd_wr_ne b j i v (by omega), ih (i + 1) (by omega)]

theorem eols_append : ∀ (n : Nat) (A Y : Buf),
    eols (A ++ Y) A.length n = line_ends (Y.take n) := by
  intro n
  induction n with
  | zero => intro A Y; simp [eols, line_ends]
  | succ n ih =>
    intro A Y
    cases Y with
    | nil =>
      have h0 : ∀ (m i : Nat), eols (A ++ []) (A.length + i) m = 0 := by
        intro m
        induction m with
        | zero => intro i; rfl
        | succ m ihm =>
          intro i
          simp only [eols]
          rw [rd_of_length_le _ _ (by simp), Nat.add_assoc, ihm (i + 1)]
          simp
      have := h0 (n + 1) 0
      simpa [line_ends] using this
    | cons y Y =>
      simp only [eols]
      have hr : rd (A ++ y :: Y) A.length = y := by
        have := rd_append_right A (y :: Y) 0
        simpa [rd_cons_zero] using this
      have hA : A ++ y :: Y = (A ++ [y]) ++ Y := by simp
      have hl : A.length + 1 = (A ++ [y]).length := by simp
      rw [hr, hA, hl, ih (A ++ [y]) Y]
      simp only [List.take_succ_cons, line_ends, List.countP_cons]
      by_cases hy : y = 13 ∨ y = 10
      · rcases hy with h | h <;> simp [h] <;> omega
      · have h1 : y ≠ 13 := fun h => hy (Or.inl h)
        have h2 : y ≠ 10 := fun h => hy (Or.inr h)
        simp [h1, h2]

theorem line_ends_wr_zero_le : ∀ (R : Buf) (k n : Nat),
    line_ends ((wr R k 0).take n) ≤ line_ends (R.take n) := by
  intro R
  induction R with
  | nil => intro k n; simp [wr]
  | cons a R ih =>
    intro k n
    cases n with
    | zero => simp
    | succ n =>
      cases k with
      | zero =>
        simp only [wr_cons_zero, List.take_succ_cons, line_ends, List.countP_cons]
        simp
      | succ k =>
        have := ih k n
        simp only [wr_cons_succ, List.take_succ_cons, line_ends, List.countP_cons] at this ⊢
        omega

theorem header_step_room (buflen i : Nat) (s : hdr_state)
    (h : s.hdrcount + 2 * (if rd s.buffer i = 13 ∨ rd s.buffer i = 10 then 1 else 0) ≤
      s.headers.length) :
    ∃ s1, header_step buflen i s = .ok s1 ∧
      (s1.buffer = s.buffer ∨ s1.buffer = wr s.buffer i 0) ∧
      s1.headers.length = s.headers.length ∧
      s1.hdrcount ≤ s.hdrcount + 2 * (if rd s.buffer i = 13 ∨ rd s.buffer i = 10 then 1 else 0) := by
  unfold header_step
  cases hn : s.hdrname with
  | none =>
    simp only []
    split
    · exact ⟨_, rfl, Or.inl rfl, rfl, Nat.le_add_right _ _⟩
    · exact ⟨_, rfl, Or.inl rfl, rfl, Nat.le_add_right _ _⟩
  | some n =>
    cases hd : s.hdrdata with
    | none =>
      simp only []
      split
      · exact ⟨_, rfl, Or.inr rfl, rfl, Nat.le_add_right _ _⟩
      · exact ⟨_, rfl, Or.inl rfl, rfl, Nat.le_add_right _ _⟩
    | some d =>
      simp only []
      by_cases he : rd s.buffer i = 13 ∨ rd s.buffer i = 10
      · rw [if_pos he] at h
        have hc : s.hdrcount + 1 < s.headers.length := by omega
        rw [if_pos (by simpa using he), if_pos hc, if_pos he]
        exact ⟨_, rfl, Or.inr rfl, by simp, Nat.le_refl _⟩
      · rw [if_neg (by simpa using he)]
        exact ⟨_, rfl, Or.inl rfl, rfl, Nat.le_add_right _ _⟩

theorem header_loop_room (buflen : Nat) : ∀ (n i : Nat) (s : hdr_state),
    s.hdrcount + 2 * eols s.buffer i n ≤ s.headers.length →
    ∃ s1, header_loop buflen n i s = .ok s1 := by
  intro n
  induction n with
  | zero => intro i s _; exact ⟨s, rfl⟩
  | succ n ih =>
    intro i s h
    simp only [eols] at h
    obtain ⟨s1, hs1, hb, hl, hc⟩ := header_step_room buflen i s (by omega)
    rw [header_loop_succ, hs1]
    apply ih (i + 1) s1
    have he : eols s1.buffer (i + 1) n = eols s.buffer (i + 1) n := by
      rcases hb with hb | hb
      · rw [hb]
      · rw [hb, eols_wr _ _ _ _ _ (by omega)]
    rw [he, hl]
    omega

/-- C1: the request line decides the answer of `uh_http_header_parse`. For a
block whose first CR LF ends the line `L` (no NUL byte in it), with `M` the
text before the first space, `U` the text between the first and the second
space and `V` the text after the second space: the answer is 405 when `M` is
not exactly GET, HEAD or POST; otherwise 400 when `U` is missing or empty, or
`V` is missing or not exactly HTTP/0.9, HTTP/1.0 or HTTP/1.1; otherwise it is
either the 413 of the header-count limit, which needs more line ends (CR or LF
bytes) after the request line than the header array has pairs, or a request
with method `M`, url `U`, the version named by `V` and `redirect_status` 200. -/
theorem header_parse_request_line (req : http_request) (L R : Buf) (buflen : Nat)
    (hnul : 0 ∉ L)
    (hcrlf : ∀ j, j < L.length →
      ¬ (rd (L ++ 13 :: 10 :: R) j = 13 ∧ rd (L ++ 13 :: 10 :: R) (j + 1) = 10))
    (hlen : L.length + 2 ≤ buflen) :
    (method_of (first_word L) = none →
      (uh_http_header_parse req (L ++ 13 :: 10 :: R) buflen).outcome = .response 405) ∧
    (method_of (first_word L) ≠ none →
      ((after_space L).map first_word = none ∨ (after_space L).map first_word = some [] ∨
        (after_space L).bind after_space = none ∨
        ((after_space L).bind after_space).bind version_of = none) →
      (uh_http_header_parse req (L ++ 13 :: 10 :: R) buflen).outcome = .response 400) ∧
    (∀ m u v ver, method_of (first_word L) = some m →
      (after_space L).map first_word = some u → u ≠ [] →
      (after_space L).bind after_space = some v → version_of v = some ver →
      ((uh_http_header_parse req (L ++ 13 :: 10 :: R) buflen).outcome = .response 413 ∧
        req.headers.length < 2 * line_ends (R.take (buflen - (L.length + 2)))) ∨
      ∃ q, (uh_http_header_parse req (L ++ 13 :: 10 :: R) buflen).outcome = .request q ∧
        q.method = m ∧
        q.url.map (cstr (uh_http_header_parse req (L ++ 13 :: 10 :: R) buflen).buffer) = some u ∧
        q.version = ver ∧ q.redirect_status = 200) := by
  have hfind := strfind_crlf_line L R buflen hcrlf hlen
  by_cases hsp : 32 ∈ L
  swap
  · -- no space at all: the whole line is the method text
    have hres := parse_one req L R buflen hnul hsp hfind
    rw [first_word_of_not_mem L hsp, after_space_of_not_mem L hsp]
    refine ⟨?_, ?_, ?_⟩
    · intro hm
      rw [hres, if_pos ((method_of_eq_none L).mp hm)]
    · intro hm _
      rw [hres, if_neg (fun h => hm ((method_of_eq_none L).mpr h))]
    · intro m u v ver _ hu
      simp at hu
  obtain ⟨L1, hL1, hsplit⟩ := split_space L hsp
  have hM := first_word_not_mem L
  generalize first_word L = M at hsplit hM ⊢
  subst hsplit
  have hM0 : 0 ∉ M := fun h => hnul (List.mem_append_left _ h)
  have hL10 : 0 ∉ L1 := fun h => hnul (List.mem_append_right _ (List.mem_cons_of_mem _ h))
  rw [hL1]
  simp only [Option.map_some', Option.some_bind]
  by_cases hsp1 : 32 ∈ L1
  swap
  · -- one space: no version text
    rw [List.append_assoc, List.cons_append] at hfind ⊢
    have e : (M ++ 32 :: L1).length = M.length + 1 + L1.length := by simp; omega
    rw [e] at hfind
    have hres := parse_two req M L1 R buflen hM0 hM hL10 hsp1 hfind
    rw [first_word_of_not_mem L1 hsp1, after_space_of_not_mem L1 hsp1]
    refine ⟨?_, ?_, ?_⟩
    · intro hm
      rw [hres, if_pos ((method_of_eq_none M).mp hm)]
    · intro hm _
      rw [hres, if_neg (fun h => hm ((method_of_eq_none M).mpr h))]
    · intro m u v ver _ _ _ hv
      simp at hv
  obtain ⟨V, hV, hsplit1⟩ := split_space L1 hsp1
  have hU := first_word_not_mem L1
  generalize first_word L1 = U at hsplit1 hU ⊢
  subst hsplit1
  have hU0 : 0 ∉ U := fun h => hL10 (List.mem_append_left _ h)
  have hV0 : 0 ∉ V := fun h => hL10 (List.mem_append_right _ (List.mem_cons_of_mem _ h))
  rw [hV]
  simp only [List.append_assoc, List.cons_append] at hfind ⊢
  have e : (M ++ 32 :: (U ++ 32 :: V)).length = M.length + 1 + U.length + 1 + V.length := by
    simp; omega
  rw [e] at hfind
  have hres := parse_three req M U V R buflen hM0 hM hU0 hU hV0 hfind
  simp only [Option.some_bind]
  refine ⟨?_, ?_, ?_⟩
  · intro hm
    rw [hres]
    simp only []
    rw [if_pos ((method_of_eq_none M).mp hm)]
  · intro hm hbad
    rw [hres]
    simp only []
    rw [if_neg (fun h => hm ((method_of_eq_none M).mpr h))]
    by_cases hu : U = []
    · rw [if_pos hu]
    · rw [if_neg hu]
      have hv : version_of V = none := by
        rcases hbad with h | h | h | h
        · simp at h
        · exact absurd (Option.some.inj h) hu
        · simp at h
        · exact h
      rw [if_pos ((version_of_eq_none V).mp hv)]
  · intro m u v ver hm hu hune hv hver
    have hu' : U = u := Option.some.inj hu
    have hv' : V = v := Option.some.inj hv
    subst hu' hv'
    rw [hres]
    simp only []
    rw [if_neg (fun h => by rw [(method_of_eq_none M).mpr h] at hm; simp at hm), if_neg hune,
      if_neg (fun h => by rw [(version_of_eq_none V).mpr h] at hver; simp at hver)]
    unfold parse_fields
    have hframe := header_loop_frame buflen
      (buflen - (M.length + 1 + U.length + 1 + V.length + 2))
      (M.length + 1 + U.length + 1 + V.length + 2)
      ⟨M ++ 0 :: (U ++ 0 :: (V ++ 0 :: 0 ::
        prelude_tail R (M.length + 1 + U.length + 1 + V.length) buflen)), none, none, 0,
        req.headers⟩
    cases hloop : header_loop buflen (buflen - (M.length + 1 + U.length + 1 + V.length + 2))
      (M.length + 1 + U.length + 1 + V.length + 2)
      ⟨M ++ 0 :: (U ++ 0 :: (V ++ 0 :: 0 ::
        prelude_tail R (M.length + 1 + U.length + 1 + V.length) buflen)), none, none, 0,
        req.headers⟩ with
    | error b =>
      left
      refine ⟨rfl, ?_⟩
      by_contra hroom
      have hb3 : M ++ 0 :: (U ++ 0 :: (V ++ 0 :: 0 ::
          prelude_tail R (M.length + 1 + U.length + 1 + V.length) buflen)) =
          parsed_line M U V ++ prelude_tail R (M.length + 1 + U.length + 1 + V.length) buflen := by
        simp [parsed_line]
      have hcount : eols (M ++ 0 :: (U ++ 0 :: (V ++ 0 :: 0 ::
          prelude_tail R (M.length + 1 + U.length + 1 + V.length) buflen)))
          (M.length + 1 + U.length + 1 + V.length + 2)
          (buflen - (M.length + 1 + U.length + 1 + V.length + 2)) ≤
          line_ends (R.take (buflen - (M.length + 1 + U.length + 1 + V.length + 2))) := by
        rw [hb3, ← length_parsed_line M U V, eols_append]
        unfold prelude_tail
        split
        · exact Nat.le_refl _
        · exact line_ends_wr_zero_le _ _ _
      rw [e] at hroom
      obtain ⟨s1, hs1⟩ := header_loop_room buflen
        (buflen - (M.length + 1 + U.length + 1 + V.length + 2))
        (M.length + 1 + U.length + 1 + V.length + 2)
        ⟨M ++ 0 :: (U ++ 0 :: (V ++ 0 :: 0 ::
          prelude_tail R (M.length + 1 + U.length + 1 + V.length) buflen)), none, none, 0,
          req.headers⟩ (by simp only []; omega)
      rw [hs1] at hloop
      cases hloop
    | ok s =>
      right
      rw [hloop] at hframe
      simp only [loop_buffer] at hframe
      refine ⟨_, rfl, ?_, ?_, ?_, rfl⟩
      · exact method_switch M _ m req.method hm
      · have hb : s.buffer = (M ++ [0]) ++ (U ++ 0 :: ((V ++ [0, 0]) ++
            s.buffer.drop (M.length + 1 + U.length + 1 + V.length + 2))) := by
          conv_lhs => rw [← List.take_append_drop (M.length + 1 + U.length + 1 + V.length + 2)
            s.buffer]
          rw [hframe.1]
          have e2 : M ++ 0 :: (U ++ 0 :: (V ++ 0 :: 0 ::
              prelude_tail R (M.length + 1 + U.length + 1 + V.length) buflen)) =
              (M ++ 0 :: (U ++ 0 :: (V ++ [0, 0]))) ++
              prelude_tail R (M.length + 1 + U.length + 1 + V.length) buflen := by simp
          rw [e2, List.take_left' (by simp; omega)]
          simp
        simp only [Option.map_some']
        rw [hb]
        have := cstr_at' (M ++ [0]) U ((V ++ [0, 0]) ++
            s.buffer.drop (M.length + 1 + U.length + 1 + V.length + 2)) hU0
        simpa using this
      · have := strtof10_version (M ++ 0 :: (U ++ [0])) V (0 :: 0 ::
          prelude_tail R (M.length + 1 + U.length + 1 + V.length) buflen) ver hver
        simp only [List.append_assoc, List.cons_append, List.nil_append, List.length_append,
          List.length_cons, List.length_nil, Nat.zero_add] at this
        have e3 : M.length + (U.length + 1 + 1) + 5 = M.length + 1 + U.length + 1 + 5 := by omega
        rw [e3] at this
        exact this

/-- The request line theorem at `GET /index.html HTTP/1.1`. -/
theorem header_parse_request_line_witness :
    (0 ∉ bytes "GET /index.html HTTP/1.1") ∧
    (((uh_http_header_parse (fresh_request 64)
        (bytes "GET /index.html HTTP/1.1" ++ 13 :: 10 :: [13, 10]) 28).outcome = .response 413 ∧
        (fresh_request 64).headers.length <
          2 * line_ends (([13, 10] : List Nat).take
            (28 - ((bytes "GET /index.html HTTP/1.1").length + 2)))) ∨
      ∃ q, (uh_http_header_parse (fresh_request 64)
          (bytes "GET /index.html HTTP/1.1" ++ 13 :: 10 :: [13, 10]) 28).outcome = .request q ∧
        q.method = .GET ∧
        q.url.map (cstr (uh_http_header_parse (fresh_request 64)
          (bytes "GET /index.html HTTP/1.1" ++ 13 :: 10 :: [13, 10]) 28).buffer) =
            some (bytes "/index.html") ∧
        q.version = 11 ∧ q.redirect_status = 200) :=
  ⟨by decide,
    (header_parse_request_line (fresh_request 64) (bytes "GET /index.html HTTP/1.1") [13, 10] 28
      (by decide) (by decide) (by decide)).2.2 .GET (bytes "/index.html") (bytes "HTTP/1.1") 11
      (by decide) (by decide) (by decide) (by decide) (by decide)⟩

/-- The field limit theorem at a request with the one field `Host: h`. -/
theorem header_parse_field_limit_witness :
    valid_request_line (bytes "GET") (bytes "/") (bytes "HTTP/1.1") ∧
    (∀ f ∈ [(⟨bytes "Host", bytes " h", [13, 10]⟩ : field_line)], f.wellformed) ∧
    ((1 ≤ (fresh_request 64).headers.length / 2 →
      ∃ q, (uh_http_header_parse (fresh_request 64)
          (header_block (bytes "GET") (bytes "/") (bytes "HTTP/1.1")
            [⟨bytes "Host", bytes " h", [13, 10]⟩] ++ bytes "body")
          (header_block (bytes "GET") (bytes "/") (bytes "HTTP/1.1")
            [⟨bytes "Host", bytes " h", [13, 10]⟩]).length).outcome = .request q ∧
        q.headers.take (2 * 1) = field_ptrs (3 + 1 + 1 + 1 + 8 + 2)
          [⟨bytes "Host", bytes " h", [13, 10]⟩] ∧
        q.headers.drop (2 * 1) = (fresh_request 64).headers.drop (2 * 1)) ∧
    ((fresh_request 64).headers.length / 2 < 1 →
      (uh_http_header_parse (fresh_request 64)
          (header_block (bytes "GET") (bytes "/") (bytes "HTTP/1.1")
            [⟨bytes "Host", bytes " h", [13, 10]⟩] ++ bytes "body")
          (header_block (bytes "GET") (bytes "/") (bytes "HTTP/1.1")
            [⟨bytes "Host", bytes " h", [13, 10]⟩]).length).outcome = .response 413)) :=
  ⟨by decide, by decide,
    header_parse_field_limit (fresh_request 64) (bytes "GET") (bytes "/") (bytes "HTTP/1.1")
      [⟨bytes "Host", bytes " h", [13, 10]⟩] (bytes "body") (by decide) (by decide)⟩

set_option maxRecDepth 1000000 in
/-- C2 as stated fails in two ways. A field value with a NUL byte in it is
stored as the string that ends at that NUL: the line `X: b NUL c` is stored as
`("X", "b")`. And with 64 header cells a request with 33 well-formed field
lines stores no request at all: the parse answers 413. -/
theorem header_parse_stores_fields_counterexample :
    (valid_request_line (bytes "GET") (bytes "/") (bytes "HTTP/1.0") ∧
      (∀ f ∈ [(⟨bytes "X", [32, 98, 0, 99], [13, 10]⟩ : field_line)], f.wellformed) ∧
      stored_pairs 1 (uh_http_header_parse (fresh_request 64)
        (header_block (bytes "GET") (bytes "/") (bytes "HTTP/1.0")
          [⟨bytes "X", [32, 98, 0, 99], [13, 10]⟩])
        (header_block (bytes "GET") (bytes "/") (bytes "HTTP/1.0")
          [⟨bytes "X", [32, 98, 0, 99], [13, 10]⟩]).length) = some [(bytes "X", [98])] ∧
      some [(bytes "X", [98])] ≠
        some ([(⟨bytes "X", [32, 98, 0, 99], [13, 10]⟩ : field_line)].map
          (fun f => (f.name, f.value)))) ∧
    ((∀ f ∈ List.replicate 33 (⟨bytes "X", bytes "v", [13, 10]⟩ : field_line), f.wellformed) ∧
      (uh_http_header_parse (fresh_request 64)
        (header_block (bytes "GET") (bytes "/") (bytes "HTTP/1.0")
          (List.replicate 33 ⟨bytes "X", bytes "v", [13, 10]⟩))
        (header_block (bytes "GET") (bytes "/") (bytes "HTTP/1.0")
          (List.replicate 33 ⟨bytes "X", bytes "v", [13, 10]⟩)).length).outcome =
        .response 413) := by
  refine ⟨⟨by decide, by decide, by decide, by decide⟩, by decide, by decide⟩

/-! ## `uh_dispatch_request` -/

theorem strstr_eq_zero (pfx : List Nat) : ∀ url : List Nat, strstr pfx url = some 0 ↔ pfx <+: url := by
  intro url
  cases url with
  | nil =>
    unfold strstr
    by_cases h : pfx = []
    · simp [h]
    · simp [h]
  | cons c t =>
    unfold strstr
    by_cases h : pfx.isPrefixOf (c :: t) = true
    · rw [if_pos h]
      simpa using h
    · rw [if_neg h]
      have h' : ¬ pfx <+: c :: t := by simpa using h
      constructor
      · intro hh
        cases hs : strstr pfx t with
        | none => rw [hs] at hh; simp at hh
        | some i => rw [hs] at hh; simp at hh
      · intro hh
        exact absurd hh h'

/-- C7: for a non-empty prefix, `uh_path_match (prefix, url)` returns 1 exactly
when `url` starts with `prefix` and either `prefix` ends in `/`, or `url`
equals `prefix`, or the character of `url` right after the prefix is `/`;
in every other case it returns 0. -/
theorem uh_path_match_spec (pfx url : List Nat) (hne : pfx ≠ []) :
    (uh_path_match pfx url = 1 ↔
      pfx <+: url ∧ (pfx.getLast? = some 47 ∨ url = pfx ∨ url[pfx.length]? = some 47)) ∧
    (uh_path_match pfx url = 0 ↔
      ¬ (pfx <+: url ∧ (pfx.getLast? = some 47 ∨ url = pfx ∨ url[pfx.length]? = some 47))) := by
  have hlast : rd pfx (pfx.length - 1) = 47 ↔ pfx.getLast? = some 47 := by
    rw [List.getLast?_eq_getElem?]
    unfold rd
    rw [List.getD_eq_getElem?_getD]
    have hlt : pfx.length - 1 < pfx.length := by
      have := List.length_pos.mpr hne
      omega
    rw [List.getElem?_eq_getElem hlt]
    simp
  have hnext : rd url pfx.length = 47 ↔ url[pfx.length]? = some 47 := by
    unfold rd
    rw [List.getD_eq_getElem?_getD]
    cases h : url[pfx.length]? with
    | none => simp
    | some x => simp
  have hcond : (strstr pfx url = some 0 ∧
      (rd pfx (pfx.length - 1) = 47 ∨ url.length = pfx.length ∨ rd url pfx.length = 47)) ↔
      (pfx <+: url ∧ (pfx.getLast? = some 47 ∨ url = pfx ∨ url[pfx.length]? = some 47)) := by
    rw [strstr_eq_zero, hlast, hnext]
    constructor
    · rintro ⟨hp, h⟩
      refine ⟨hp, ?_⟩
      rcases h with h | h | h
      · exact Or.inl h
      · exact Or.inr (Or.inl (hp.eq_of_length h.symm).symm)
      · exact Or.inr (Or.inr h)
    · rintro ⟨hp, h⟩
      refine ⟨hp, ?_⟩
      rcases h with h | h | h
      · exact Or.inl h
      · exact Or.inr (Or.inl (by rw [h]))
      · exact Or.inr (Or.inr h)
  unfold uh_path_match
  by_cases h : strstr pfx url = some 0 ∧
      (rd pfx (pfx.length - 1) = 47 ∨ url.length = pfx.length ∨ rd url pfx.length = 47)
  · rw [if_pos h]
    have := hcond.mp h
    simp [this]
  · rw [if_neg h]
    have : ¬ (pfx <+: url ∧ (pfx.getLast? = some 47 ∨ url = pfx ∨ url[pfx.length]? = some 47)) :=
      fun hh => h (hcond.mpr hh)
    simp [this]

/-- The prefix match theorem at the prefix `/cgi-bin`: it matches `/cgi-bin`
and `/cgi-bin/x` and does not match `/cgi-binx`. -/
theorem uh_path_match_spec_witness :
    bytes "/cgi-bin" ≠ [] ∧
    (uh_path_match (bytes "/cgi-bin") (bytes "/cgi-bin/x") = 1 ↔
      bytes "/cgi-bin" <+: bytes "/cgi-bin/x" ∧
        ((bytes "/cgi-bin").getLast? = some 47 ∨ bytes "/cgi-bin/x" = bytes "/cgi-bin" ∨
          (bytes "/cgi-bin/x")[(bytes "/cgi-bin").length]? = some 47)) ∧
    uh_path_match (bytes "/cgi-bin") (bytes "/cgi-bin") = 1 ∧
    uh_path_match (bytes "/cgi-bin") (bytes "/cgi-bin/x") = 1 ∧
    uh_path_match (bytes "/cgi-bin") (bytes "/cgi-binx") = 0 :=
  ⟨by decide, (uh_path_match_spec (bytes "/cgi-bin") (bytes "/cgi-bin/x") (by decide)).1,
    by decide, by decide, by decide⟩

theorem uh_path_match_ne_zero (pfx url : List Nat) :
    uh_path_match pfx url ≠ 0 ↔ uh_path_match pfx url = 1 := by
  unfold uh_path_match
  split_ifs <;> simp

/-- C8: when no plugin prefix claims the url and its path lookup succeeds,
`uh_dispatch_request` invokes no handler and returns false if the path is
flagged redirected or `uh_auth_check` denies it; otherwise it invokes the CGI
supervisor exactly when the path name prefix-matches `cgi_prefix` or the
physical path has a registered interpreter, the static file responder in every
other case, and returns what that handler returns. -/
theorem dispatch_found (e : handlers) (conf : config) (req : http_request)
    (url : List Nat) (pin : path_info)
    (hlua : ¬ (conf.lua_state = true ∧ uh_path_match ( config.lua_prefix conf) url ≠ 0))
    (hubus : ¬ (conf.ubus_state = true ∧ uh_path_match ( config.ubus_prefix conf) url ≠ 0))
    (hpin : e.path_lookup url = some pin) :
    ((pin.redirected = true ∨ e.uh_auth_check req pin = false) →
      (uh_dispatch_request e conf req url).action = none ∧
      (uh_dispatch_request e conf req url).ret = false) ∧
    (pin.redirected = false → e.uh_auth_check req pin = true →
      ((uh_path_match ( config.cgi_prefix conf) pin.name = 1 ∨
          (e.uh_interpreter_lookup pin.phys).isSome = true) →
        ∃ ipr, (uh_dispatch_request e conf req url).action = some (.cgi pin ipr) ∧
          (uh_dispatch_request e conf req url).ret = e.uh_cgi_request req pin ipr) ∧
      (¬ (uh_path_match ( config.cgi_prefix conf) pin.name = 1 ∨
          (e.uh_interpreter_lookup pin.phys).isSome = true) →
        (uh_dispatch_request e conf req url).action = some (.file pin) ∧
        (uh_dispatch_request e conf req url).ret = e.uh_file_request req pin)) := by
  unfold uh_dispatch_request
  rw [if_neg hlua, if_neg hubus]
  simp only [uh_path_lookup, hpin]
  constructor
  · intro h
    rw [if_neg (by
      rintro ⟨h1, h2⟩
      rcases h with h | h
      · rw [h1] at h; exact absurd h (by decide)
      · rw [h2] at h; exact absurd h (by decide))]
    exact ⟨rfl, rfl⟩
  · intro h1 h2
    rw [if_pos ⟨h1, h2⟩]
    by_cases hm : uh_path_match ( config.cgi_prefix conf) pin.name ≠ 0
    · rw [if_pos hm]
      constructor
      · intro _
        exact ⟨none, rfl, rfl⟩
      · intro hn
        exact absurd (Or.inl ((uh_path_match_ne_zero _ _).mp hm)) hn
    · rw [if_neg hm]
      have hm1 : ¬ uh_path_match ( config.cgi_prefix conf) pin.name = 1 :=
        fun h => hm ((uh_path_match_ne_zero _ _).mpr h)
      cases hi : e.uh_interpreter_lookup pin.phys with
      | none =>
        constructor
        · rintro (h | h)
          · exact absurd h hm1
          · simp at h
        · intro _
          exact ⟨rfl, rfl⟩
      | some ipr =>
        constructor
        · intro _
          exact ⟨some ipr, rfl, rfl⟩
        · intro hn
          exact absurd (Or.inr rfl) hn

/-- The dispatch theorem on the sample site, at the page `/index.html`. -/
theorem dispatch_found_witness :
    sample_site.path_lookup (bytes "/index.html") =
      some ⟨bytes "/index.html", bytes "/www/index.html", false⟩ ∧
    (uh_dispatch_request sample_site (sample_conf none) sample_request
        (bytes "/index.html")).action =
      some (.file ⟨bytes "/index.html", bytes "/www/index.html", false⟩) ∧
    (uh_dispatch_request sample_site (sample_conf none) sample_request
        (bytes "/index.html")).ret =
      sample_site.uh_file_request sample_request
        ⟨bytes "/index.html", bytes "/www/index.html", false⟩ :=
  ⟨by decide,
    ((dispatch_found sample_site (sample_conf none) sample_request (bytes "/index.html")
      ⟨bytes "/index.html", bytes "/www/index.html", false⟩ (by decide) (by decide)
      (by decide)).2 (by decide) (by decide)).2 (by decide)⟩

/-- C9, the code at the failing input: `/cgi-bin/t.php` lies under the CGI
prefix and `.php` has a registered interpreter, yet the CGI supervisor is
handed no interpreter. For `/app.php`, outside the prefix, it is handed the
registered one. -/
theorem dispatch_drops_interpreter :
    sample_site.uh_interpreter_lookup (bytes "/www/cgi-bin/t.php") =
      some ⟨bytes "/usr/bin/php-cgi", bytes ".php"⟩ ∧
    (uh_dispatch_request sample_site (sample_conf none) sample_request
        (bytes "/cgi-bin/t.php")).action =
      some (.cgi ⟨bytes "/cgi-bin/t.php", bytes "/www/cgi-bin/t.php", false⟩ none) ∧
    (uh_dispatch_request sample_site (sample_conf none) sample_request
        (bytes "/app.php")).action =
      some (.cgi ⟨bytes "/app.php", bytes "/www/app.php", false⟩
        (some ⟨bytes "/usr/bin/php-cgi", bytes ".php"⟩)) := by
  refine ⟨by decide, by decide, by decide⟩

/-- C10: when the path lookup of the url fails, a configured error handler
whose lookup succeeds and passes the auth gate is served with
`req.redirect_status` set to 404, through the same choice between the CGI
supervisor and the static file responder; with no error handler configured, or
one whose lookup fails too, the canned 404 is sent and false is returned. When
the lookup of the url succeeds, `redirect_status` is left as it was, so it
stays at the 200 set by the parser. -/
theorem dispatch_not_found (e : handlers) (conf : config) (req : http_request)
    (url : List Nat)
    (hlua : ¬ (conf.lua_state = true ∧ uh_path_match ( config.lua_prefix conf) url ≠ 0))
    (hubus : ¬ (conf.ubus_state = true ∧ uh_path_match ( config.ubus_prefix conf) url ≠ 0)) :
    (∀ h pin, e.path_lookup url = none → conf.error_handler = some h →
      e.path_lookup h = some pin → e.uh_auth_check req pin = true →
      (uh_dispatch_request e conf req url).req = { req with redirect_status := 404 } ∧
      ((uh_path_match ( config.cgi_prefix conf) pin.name = 1 ∨
          (e.uh_interpreter_lookup pin.phys).isSome = true) →
        ∃ ipr, (uh_dispatch_request e conf req url).action = some (.cgi pin ipr) ∧
          (uh_dispatch_request e conf req url).ret =
            e.uh_cgi_request { req with redirect_status := 404 } pin ipr) ∧
      (¬ (uh_path_match ( config.cgi_prefix conf) pin.name = 1 ∨
          (e.uh_interpreter_lookup pin.phys).isSome = true) →
        (uh_dispatch_request e conf req url).action = some (.file pin) ∧
        (uh_dispatch_request e conf req url).ret =
          e.uh_file_request { req with redirect_status := 404 } pin)) ∧
    (e.path_lookup url = none →
      (conf.error_handler = none ∨ ∃ h, conf.error_handler = some h ∧ e.path_lookup h = none) →
      (uh_dispatch_request e conf req url).action = some .not_found ∧
      (uh_dispatch_request e conf req url).ret = false) ∧
    (∀ pin, e.path_lookup url = some pin →
      (uh_dispatch_request e conf req url).req.redirect_status = req.redirect_status ∧
      (req.redirect_status = 200 →
        (uh_dispatch_request e conf req url).req.redirect_status = 200)) := by
  unfold uh_dispatch_request
  rw [if_neg hlua, if_neg hubus]
  refine ⟨?_, ?_, ?_⟩
  · intro h pin hnone hh hpin hauth
    simp only [uh_path_lookup, hnone, hh, hpin]
    rw [if_pos hauth]
    by_cases hm : uh_path_match ( config.cgi_prefix conf) pin.name ≠ 0
    · rw [if_pos hm]
      refine ⟨rfl, fun _ => ⟨none, rfl, rfl⟩, fun hn => ?_⟩
      exact absurd (Or.inl ((uh_path_match_ne_zero _ _).mp hm)) hn
    · rw [if_neg hm]
      have hm1 : ¬ uh_path_match ( config.cgi_prefix conf) pin.name = 1 :=
        fun h => hm ((uh_path_match_ne_zero _ _).mpr h)
      cases hi : e.uh_interpreter_lookup pin.phys with
      | none =>
        refine ⟨rfl, ?_, fun _ => ⟨rfl, rfl⟩⟩
        rintro (h | h)
        · exact absurd h hm1
        · simp at h
      | some ipr =>
        refine ⟨rfl, fun _ => ⟨some ipr, rfl, rfl⟩, fun hn => ?_⟩
        exact absurd (Or.inr rfl) hn
  · intro hnone hh
    simp only [uh_path_lookup, hnone]
    rcases hh with hh | ⟨h, hh, hl⟩
    · rw [hh]
      exact ⟨rfl, rfl⟩
    · rw [hh]
      simp [hl]
  · intro pin hpin
    simp only [uh_path_lookup, hpin]
    have key : (if pin.redirected = false ∧ e.uh_auth_check req pin = true then
          if uh_path_match ( config.cgi_prefix conf) pin.name ≠ 0 then
            (⟨req, some (.cgi pin none), e.uh_cgi_request req pin none⟩ : dispatch_result)
          else
            match e.uh_interpreter_lookup pin.phys with
            | some ipr => ⟨req, some (.cgi pin (some ipr)), e.uh_cgi_request req pin (some ipr)⟩
            | none => ⟨req, some (.file pin), e.uh_file_request req pin⟩
        else ⟨req, none, false⟩).req = req := by
      split_ifs
      · rfl
      · cases e.uh_interpreter_lookup pin.phys <;> rfl
      · rfl
    rw [key]
    exact ⟨rfl, fun h => h⟩

/-- The not-found theorem on the sample site: with `/404.html` as error
handler the missing url `/nope` is served that page with status 404. -/
theorem dispatch_not_found_witness :
    sample_site.path_lookup (bytes "/nope") = none ∧
    (uh_dispatch_request sample_site (sample_conf (some (bytes "/404.html"))) sample_request
        (bytes "/nope")).req = { sample_request with redirect_status := 404 } ∧
    (uh_dispatch_request sample_site (sample_conf none) sample_request
        (bytes "/nope")).action = some .not_found ∧
    (uh_dispatch_request sample_site (sample_conf none) sample_request
        (bytes "/nope")).ret = false :=
  ⟨by decide,
    ((dispatch_not_found sample_site (sample_conf (some (bytes "/404.html"))) sample_request
      (bytes "/nope") (by decide) (by decide)).1 (bytes "/404.html")
      ⟨bytes "/404.html", bytes "/www/404.html", false⟩ (by decide) (by decide) (by decide)
      (by decide)).1,
    (dispatch_not_found sample_site (sample_conf none) sample_request
      (bytes "/nope") (by decide) (by decide)).2.1 (by decide) (Or.inl (by decide))⟩

/-! ## `uh_http_header_recv` -/

theorem match_at_iff (b : Buf) : ∀ (nd : List Nat) (i : Nat),
    match_at b i nd = true ↔ ∀ j, j < nd.length → rd b (i + j) = rd nd j := by
  intro nd
  induction nd with
  | nil => intro i; simp [match_at]
  | cons c cs ih =>
    intro i
    simp only [match_at, Bool.and_eq_true, beq_iff_eq, ih, List.length_cons]
    constructor
    · rintro ⟨h0, h1⟩ j hj
      cases j with
      | zero => simpa [rd_cons_zero] using h0
      | succ j =>
        have := h1 j (by omega)
        rw [rd_cons_succ]
        rw [← this]
        congr 1
        omega
    · intro h
      refine ⟨by simpa [rd_cons_zero] using h 0 (by omega), fun j hj => ?_⟩
      have := h (j + 1) (by omega)
      rw [rd_cons_succ] at this
      rw [← this]
      congr 1
      omega

theorem match_at_congr (b b1 : Buf) (nd : List Nat) (i : Nat)
    (h : ∀ j, j < nd.length → rd b (i + j) = rd b1 (i + j)) :
    match_at b i nd = match_at b1 i nd := by
  rw [Bool.eq_iff_iff, match_at_iff, match_at_iff]
  constructor
  · intro hh j hj; rw [← h j hj]; exact hh j hj
  · intro hh j hj; rw [h j hj]; exact hh j hj

theorem match_at_append_left (A X : Buf) (nd : List Nat) (i : Nat) (h : i + nd.length ≤ A.length) :
    match_at (A ++ X) i nd = match_at A i nd :=
  match_at_congr _ _ nd i (fun j hj => rd_append_left A X (i + j) (by omega))

theorem rd_take (s : List Nat) (k j : Nat) (h : j < k) : rd (s.take k) j = rd s j := by
  unfold rd
  rw [List.getD_eq_getElem?_getD, List.getD_eq_getElem?_getD, List.getElem?_take_of_lt h]

theorem match_at_take (s : List Nat) (k : Nat) (nd : List Nat) (i : Nat) (h : i + nd.length ≤ k) :
    match_at (s.take k) i nd = match_at s i nd :=
  match_at_congr _ _ nd i (fun j hj => rd_take s k (i + j) (by omega))

theorem rd_zero_tail (A : Buf) (m p : Nat) (h : A.length ≤ p) :
    rd (A ++ List.replicate m 0) p = 0 := by
  rw [rd_append_right_of_le A _ p h]
  unfold rd
  rw [List.getD_eq_getElem?_getD, List.getElem?_replicate]
  split <;> rfl

theorem match_at_zero_tail (A : Buf) (m : Nat) (nd : List Nat) (i : Nat) (h0 : 0 ∉ nd)
    (hpos : 0 < nd.length)
    (hm : match_at (A ++ List.replicate m 0) i nd = true) : i + nd.length ≤ A.length := by
  by_contra hlt
  rw [match_at_iff] at hm
  have h1 := hm (nd.length - 1) (by omega)
  rw [rd_zero_tail A m (i + (nd.length - 1)) (by omega)] at h1
  exact h0 (h1 ▸ rd_mem nd (nd.length - 1) (by omega))

theorem match_at_in_bounds (s : List Nat) (nd : List Nat) (i : Nat) (h0 : 0 ∉ nd)
    (hpos : 0 < nd.length)
    (hm : match_at s i nd = true) : i + nd.length ≤ s.length := by
  have := match_at_zero_tail s 0 nd i h0 hpos (by simpa using hm)
  exact this

theorem match_at_received (s : List Nat) (k m : Nat) (nd : List Nat) (j : Nat) (h0 : 0 ∉ nd)
    (hpos : 0 < nd.length) :
    match_at (s.take k ++ List.replicate m 0) j nd = true ↔
      j + nd.length ≤ k ∧ match_at s j nd = true := by
  constructor
  · intro h
    have hb := match_at_zero_tail _ m nd j h0 hpos h
    have hk : j + nd.length ≤ k := by
      have := List.length_take_le k s
      omega
    rw [match_at_append_left _ _ nd j hb, match_at_take s k nd j hk] at h
    exact ⟨hk, h⟩
  · rintro ⟨hk, h⟩
    have hs := match_at_in_bounds s nd j h0 hpos h
    have hb : j + nd.length ≤ (s.take k).length := by
      rw [List.length_take]; omega
    rw [match_at_append_left _ _ nd j hb, match_at_take s k nd j hk]
    exact h

theorem strfind_received_some (s : List Nat) (k sz idx : Nat) (nd : List Nat) (h0 : 0 ∉ nd)
    (hnd : 0 < nd.length) (hf : first_at s nd idx) (hk : idx + nd.length ≤ k) (hsz : k ≤ sz) :
    strfind (s.take k ++ List.replicate (sz - k) 0) sz nd = some idx := by
  apply strfind_some _ _ _ _ (by omega) hnd
  · exact (match_at_received s k _ nd idx h0 hnd).mpr ⟨hk, hf.1⟩
  · intro j hj
    cases hm : match_at (s.take k ++ List.replicate (sz - k) 0) j nd with
    | false => rfl
    | true =>
      have := ((match_at_received s k _ nd j h0 hnd).mp hm).2
      rw [hf.2 j hj] at this
      exact absurd this (by decide)

theorem strfind_received_none (s : List Nat) (k sz : Nat) (nd : List Nat) (h0 : 0 ∉ nd)
    (hnd : 0 < nd.length)
    (hno : ∀ j, j + nd.length ≤ k → match_at s j nd = false) :
    strfind (s.take k ++ List.replicate (sz - k) 0) sz nd = none := by
  apply strfind_none
  intro j _
  cases hm : match_at (s.take k ++ List.replicate (sz - k) 0) j nd with
  | false => rfl
  | true =>
    obtain ⟨h1, h2⟩ := (match_at_received s k _ nd j h0 hnd).mp hm
    rw [hno j h1] at h2
    exact absurd h2 (by decide)

theorem header_recv_loop_full (req : http_request) (hb : httpbuf) (cs : List (List Nat))
    (buf : Buf) (bufptr : Nat) :
    header_recv_loop req hb cs buf bufptr 0 = ⟨{ hb with buf := buf }, some (.response 413)⟩ := by
  cases cs <;> simp [header_recv_loop]

theorem recv_step_buffer (R data : List Nat) (sz : Nat) :
    (R ++ List.replicate (sz - R.length) 0).take R.length ++ data ++
        (R ++ List.replicate (sz - R.length) 0).drop (R.length + data.length) =
      (R ++ data) ++ List.replicate (sz - (R ++ data).length) 0 := by
  rw [List.take_left, List.drop_append, List.drop_replicate, List.length_append]
  congr 2
  omega

theorem take_length_take (c : List Nat) : ∀ n : Nat, c.take (c.take n).length = c.take n := by
  induction c with
  | nil => intro n; simp
  | cons a c ih =>
    intro n
    cases n with
    | zero => simp
    | succ n => simp [ih n]

theorem nd4_no_nul : (0 : Nat) ∉ [13, 10, 13, 10] := by decide

theorem header_recv_loop_found (req : http_request) (hb : httpbuf) (idx : Nat)
    (hidx : idx + 4 ≤ hb.buf.length - 1) :
    ∀ (cs : List (List Nat)) (R : List Nat), (∀ c ∈ cs, c ≠ []) →
      first_at (R ++ cs.flatten) [13, 10, 13, 10] idx → R.length < idx + 4 →
      ∃ m k, 1 ≤ m ∧ m ≤ cs.length ∧
        k = min (hb.buf.length - 1) (R.length + ((cs.take m).flatten).length) ∧
        R.length + ((cs.take (m - 1)).flatten).length < idx + 4 ∧ idx + 4 ≤ k ∧
        header_recv_loop req hb cs (R ++ List.replicate (hb.buf.length - R.length) 0) R.length
            (hb.buf.length - 1 - R.length) =
          ⟨{ buf := (uh_http_header_parse req ((R ++ cs.flatten).take k ++
                List.replicate (hb.buf.length - k) 0) (idx + 4)).buffer
             ptr := idx + 4
             len := (k : Int) - ((idx + 4 : Nat) : Int) },
            some (uh_http_header_parse req ((R ++ cs.flatten).take k ++
                List.replicate (hb.buf.length - k) 0) (idx + 4)).outcome⟩ := by
  intro cs
  induction cs with
  | nil =>
    intro R _ hf hR
    have := match_at_in_bounds _ _ _ nd4_no_nul (by simp) hf.1
    simp at this
    omega
  | cons c cs ih =>
    intro R hne hf hR
    have hc : c ≠ [] := hne c (List.mem_cons_self _ _)
    have hcpos : 0 < c.length := List.length_pos.mpr hc
    have hblen : hb.buf.length - 1 - R.length ≠ 0 := by omega
    have hdata : (uh_tcp_recv (c :: cs) (hb.buf.length - 1 - R.length)).length ≠ 0 := by
      simp only [uh_tcp_recv, List.length_take]
      omega
    have hdlen : (c.take (hb.buf.length - 1 - R.length)).length =
        min (hb.buf.length - 1 - R.length) c.length := List.length_take _ _
    have hS : (R ++ (c :: cs).flatten) = (R ++ c) ++ cs.flatten := by simp
    have hpre : R ++ c.take (hb.buf.length - 1 - R.length) =
        (R ++ (c :: cs).flatten).take (R.length + (c.take (hb.buf.length - 1 - R.length)).length) := by
      rw [List.take_append, List.flatten_cons, List.take_append_of_le_length (by rw [hdlen]; omega),
        take_length_take]
    unfold header_recv_loop
    rw [if_neg hblen]
    simp only []
    rw [if_neg hdata]
    simp only [uh_tcp_recv]
    rw [recv_step_buffer R _ hb.buf.length]
    by_cases hfound : idx + 4 ≤ R.length + (c.take (hb.buf.length - 1 - R.length)).length
    · -- the terminator is complete with this chunk
      have hk : (R ++ c.take (hb.buf.length - 1 - R.length)).length =
          R.length + (c.take (hb.buf.length - 1 - R.length)).length := by simp
      have hfind := strfind_received_some (R ++ (c :: cs).flatten)
        (R.length + (c.take (hb.buf.length - 1 - R.length)).length) hb.buf.length idx
        [13, 10, 13, 10] nd4_no_nul (by simp) hf hfound (by rw [hdlen]; omega)
      rw [← hpre, ← hk] at hfind
      rw [hfind]
      refine ⟨1, R.length + (c.take (hb.buf.length - 1 - R.length)).length, Nat.le_refl _,
        by simp, ?_, by simpa using hR, hfound, ?_⟩
      · simp only [List.take_succ_cons, List.take_zero, List.flatten_cons, List.flatten_nil,
          List.append_nil]
        rw [hdlen]
        omega
      · simp only []
        rw [← hpre, hk]
    · -- not yet: the whole chunk went into the buffer
      have hk : (R ++ c.take (hb.buf.length - 1 - R.length)).length =
          R.length + (c.take (hb.buf.length - 1 - R.length)).length := by simp
      have hfind := strfind_received_none (R ++ (c :: cs).flatten)
        (R.length + (c.take (hb.buf.length - 1 - R.length)).length) hb.buf.length
        [13, 10, 13, 10] nd4_no_nul (by simp) (by
          intro j hj
          apply hf.2
          simp only [List.length_cons, List.length_nil] at hj
          omega)
      rw [← hpre, ← hk] at hfind
      rw [hfind]
      simp only []
      have hwhole : c.take (hb.buf.length - 1 - R.length) = c := by
        apply List.take_of_length_le
        by_contra hlt
        rw [hdlen] at hfound
        omega
      rw [hwhole]
      rw [hS] at hf
      obtain ⟨m, k, hm1, hm2, hkeq, hprev, hkge, hloop⟩ := ih (R ++ c)
        (fun x hx => hne x (List.mem_cons_of_mem _ hx)) hf (by
          rw [hwhole] at hfound
          simp only [List.length_append]
          omega)
      have e1 : R.length + c.length = (R ++ c).length := by simp
      have e2 : hb.buf.length - 1 - R.length - c.length = hb.buf.length - 1 - (R ++ c).length := by
        simp only [List.length_append]; omega
      rw [e1, e2, hloop]
      refine ⟨m + 1, k, by omega, by simp only [List.length_cons]; omega, ?_, ?_, hkge, ?_⟩
      · rw [hkeq]
        simp only [List.take_succ_cons, List.flatten_cons, List.length_append]
        congr 1
        omega
      · obtain ⟨m', rfl⟩ : ∃ m', m = m' + 1 := ⟨m - 1, by omega⟩
        simp only [Nat.add_sub_cancel, List.take_succ_cons, List.flatten_cons,
          List.length_append] at hprev ⊢
        omega
      · rw [hS]

theorem header_recv_loop_too_large (req : http_request) (hb : httpbuf) :
    ∀ (cs : List (List Nat)) (R : List Nat), (∀ c ∈ cs, c ≠ []) →
      R.length ≤ hb.buf.length - 1 → hb.buf.length - 1 ≤ (R ++ cs.flatten).length →
      (∀ j, j + 4 ≤ hb.buf.length - 1 → match_at (R ++ cs.flatten) j [13, 10, 13, 10] = false) →
      (header_recv_loop req hb cs (R ++ List.replicate (hb.buf.length - R.length) 0) R.length
          (hb.buf.length - 1 - R.length)).outcome = some (.response 413) := by
  intro cs
  induction cs with
  | nil =>
    intro R _ hR hS _
    simp only [List.flatten_nil, List.append_nil] at hS
    have : hb.buf.length - 1 - R.length = 0 := by omega
    rw [this, header_recv_loop_full]
  | cons c cs ih =>
    intro R hne hR hSlen hno
    by_cases hblen : hb.buf.length - 1 - R.length = 0
    · rw [hblen, header_recv_loop_full]
    have hc : c ≠ [] := hne c (List.mem_cons_self _ _)
    have hcpos : 0 < c.length := List.length_pos.mpr hc
    have hdata : (uh_tcp_recv (c :: cs) (hb.buf.length - 1 - R.length)).length ≠ 0 := by
      simp only [uh_tcp_recv, List.length_take]
      omega
    have hdlen : (c.take (hb.buf.length - 1 - R.length)).length =
        min (hb.buf.length - 1 - R.length) c.length := List.length_take _ _
    have hS : (R ++ (c :: cs).flatten) = (R ++ c) ++ cs.flatten := by simp
    have hpre : R ++ c.take (hb.buf.length - 1 - R.length) =
        (R ++ (c :: cs).flatten).take (R.length + (c.take (hb.buf.length - 1 - R.length)).length) := by
      rw [List.take_append, List.flatten_cons, List.take_append_of_le_length (by rw [hdlen]; omega),
        take_length_take]
    have hk : (R ++ c.take (hb.buf.length - 1 - R.length)).length =
        R.length + (c.take (hb.buf.length - 1 - R.length)).length := by simp
    unfold header_recv_loop
    rw [if_neg hblen]
    simp only []
    rw [if_neg hdata]
    simp only [uh_tcp_recv]
    rw [recv_step_buffer R _ hb.buf.length]
    have hfind := strfind_received_none (R ++ (c :: cs).flatten)
      (R.length + (c.take (hb.buf.length - 1 - R.length)).length) hb.buf.length
      [13, 10, 13, 10] nd4_no_nul (by simp) (by
        intro j hj
        apply hno
        simp only [List.length_cons, List.length_nil] at hj
        rw [hdlen] at hj
        omega)
    rw [← hpre, ← hk] at hfind
    rw [hfind]
    simp only []
    by_cases hwhole : c.length ≤ hb.buf.length - 1 - R.length
    · rw [List.take_of_length_le hwhole]
      have e1 : R.length + c.length = (R ++ c).length := by simp
      have e2 : hb.buf.length - 1 - R.length - c.length = hb.buf.length - 1 - (R ++ c).length := by
        simp only [List.length_append]; omega
      rw [e1, e2]
      rw [hS] at hSlen hno
      exact ih (R ++ c) (fun x hx => hne x (List.mem_cons_of_mem _ hx))
        (by simp only [List.length_append]; omega) hSlen hno
    · have : hb.buf.length - 1 - R.length - (c.take (hb.buf.length - 1 - R.length)).length = 0 := by
        rw [hdlen]; omega
      rw [this, header_recv_loop_full]

theorem uh_http_header_parse_unfold (req : http_request) (buffer : Buf) (buflen : Nat) :
    uh_http_header_parse req buffer buflen =
      match strfind buffer buflen [13, 10] with
      | none => ⟨buffer, .response 400⟩
      | some h => parse_after req (wr (wr (wr buffer (buflen - 1) 0) h 0) (h + 1) 0) buflen h := by
  unfold uh_http_header_parse parse_after parse_checks
  rfl

theorem skip_spaces_append (B X : Buf) (buflen : Nat) (hlen : buflen ≤ B.length) :
    ∀ (n d : Nat), skip_spaces (B ++ X) buflen n d = skip_spaces B buflen n d := by
  intro n
  induction n with
  | zero => intro d; rfl
  | succ n ih =>
    intro d
    unfold skip_spaces
    by_cases hd : d + 1 < buflen
    · rw [rd_append_left B X d (by omega), ih]
    · simp [hd]

theorem header_step_append (buflen i : Nat) (X : Buf) (b : Buf) (hn hd : Option Nat) (c : Nat)
    (H : List (Option Nat)) (hi : i < b.length) (hlen : buflen ≤ b.length) :
    header_step buflen i ⟨b ++ X, hn, hd, c, H⟩ = with_tail X (header_step buflen i ⟨b, hn, hd, c, H⟩) := by
  have hr : rd (b ++ X) i = rd b i := rd_append_left b X i hi
  have hw : wr (b ++ X) i 0 = wr b i 0 ++ X := wr_append_left b X i 0 hi
  have hs : ∀ n d, skip_spaces (wr b i 0 ++ X) buflen n d = skip_spaces (wr b i 0) buflen n d :=
    skip_spaces_append (wr b i 0) X buflen (by rw [length_wr]; exact hlen)
  unfold header_step
  cases hn with
  | none =>
    simp only [hr]
    split <;> rfl
  | some n =>
    cases hd with
    | none =>
      simp only [hr, hw, hs]
      split <;> rfl
    | some d =>
      simp only [hr, hw]
      split
      · split <;> rfl
      · rfl

theorem header_loop_append (buflen : Nat) (X : Buf) :
    ∀ (n i : Nat) (s : hdr_state), i + n ≤ s.buffer.length → buflen ≤ s.buffer.length →
      header_loop buflen n i { s with buffer := s.buffer ++ X } =
        with_tail X (header_loop buflen n i s) := by
  intro n
  induction n with
  | zero => intro i s _ _; rfl
  | succ n ih =>
    intro i s hi hlen
    rw [header_loop_succ, header_loop_succ]
    have hstep := header_step_append buflen i X s.buffer s.hdrname s.hdrdata s.hdrcount s.headers
      (by omega) hlen
    have hframe := (header_step_frame buflen i s).2.2
    rw [hstep]
    cases hs : header_step buflen i s with
    | error b => rfl
    | ok s1 =>
      rw [hs] at hframe
      simp only [loop_buffer] at hframe
      simp only [with_tail]
      exact ih (i + 1) s1 (by omega) (by omega)

theorem mem_drop_of_rd (b : Buf) (p i : Nat) (hp : p ≤ i) (hi : i < b.length) :
    rd b i ∈ b.drop p := by
  have h1 : i - p < (b.drop p).length := by rw [List.length_drop]; omega
  have h2 : rd (b.drop p) (i - p) = rd b i := by
    unfold rd
    rw [List.getD_eq_getElem?_getD, List.getD_eq_getElem?_getD, List.getElem?_drop]
    congr 2
    omega
  rw [← h2]
  exact rd_mem _ _ h1

theorem takeWhile_append_of_mem (q : Nat → Bool) (a : Nat) (hq : q a = false) :
    ∀ (xs ys : List Nat), a ∈ xs → (xs ++ ys).takeWhile q = xs.takeWhile q := by
  intro xs
  induction xs with
  | nil => intro ys h; simp at h
  | cons x xs ih =>
    intro ys h
    by_cases hx : q x = true
    · have hne : a ≠ x := fun e => by rw [e, hx] at hq; exact absurd hq (by decide)
      have h1 : a ∈ xs := by
        rcases List.mem_cons.mp h with e | e
        · exact absurd e hne
        · exact e
      rw [List.cons_append, List.takeWhile_cons_of_pos hx, List.takeWhile_cons_of_pos hx, ih ys h1]
    · rw [List.cons_append, List.takeWhile_cons_of_neg hx, List.takeWhile_cons_of_neg hx]

theorem cstr_append (B X : Buf) (p i : Nat) (hp : p ≤ i) (hi : i < B.length) (h0 : rd B i = 0) :
    cstr (B ++ X) p = cstr B p := by
  unfold cstr
  rw [List.drop_append_of_le_length (by omega)]
  apply takeWhile_append_of_mem _ 0 (by decide)
  rw [← h0]
  exact mem_drop_of_rd B p i hp hi

theorem takeWhile_length_le_of_rd : ∀ (l : List Nat) (j : Nat), j < l.length → rd l j = 0 →
    (l.takeWhile (fun c => c != 0)).length ≤ j := by
  intro l
  induction l with
  | nil => intro j hj _; simp at hj
  | cons a t ih =>
    intro j hj h0
    by_cases ha : a = 0
    · subst ha
      simp
    · rw [List.takeWhile_cons_of_pos (by simpa using ha)]
      cases j with
      | zero => rw [rd_cons_zero] at h0; exact absurd h0 ha
      | succ j =>
        rw [rd_cons_succ] at h0
        simp only [List.length_cons] at hj ⊢
        have := ih j (by omega) h0
        omega

theorem cstr_length_le (B : Buf) (p i : Nat) (hp : p ≤ i) (hi : i < B.length) (h0 : rd B i = 0) :
    (cstr B p).length ≤ i - p := by
  unfold cstr
  apply takeWhile_length_le_of_rd
  · rw [List.length_drop]; omega
  · unfold rd
    rw [List.getD_eq_getElem?_getD, List.getElem?_drop]
    have e : p + (i - p) = i := by omega
    rw [e]
    unfold rd at h0
    rw [List.getD_eq_getElem?_getD] at h0
    exact h0

theorem cstr_length_bound (B : Buf) (p : Nat) : p + (cstr B p).length ≤ max p B.length := by
  unfold cstr
  have := (List.takeWhile_prefix (fun c => c != 0) (l := B.drop p)).length_le
  rw [List.length_drop] at this
  omega

theorem strchr_bounds (B : Buf) (p c s i : Nat) (hs : strchr B p c = some s)
    (hp : p ≤ i) (hi : i < B.length) (h0 : rd B i = 0) : p ≤ s ∧ s < i := by
  unfold strchr at hs
  split at hs
  · rename_i hmem
    have hlt : (cstr B p).indexOf c < (cstr B p).length := List.indexOf_lt_length.mpr hmem
    have hle := cstr_length_le B p i hp hi h0
    have : s = p + (cstr B p).indexOf c := by
      have := Option.some.inj hs
      omega
    omega
  · exact absurd hs (by simp)

theorem rd_wr_zero (B : Buf) (s h : Nat) (h0 : rd B h = 0) : rd (wr B s 0) h = 0 := by
  by_cases e : s = h
  · subst e
    by_cases hl : s < B.length
    · exact rd_wr_same B s 0 hl
    · rw [wr_of_length_le B s 0 (by omega)]; exact h0
  · rw [rd_wr_ne B s h 0 e]; exact h0

theorem strcmp_append (B X : Buf) (p i : Nat) (lit : List Nat) (hp : p ≤ i) (hi : i < B.length)
    (h0 : rd B i = 0) : strcmp (B ++ X) p lit = strcmp B p lit := by
  unfold strcmp
  rw [cstr_append B X p i hp hi h0]

theorem strchr_append (B X : Buf) (p i c : Nat) (hp : p ≤ i) (hi : i < B.length)
    (h0 : rd B i = 0) : strchr (B ++ X) p c = strchr B p c := by
  unfold strchr
  rw [cstr_append B X p i hp hi h0]

theorem strtof10_append (B X : Buf) (v : Nat) (lit : List Nat) (hl : lit.length = 8)
    (hc : strcmp B v lit = 0) : strtof10 (B ++ X) (v + 5) = strtof10 B (v + 5) := by
  have hb := cstr_length_bound B v
  have hcs : cstr B v = lit := by
    unfold strcmp at hc
    by_contra hne
    rw [if_neg hne] at hc
    exact absurd hc (by decide)
  rw [hcs, hl] at hb
  unfold strtof10
  rw [rd_append_left B X (v + 5) (by omega), rd_append_left B X (v + 5 + 2) (by omega)]

theorem parse_checks_append (req : http_request) (b3 X : Buf) (buflen hd h : Nat)
    (path version : Option Nat) (h0 : rd b3 h = 0) (hh : h < b3.length)
    (hp : ∀ p, path = some p → p ≤ h) (hv : ∀ v, version = some v → v ≤ h)
    (hlen : buflen ≤ b3.length) (hhd : hd ≤ buflen) :
    parse_checks req (b3 ++ X) buflen hd path version =
      ⟨(parse_checks req b3 buflen hd path version).buffer ++ X,
        (parse_checks req b3 buflen hd path version).outcome⟩ := by
  have c0 : ∀ lit, strcmp (b3 ++ X) 0 lit = strcmp b3 0 lit :=
    fun lit => strcmp_append b3 X 0 h lit (Nat.zero_le _) hh h0
  have r0 : rd (b3 ++ X) 0 = rd b3 0 := rd_append_left b3 X 0 (by omega)
  unfold parse_checks
  simp only [c0, r0]
  split
  · rfl
  · cases path with
    | none => rfl
    | some p =>
      have hpl := hp p rfl
      have hsl : strlen (b3 ++ X) p = strlen b3 p := by
        unfold strlen
        rw [cstr_append b3 X p h hpl hh h0]
      simp only [hsl]
      split
      · rfl
      · cases version with
        | none => rfl
        | some v =>
          have hvl := hv v rfl
          have cv : ∀ lit, strcmp (b3 ++ X) v lit = strcmp b3 v lit :=
            fun lit => strcmp_append b3 X v h lit hvl hh h0
          simp only [cv]
          split
          · rfl
          · rename_i hver
            have hst : strtof10 (b3 ++ X) (v + 5) = strtof10 b3 (v + 5) := by
              by_cases h1 : strcmp b3 v (bytes "HTTP/0.9") = 0
              · exact strtof10_append b3 X v _ (by decide) h1
              · by_cases h2 : strcmp b3 v (bytes "HTTP/1.0") = 0
                · exact strtof10_append b3 X v _ (by decide) h2
                · by_cases h3 : strcmp b3 v (bytes "HTTP/1.1") = 0
                  · exact strtof10_append b3 X v _ (by decide) h3
                  · exact absurd ⟨h1, h2, h3⟩ hver
            have hloop := header_loop_append buflen X (buflen - hd) hd
              ⟨b3, none, none, 0, req.headers⟩ (by simp only []; omega) hlen
            simp only [] at hloop
            rw [hloop, hst]
            cases header_loop buflen (buflen - hd) hd ⟨b3, none, none, 0, req.headers⟩ with
            | error b => rfl
            | ok s => rfl

theorem parse_after_append (req : http_request) (B X : Buf) (buflen h : Nat)
    (hlen : buflen ≤ B.length) (hh : h + 2 ≤ buflen) (h0 : rd B h = 0) :
    parse_after req (B ++ X) buflen h =
      ⟨(parse_after req B buflen h).buffer ++ X, (parse_after req B buflen h).outcome⟩ := by
  have hhl : h < B.length := by omega
  have hc1 : strchr (B ++ X) 0 32 = strchr B 0 32 :=
    strchr_append B X 0 h 32 (Nat.zero_le _) hhl h0
  unfold parse_after
  simp only [hc1]
  cases hs1 : strchr B 0 32 with
  | none =>
    simp only [Option.map_none', Option.none_bind]
    exact parse_checks_append req B X buflen (h + 2) h none none h0 hhl
      (fun p hp => by simp at hp) (fun v hv => by simp at hv) hlen hh
  | some s =>
    obtain ⟨_, hsl⟩ := strchr_bounds B 0 32 s h hs1 (Nat.zero_le _) hhl h0
    have hw1 : wr (B ++ X) s 0 = wr B s 0 ++ X := wr_append_left B X s 0 (by omega)
    have h0' : rd (wr B s 0) h = 0 := rd_wr_zero B s h h0
    have hl' : h < (wr B s 0).length := by rw [length_wr]; exact hhl
    have hc2 : strchr (wr B s 0 ++ X) (s + 1) 32 = strchr (wr B s 0) (s + 1) 32 :=
      strchr_append (wr B s 0) X (s + 1) h 32 (by omega) hl' h0'
    simp only [Option.map_some', Option.some_bind, hw1, hc2]
    cases hs2 : strchr (wr B s 0) (s + 1) 32 with
    | none =>
      simp only [Option.map_none']
      exact parse_checks_append req (wr B s 0) X buflen (h + 2) h (some (s + 1)) none h0' hl'
        (fun p hp => by have := Option.some.inj hp; omega) (fun v hv => by simp at hv)
        (by rw [length_wr]; exact hlen) hh
    | some s2 =>
      obtain ⟨_, hs2l⟩ := strchr_bounds (wr B s 0) (s + 1) 32 s2 h hs2 (by omega) hl' h0'
      have hw2 : wr (wr B s 0 ++ X) s2 0 = wr (wr B s 0) s2 0 ++ X :=
        wr_append_left (wr B s 0) X s2 0 (by omega)
      simp only [Option.map_some', hw2]
      exact parse_checks_append req (wr (wr B s 0) s2 0) X buflen (h + 2) h (some (s + 1))
        (some (s2 + 1)) (rd_wr_zero _ s2 h h0') (by rw [length_wr]; exact hl')
        (fun p hp => by have := Option.some.inj hp; omega)
        (fun v hv => by have := Option.some.inj hv; omega)
        (by rw [length_wr, length_wr]; exact hlen) hh

theorem strfind_from_append (A X : Buf) (hslen : Nat) (nd : List Nat) (hlen : hslen ≤ A.length) :
    ∀ (n i : Nat), strfind_from (A ++ X) hslen nd n i = strfind_from A hslen nd n i := by
  intro n
  induction n with
  | zero => intro i; rfl
  | succ n ih =>
    intro i
    unfold strfind_from
    rw [ih (i + 1)]
    by_cases hfit : i + nd.length ≤ hslen
    · rw [match_at_append_left A X nd i (by omega)]
    · simp [hfit]

theorem strfind_append (A X : Buf) (hslen : Nat) (nd : List Nat) (hlen : hslen ≤ A.length) :
    strfind (A ++ X) hslen nd = strfind A hslen nd :=
  strfind_from_append A X hslen nd hlen hslen 0

/-- The parse is local to the first `buflen` cells: on a buffer that goes on
with further cells `X` it returns the same outcome, writes the same first
cells and leaves `X` as it is. -/
theorem uh_http_header_parse_append (req : http_request) (A X : Buf) :
    uh_http_header_parse req (A ++ X) A.length =
      ⟨(uh_http_header_parse req A A.length).buffer ++ X,
        (uh_http_header_parse req A A.length).outcome⟩ := by
  rw [uh_http_header_parse_unfold, uh_http_header_parse_unfold, strfind_append A X _ _ (Nat.le_refl _)]
  cases hf : strfind A A.length [13, 10] with
  | none => rfl
  | some h =>
    have hfit := (strfind_spec _ _ _ _ hf).1
    simp only [List.length_cons, List.length_nil] at hfit
    simp only []
    have e1 : wr (A ++ X) (A.length - 1) 0 = wr A (A.length - 1) 0 ++ X :=
      wr_append_left A X _ 0 (by omega)
    have e2 : wr (wr A (A.length - 1) 0 ++ X) h 0 = wr (wr A (A.length - 1) 0) h 0 ++ X :=
      wr_append_left _ X _ 0 (by rw [length_wr]; omega)
    have e3 : wr (wr (wr A (A.length - 1) 0) h 0 ++ X) (h + 1) 0 =
        wr (wr (wr A (A.length - 1) 0) h 0) (h + 1) 0 ++ X :=
      wr_append_left _ X _ 0 (by rw [length_wr, length_wr]; omega)
    rw [e1, e2, e3]
    apply parse_after_append
    · rw [length_wr, length_wr, length_wr]
    · omega
    · rw [rd_wr_ne _ (h + 1) h 0 (by omega)]
      exact rd_wr_same _ h 0 (by rw [length_wr]; omega)

theorem length_parse_checks (req : http_request) (b3 : Buf) (buflen hd : Nat)
    (path version : Option Nat) :
    (parse_checks req b3 buflen hd path version).buffer.length = b3.length := by
  unfold parse_checks
  split
  · rfl
  · cases path with
    | none => rfl
    | some p =>
      simp only []
      split
      · rfl
      · cases version with
        | none => rfl
        | some v =>
          simp only []
          split
          · rfl
          · have hframe := (header_loop_frame buflen (buflen - hd) hd
              ⟨b3, none, none, 0, req.headers⟩).2.2
            cases hl : header_loop buflen (buflen - hd) hd ⟨b3, none, none, 0, req.headers⟩ with
            | error b => rw [hl] at hframe; exact hframe
            | ok s => rw [hl] at hframe; exact hframe

theorem length_uh_http_header_parse (req : http_request) (buffer : Buf) (buflen : Nat) :
    (uh_http_header_parse req buffer buflen).buffer.length = buffer.length := by
  rw [uh_http_header_parse_unfold]
  cases strfind buffer buflen [13, 10] with
  | none => rfl
  | some h =>
    simp only [parse_after]
    rw [length_parse_checks]
    cases strchr (wr (wr (wr buffer (buflen - 1) 0) h 0) (h + 1) 0) 0 32 with
    | none => simp [length_wr]
    | some s =>
      simp only [Option.map_some', Option.some_bind]
      cases strchr (wr (wr (wr (wr buffer (buflen - 1) 0) h 0) (h + 1) 0) s 0) (s + 1) 32 with
      | none => simp [length_wr]
      | some s2 => simp [length_wr]

theorem length_take_flatten_le (cs : List (List Nat)) : ∀ m : Nat,
    ((cs.take m).flatten).length ≤ cs.flatten.length := by
  induction cs with
  | nil => intro m; simp
  | cons c cs ih =>
    intro m
    cases m with
    | zero => simp
    | succ m =>
      have := ih m
      simp only [List.take_succ_cons, List.flatten_cons, List.length_append]
      omega

/-- What `uh_http_header_recv` returns when the first CR LF CR LF of the
stream ends within the first `sizeof buf - 1` bytes: with `m` the number of
chunks read and `k` the number of bytes received by then. -/
theorem header_recv_found (req : http_request) (hb : httpbuf) (cs : List (List Nat))
    (idx : Nat) (hne : ∀ c ∈ cs, c ≠ []) (hf : first_at cs.flatten [13, 10, 13, 10] idx)
    (hidx : idx + 4 ≤ hb.buf.length - 1) :
    ∃ m k, 1 ≤ m ∧ m ≤ cs.length ∧
      k = min (hb.buf.length - 1) ((cs.take m).flatten).length ∧
      ((cs.take (m - 1)).flatten).length < idx + 4 ∧ idx + 4 ≤ k ∧ k ≤ cs.flatten.length ∧
      uh_http_header_recv req hb cs =
        ⟨{ buf := (uh_http_header_parse req (cs.flatten.take (idx + 4)) (idx + 4)).buffer ++
              ((cs.flatten.take k).drop (idx + 4) ++ List.replicate (hb.buf.length - k) 0)
           ptr := idx + 4
           len := (k : Int) - ((idx + 4 : Nat) : Int) },
          some (uh_http_header_parse req (cs.flatten.take (idx + 4)) (idx + 4)).outcome⟩ := by
  obtain ⟨m, k, hm1, hm2, hk, hprev, hkge, hloop⟩ :=
    header_recv_loop_found req hb idx hidx cs [] hne (by simpa using hf) (by simp)
  simp only [List.length_nil, Nat.zero_add, List.nil_append, Nat.sub_zero] at hk hprev hloop
  have hkS : k ≤ cs.flatten.length := by
    have := length_take_flatten_le cs m
    omega
  refine ⟨m, k, hm1, hm2, hk, hprev, hkge, hkS, ?_⟩
  unfold uh_http_header_recv
  rw [hloop]
  have hsplit : cs.flatten.take k ++ List.replicate (hb.buf.length - k) 0 =
      cs.flatten.take (idx + 4) ++
        ((cs.flatten.take k).drop (idx + 4) ++ List.replicate (hb.buf.length - k) 0) := by
    rw [← List.append_assoc]
    congr 1
    have h1 : cs.flatten.take (idx + 4) = (cs.flatten.take k).take (idx + 4) := by
      rw [List.take_take, Nat.min_eq_left hkge]
    rw [h1, List.take_append_drop]
  have hlen : (cs.flatten.take (idx + 4)).length = idx + 4 := by
    rw [List.length_take]; omega
  have hloc := uh_http_header_parse_append req (cs.flatten.take (idx + 4))
    ((cs.flatten.take k).drop (idx + 4) ++ List.replicate (hb.buf.length - k) 0)
  rw [hlen] at hloc
  rw [hsplit, hloc]

theorem header_recv_too_large (req : http_request) (hb : httpbuf) (cs : List (List Nat))
    (idx : Nat) (hne : ∀ c ∈ cs, c ≠ []) (hf : first_at cs.flatten [13, 10, 13, 10] idx)
    (hidx : hb.buf.length ≤ idx + 4) :
    (uh_http_header_recv req hb cs).outcome = some (.response 413) := by
  have hb4 := match_at_in_bounds _ _ _ nd4_no_nul (by simp) hf.1
  simp only [List.length_cons, List.length_nil] at hb4
  unfold uh_http_header_recv
  have := header_recv_loop_too_large req hb cs [] hne (by simp) (by simp only [List.nil_append]; omega) (by
    intro j hj
    simp only [List.nil_append]
    apply hf.2
    omega)
  simpa using this

/-- C5: the outcome of `uh_http_header_recv` does not depend on how the stream
arrives. For a stream whose first CR LF CR LF ends at offset `n = idx + 4` with
`n <= sizeof buf - 1` (4095 for the buffer of 4096 bytes), delivered in two
ways as non-empty chunks, both runs return the outcome of
`uh_http_header_parse` on exactly the first `n` bytes of the stream, point
`httpbuf.ptr` at `n`, and leave the same first `n` bytes in the buffer. -/
theorem header_recv_chunking (req : http_request) (hb : httpbuf) (s : List Nat)
    (cs1 cs2 : List (List Nat)) (idx : Nat)
    (h1 : cs1.flatten = s) (h2 : cs2.flatten = s)
    (hne1 : ∀ c ∈ cs1, c ≠ []) (hne2 : ∀ c ∈ cs2, c ≠ [])
    (hf : first_at s [13, 10, 13, 10] idx) (hidx : idx + 4 ≤ hb.buf.length - 1) :
    (uh_http_header_recv req hb cs1).outcome =
        some (uh_http_header_parse req (s.take (idx + 4)) (idx + 4)).outcome ∧
    (uh_http_header_recv req hb cs2).outcome =
        some (uh_http_header_parse req (s.take (idx + 4)) (idx + 4)).outcome ∧
    (uh_http_header_recv req hb cs1).httpbuf.buf.take (idx + 4) =
        (uh_http_header_parse req (s.take (idx + 4)) (idx + 4)).buffer ∧
    (uh_http_header_recv req hb cs2).httpbuf.buf.take (idx + 4) =
        (uh_http_header_parse req (s.take (idx + 4)) (idx + 4)).buffer ∧
    (uh_http_header_recv req hb cs1).httpbuf.ptr = idx + 4 ∧
    (uh_http_header_recv req hb cs2).httpbuf.ptr = idx + 4 := by
  have hS := match_at_in_bounds _ _ _ nd4_no_nul (by simp) hf.1
  simp only [List.length_cons, List.length_nil] at hS
  have hplen : (uh_http_header_parse req (s.take (idx + 4)) (idx + 4)).buffer.length = idx + 4 := by
    rw [length_uh_http_header_parse, List.length_take]; omega
  subst h1
  obtain ⟨m1, k1, _, _, _, _, _, _, e1⟩ := header_recv_found req hb cs1 idx hne1 hf hidx
  obtain ⟨m2, k2, _, _, _, _, _, _, e2⟩ := header_recv_found req hb cs2 idx hne2 (h2 ▸ hf) hidx
  rw [h2] at e2
  rw [e1, e2]
  refine ⟨rfl, rfl, ?_, ?_, rfl, rfl⟩
  · simp only []
    rw [List.take_left' hplen]
  · simp only []
    rw [List.take_left' hplen]

/-- C6: when `uh_http_header_recv` finds the first CR LF CR LF of the stream,
which ends at offset `n = idx + 4`, after `m` chunks and `k` received bytes, it
returns with `httpbuf.ptr = n` and `httpbuf.len = k - n`, and the `len` bytes of
the buffer from `ptr` on are the bytes of the stream that follow the
terminator, as received: the header parse has not changed them. -/
theorem header_recv_body_prefix (req : http_request) (hb : httpbuf) (cs : List (List Nat))
    (idx : Nat) (hne : ∀ c ∈ cs, c ≠ []) (hf : first_at cs.flatten [13, 10, 13, 10] idx)
    (hidx : idx + 4 ≤ hb.buf.length - 1) :
    ∃ m k, 1 ≤ m ∧ m ≤ cs.length ∧
      k = min (hb.buf.length - 1) ((cs.take m).flatten).length ∧
      ((cs.take (m - 1)).flatten).length < idx + 4 ∧ idx + 4 ≤ k ∧
      (uh_http_header_recv req hb cs).httpbuf.ptr = idx + 4 ∧
      (uh_http_header_recv req hb cs).httpbuf.len = ((k - (idx + 4) : Nat) : Int) ∧
      ((uh_http_header_recv req hb cs).httpbuf.buf.drop (idx + 4)).take (k - (idx + 4)) =
        (cs.flatten.drop (idx + 4)).take (k - (idx + 4)) := by
  have hS := match_at_in_bounds _ _ _ nd4_no_nul (by simp) hf.1
  simp only [List.length_cons, List.length_nil] at hS
  have hplen : (uh_http_header_parse req (cs.flatten.take (idx + 4)) (idx + 4)).buffer.length =
      idx + 4 := by
    rw [length_uh_http_header_parse, List.length_take]; omega
  obtain ⟨m, k, hm1, hm2, hk, hprev, hkge, hkS, e⟩ := header_recv_found req hb cs idx hne hf hidx
  refine ⟨m, k, hm1, hm2, hk, hprev, hkge, ?_, ?_, ?_⟩
  · rw [e]
  · rw [e]
    simp only []
    omega
  · rw [e]
    simp only []
    rw [List.drop_left' hplen]
    have hl : ((cs.flatten.take k).drop (idx + 4)).length = k - (idx + 4) := by
      rw [List.length_drop, List.length_take]; omega
    rw [List.take_left' hl, List.drop_take]

theorem first_at_of_no_cr (P T : List Nat) (hP : 13 ∉ P) :
    first_at (P ++ ([13, 10, 13, 10] ++ T)) [13, 10, 13, 10] P.length := by
  constructor
  · rw [match_at_iff]
    intro j hj
    rw [rd_append_right, rd_append_left _ _ _ hj]
  · intro j hj
    cases hm : match_at (P ++ ([13, 10, 13, 10] ++ T)) j [13, 10, 13, 10] with
    | false => rfl
    | true =>
      rw [match_at_iff] at hm
      have h0 := hm 0 (by simp)
      rw [Nat.add_zero, rd_append_left _ _ _ hj] at h0
      have h13 : rd P j = 13 := h0
      exact absurd (h13 ▸ rd_mem P j hj) hP

theorem valid_request_line_of_no_cr (M U V : List Nat) (hM : method_of M ≠ none) (hU : U ≠ [])
    (hU0 : 0 ∉ U) (hUsp : 32 ∉ U) (hUcr : 13 ∉ U) (hV : version_of V ≠ none) :
    valid_request_line M U V := by
  obtain ⟨m, hm⟩ := Option.ne_none_iff_exists'.mp hM
  obtain ⟨ver, hver⟩ := Option.ne_none_iff_exists'.mp hV
  have hMcr : 13 ∉ M := by
    unfold method_of at hm
    split_ifs at hm with h1 h2 h3
    · subst h1; rw [bytes_GET]; decide
    · subst h2; rw [bytes_HEAD]; decide
    · subst h3; rw [bytes_POST]; decide
  have hVcr : 13 ∉ V := by
    unfold version_of at hver
    split_ifs at hver with h1 h2 h3
    · subst h1; rw [bytes_HTTP09]; decide
    · subst h2; rw [bytes_HTTP10]; decide
    · subst h3; rw [bytes_HTTP11]; decide
  refine ⟨hM, hU, hU0, hUsp, hV, ?_⟩
  intro j hj hc
  have hmem := rd_mem _ j hj
  rw [hc.1] at hmem
  simp only [List.mem_append, List.mem_cons] at hmem
  rcases hmem with h | h | h | h | h
  · exact hMcr h
  · exact absurd h (by decide)
  · exact hUcr h
  · exact absurd h (by decide)
  · exact hVcr h

theorem header_block_eq (M U V : List Nat) (fs : List field_line) :
    header_block M U V fs = (M ++ 32 :: (U ++ 32 :: V)) ++ 13 :: 10 :: (fields_text fs ++ [13, 10]) := by
  simp [header_block]

theorem length_fresh_httpbuf (n : Nat) : (fresh_httpbuf n).buf.length = n :=
  List.length_replicate _ _

theorem long_url_valid (n : Nat) :
    valid_request_line (bytes "GET") (long_url n) (bytes "HTTP/1.0") := by
  apply valid_request_line_of_no_cr _ _ _ (by decide) (by simp [long_url])
  · simp [long_url, List.mem_replicate]
  · simp [long_url, List.mem_replicate]
  · simp [long_url, List.mem_replicate]
  · decide

theorem long_url_length (n : Nat) :
    (header_block (bytes "GET") (long_url n) (bytes "HTTP/1.0") []).length = n + 18 := by
  rw [length_header_block]
  simp [fields_text, bytes_GET, bytes_HTTP10, long_url]
  omega

theorem long_url_first (n : Nat) :
    first_at (header_block (bytes "GET") (long_url n) (bytes "HTTP/1.0") [])
      [13, 10, 13, 10] (n + 14) := by
  have hP : 13 ∉ bytes "GET" ++ 32 :: (long_url n ++ 32 :: bytes "HTTP/1.0") := by
    simp [bytes_GET, bytes_HTTP10, long_url, List.mem_replicate]
  have hPlen : (bytes "GET" ++ 32 :: (long_url n ++ 32 :: bytes "HTTP/1.0")).length = n + 14 := by
    simp [bytes_GET, bytes_HTTP10, long_url]
  have := first_at_of_no_cr _ [] hP
  rw [hPlen] at this
  rw [header_block_eq]
  simpa [fields_text] using this

theorem long_url_too_large (req : http_request) (n sz : Nat) (h : sz ≤ n + 18) :
    (uh_http_header_recv req (fresh_httpbuf sz)
      [header_block (bytes "GET") (long_url n) (bytes "HTTP/1.0") []]).outcome =
      some (.response 413) := by
  apply header_recv_too_large _ _ _ (n + 14)
  · intro c hc
    rw [List.mem_singleton] at hc
    subst hc
    intro he
    have := long_url_length n
    rw [he] at this
    simp at this
  · simpa using long_url_first n
  · rw [length_fresh_httpbuf]; omega

/-- C4, amended: with the buffer of 4096 bytes and the stream arriving in
non-empty chunks, let the header block be the bytes of the stream through its
first CR LF CR LF, `idx + 4` bytes long. When the block is at most 4095 bytes
long and is a valid request, `uh_http_header_recv` accepts it and returns the
request that the parse of the block gives; when the block is 4096 bytes or
longer, it answers 413 and returns no request. -/
theorem header_recv_size_limit (req : http_request) (hb : httpbuf) (cs : List (List Nat))
    (idx : Nat) (hsz : hb.buf.length = 4096) (hne : ∀ c ∈ cs, c ≠ [])
    (hterm : first_at cs.flatten [13, 10, 13, 10] idx) :
    (idx + 4 ≤ 4095 → ∀ (M U V : List Nat) (fs : List field_line),
      cs.flatten.take (idx + 4) = header_block M U V fs →
      valid_request_line M U V → (∀ f ∈ fs, f.wellformed) →
      fs.length ≤ req.headers.length / 2 →
      ∃ q, (uh_http_header_recv req hb cs).outcome = some (.request q) ∧
        (uh_http_header_parse req (header_block M U V fs)
          (header_block M U V fs).length).outcome = .request q ∧
        some q.method = method_of M ∧ some q.version = version_of V ∧
        q.redirect_status = 200) ∧
    (4096 ≤ idx + 4 →
      (uh_http_header_recv req hb cs).outcome = some (.response 413)) := by
  constructor
  · intro hsmall M U V fs hblock hline hwf hcount
    have hS := match_at_in_bounds _ _ _ nd4_no_nul (by simp) hterm.1
    simp only [List.length_cons, List.length_nil] at hS
    have hlen : (header_block M U V fs).length = idx + 4 := by
      rw [← hblock, List.length_take]; omega
    obtain ⟨m, k, _, _, _, _, _, _, e⟩ := header_recv_found req hb cs idx hne hterm
      (by rw [hsz]; omega)
    rw [hblock, ← hlen] at e
    obtain ⟨mt, ver, b, hm, hver, hp⟩ := parse_block_valid req M U V fs [] hline hwf
    rw [List.append_nil, if_pos (by omega)] at hp
    rw [e, hp]
    exact ⟨_, rfl, rfl, hm.symm, hver.symm, rfl⟩
  · intro hbig
    exact header_recv_too_large req hb cs idx hne hterm (by rw [hsz]; exact hbig)

/-- The size limit theorem at the request `GET / HTTP/1.0` with the body
bytes `xy`, delivered in two chunks. -/
theorem header_recv_size_limit_witness :
    (fresh_httpbuf 4096).buf.length = 4096 ∧
    first_at [bytes "GET / HT", bytes "TP/1.0\r\n\r\nxy"].flatten [13, 10, 13, 10] 14 ∧
    [bytes "GET / HT", bytes "TP/1.0\r\n\r\nxy"].flatten.take (14 + 4) =
      header_block (bytes "GET") (bytes "/") (bytes "HTTP/1.0") [] ∧
    valid_request_line (bytes "GET") (bytes "/") (bytes "HTTP/1.0") ∧
    ∃ q, (uh_http_header_recv (fresh_request 64) (fresh_httpbuf 4096)
          [bytes "GET / HT", bytes "TP/1.0\r\n\r\nxy"]).outcome = some (.request q) ∧
        (uh_http_header_parse (fresh_request 64)
          (header_block (bytes "GET") (bytes "/") (bytes "HTTP/1.0") [])
          (header_block (bytes "GET") (bytes "/") (bytes "HTTP/1.0") []).length).outcome =
            .request q ∧
        some q.method = method_of (bytes "GET") ∧ some q.version = version_of (bytes "HTTP/1.0") ∧
        q.redirect_status = 200 :=
  ⟨length_fresh_httpbuf 4096, by decide, by decide, by decide,
    (header_recv_size_limit (fresh_request 64) (fresh_httpbuf 4096)
      [bytes "GET / HT", bytes "TP/1.0\r\n\r\nxy"] 14
      (length_fresh_httpbuf 4096) (by decide) (by decide)).1 (by decide) (bytes "GET")
      (bytes "/") (bytes "HTTP/1.0") [] (by decide) (by decide) (by decide) (by decide)⟩

/-- C4 as stated fails at 4096 bytes: the valid request `GET /aaa...a HTTP/1.0`
whose header block is exactly 4096 bytes long, delivered in one chunk, is
answered 413. -/
theorem header_recv_size_limit_counterexample :
    valid_request_line (bytes "GET") (long_url 4078) (bytes "HTTP/1.0") ∧
    (header_block (bytes "GET") (long_url 4078) (bytes "HTTP/1.0") []).length = 4096 ∧
    first_at (header_block (bytes "GET") (long_url 4078) (bytes "HTTP/1.0") [])
      [13, 10, 13, 10] 4092 ∧
    (uh_http_header_recv (fresh_request 64) (fresh_httpbuf 4096)
      [header_block (bytes "GET") (long_url 4078) (bytes "HTTP/1.0") []]).outcome =
      some (.response 413) :=
  ⟨long_url_valid 4078, long_url_length 4078, long_url_first 4078,
    long_url_too_large (fresh_request 64) 4078 4096 (by decide)⟩

/-- The chunking theorem at the stream `GET / HTTP/1.0 CR LF CR LF xy`,
delivered whole and delivered in three pieces that cut the terminator: both
runs have the same outcome. -/
theorem header_recv_chunking_witness :
    [bytes "GET / HT", bytes "TP/1.0\r\n\r", bytes "\nxy"].flatten =
      bytes "GET / HTTP/1.0\r\n\r\nxy" ∧
    first_at (bytes "GET / HTTP/1.0\r\n\r\nxy") [13, 10, 13, 10] 14 ∧
    (uh_http_header_recv (fresh_request 64) (fresh_httpbuf 4096)
        [bytes "GET / HTTP/1.0\r\n\r\nxy"]).outcome =
      (uh_http_header_recv (fresh_request 64) (fresh_httpbuf 4096)
        [bytes "GET / HT", bytes "TP/1.0\r\n\r", bytes "\nxy"]).outcome :=
  ⟨by decide, by decide,
    (header_recv_chunking (fresh_request 64) (fresh_httpbuf 4096)
      (bytes "GET / HTTP/1.0\r\n\r\nxy") [bytes "GET / HTTP/1.0\r\n\r\nxy"]
      [bytes "GET / HT", bytes "TP/1.0\r\n\r", bytes "\nxy"] 14 (by decide) (by decide)
      (by decide) (by decide) (by decide)
      (by rw [length_fresh_httpbuf]; decide)).1.trans
    (header_recv_chunking (fresh_request 64) (fresh_httpbuf 4096)
      (bytes "GET / HTTP/1.0\r\n\r\nxy") [bytes "GET / HTTP/1.0\r\n\r\nxy"]
      [bytes "GET / HT", bytes "TP/1.0\r\n\r", bytes "\nxy"] 14 (by decide) (by decide)
      (by decide) (by decide) (by decide)
      (by rw [length_fresh_httpbuf]; decide)).2.1.symm⟩

/-- The body prefix theorem at the stream `POST /f HTTP/1.1 CR LF CR LF hello`
delivered in two chunks. -/
theorem header_recv_body_prefix_witness :
    first_at [bytes "POST /f HTTP/1.1\r\n", bytes "\r\nhello"].flatten [13, 10, 13, 10] 16 ∧
    ∃ m k, 1 ≤ m ∧ m ≤ [bytes "POST /f HTTP/1.1\r\n", bytes "\r\nhello"].length ∧
      k = min ((fresh_httpbuf 4096).buf.length - 1)
        (([bytes "POST /f HTTP/1.1\r\n", bytes "\r\nhello"].take m).flatten).length ∧
      (([bytes "POST /f HTTP/1.1\r\n", bytes "\r\nhello"].take (m - 1)).flatten).length < 16 + 4 ∧
      16 + 4 ≤ k ∧
      (uh_http_header_recv (fresh_request 64) (fresh_httpbuf 4096)
        [bytes "POST /f HTTP/1.1\r\n", bytes "\r\nhello"]).httpbuf.ptr = 16 + 4 ∧
      (uh_http_header_recv (fresh_request 64) (fresh_httpbuf 4096)
        [bytes "POST /f HTTP/1.1\r\n", bytes "\r\nhello"]).httpbuf.len =
          ((k - (16 + 4) : Nat) : Int) ∧
      ((uh_http_header_recv (fresh_request 64) (fresh_httpbuf 4096)
        [bytes "POST /f HTTP/1.1\r\n", bytes "\r\nhello"]).httpbuf.buf.drop (16 + 4)).take
          (k - (16 + 4)) =
        ([bytes "POST /f HTTP/1.1\r\n", bytes "\r\nhello"].flatten.drop (16 + 4)).take
          (k - (16 + 4)) :=
  ⟨by decide,
    header_recv_body_prefix (fresh_request 64) (fresh_httpbuf 4096)
      [bytes "POST /f HTTP/1.1\r\n", bytes "\r\nhello"] 16 (by decide) (by decide)
      (by rw [length_fresh_httpbuf]; decide)⟩

/-! ## The stored strings lie inside the header block -/

theorem rd_wr_zero_same (b : Buf) (i : Nat) : rd (wr b i 0) i = 0 := by
  rcases Nat.lt_or_ge i b.length with h | h
  · exact rd_wr_same b i 0 h
  · exact rd_of_length_le _ _ (by rw [length_wr]; exact h)

theorem terminated_below_wr (b : Buf) (i k p : Nat) (h : terminated_below b i p) :
    terminated_below (wr b k 0) i p := by
  obtain ⟨hp, z, hz, hpz, h0⟩ := h
  exact ⟨hp, z, hz, hpz, rd_wr_zero b k z h0⟩

theorem terminated_below_mono (b : Buf) (i k p : Nat) (hik : i ≤ k)
    (h : terminated_below b i p) : terminated_below b k p := by
  obtain ⟨hp, z, hz, hpz, h0⟩ := h
  exact ⟨by omega, z, by omega, hpz, h0⟩

theorem skip_spaces_ge (b : Buf) (buflen : Nat) :
    ∀ (n d : Nat), d ≤ skip_spaces b buflen n d := by
  intro n
  induction n with
  | zero => intro d; exact Nat.le_refl _
  | succ n ih =>
    intro d
    unfold skip_spaces
    split
    · exact Nat.le_trans (Nat.le_succ d) (ih (d + 1))
    · exact Nat.le_refl _

theorem skip_spaces_lt (b : Buf) (buflen : Nat) :
    ∀ (n d : Nat), d < buflen → skip_spaces b buflen n d < buflen := by
  intro n
  induction n with
  | zero => intro d h; exact h
  | succ n ih =>
    intro d h
    unfold skip_spaces
    split
    · rename_i hc
      simp only [Bool.and_eq_true, decide_eq_true_eq] at hc
      exact ih (d + 1) hc.1
    · exact h

theorem skip_spaces_spaces (b : Buf) (buflen : Nat) :
    ∀ (n d j : Nat), d ≤ j → j < skip_spaces b buflen n d → rd b j = 32 := by
  intro n
  induction n with
  | zero => intro d j h1 h2; simp only [skip_spaces] at h2; omega
  | succ n ih =>
    intro d j h1 h2
    unfold skip_spaces at h2
    split at h2
    · rename_i hc
      simp only [Bool.and_eq_true, decide_eq_true_eq, beq_iff_eq] at hc
      rcases Nat.eq_or_lt_of_le h1 with e | e
      · rw [← e]; exact hc.2
      · exact ih (d + 1) j e h2
    · omega

theorem header_step_inv (buflen i : Nat) (H0 : List (Option Nat)) (s s1 : hdr_state)
    (hinv : loop_inv buflen i H0 s)
    (hstep : header_step buflen i s = .ok s1) : loop_inv buflen (i + 1) H0 s1 := by
  obtain ⟨b, onm, od, c, H⟩ := s
  obtain ⟨hlen, hc, hdrop, hcells, hname, hdata⟩ := hinv
  simp only at hlen hc hdrop hcells hname hdata
  have hmono : ∀ cell ∈ H.take c, ∃ p, cell = some p ∧ terminated_below b (i + 1) p :=
    fun cell hm => by
      obtain ⟨p, hp, ht⟩ := hcells cell hm
      exact ⟨p, hp, terminated_below_mono b i (i + 1) p (Nat.le_succ i) ht⟩
  cases onm with
  | none =>
    by_cases ha : isalpha (rd b i) = true
    · have e : header_step buflen i ⟨b, none, od, c, H⟩ = .ok ⟨b, some i, od, c, H⟩ := by
        simp [header_step, ha]
      rw [e] at hstep
      cases hstep
      refine ⟨hlen, hc, hdrop, hmono, ?_, ?_⟩
      · intro n hn; cases hn; exact Nat.lt_succ_self _
      · intro d hd
        obtain ⟨_, ⟨n, z, hn, _⟩, _⟩ := hdata d hd
        simp at hn
    · have e : header_step buflen i ⟨b, none, od, c, H⟩ = .ok ⟨b, none, od, c, H⟩ := by
        simp [header_step, ha]
      rw [e] at hstep
      cases hstep
      refine ⟨hlen, hc, hdrop, hmono, ?_, ?_⟩
      · intro n hn; simp at hn
      · intro d hd
        obtain ⟨_, ⟨n, z, hn, _⟩, _⟩ := hdata d hd
        simp at hn
  | some n =>
    have hn := hname n rfl
    cases od with
    | none =>
      by_cases hcol : i + 1 < buflen ∧ rd b i = 58
      · rw [header_step_colon buflen i b n c H hcol.2 hcol.1] at hstep
        cases hstep
        refine ⟨hlen, hc, hdrop, ?_, ?_, ?_⟩
        · intro cell hm
          obtain ⟨p, hp, ht⟩ := hmono cell hm
          exact ⟨p, hp, terminated_below_wr b (i + 1) i p ht⟩
        · intro m hm; cases hm; omega
        · intro d hd
          cases hd
          refine ⟨skip_spaces_lt _ _ _ _ hcol.1, ⟨n, i, rfl, by omega, ?_, by omega,
            rd_wr_zero_same b i⟩, ?_⟩
          · exact Nat.lt_of_lt_of_le (Nat.lt_succ_self i) (skip_spaces_ge _ _ _ _)
          · intro j h1 h2
            exact skip_spaces_spaces _ _ _ _ j h1 h2
      · have e : header_step buflen i ⟨b, some n, none, c, H⟩ = .ok ⟨b, some n, none, c, H⟩ := by
          simp only [header_step]
          rw [if_neg]
          simpa using hcol
        rw [e] at hstep
        cases hstep
        refine ⟨hlen, hc, hdrop, hmono, ?_, ?_⟩
        · intro m hm; cases hm; omega
        · intro d hd; simp at hd
    | some d =>
      obtain ⟨hdl, ⟨n', z, hn', hnz, hzd, hzi, hz0⟩, hsp⟩ := hdata d rfl
      cases hn'
      by_cases heol : rd b i = 13 ∨ rd b i = 10
      · by_cases hroom : c + 1 < H.length
        · rw [header_step_store buflen i b n d c H heol hroom] at hstep
          cases hstep
          have hdi : d ≤ i := by
            by_contra hcon
            have := hsp i (Nat.le_refl _) (by omega)
            rcases heol with h | h <;> omega
          refine ⟨by simp [hlen], by simp; omega, ?_, ?_, ?_, ?_⟩
          · simp only []
            rw [set_two H c _ _ hroom]
            have e3 : (H.take c ++ [some n, some d]).length = c + 2 := by simp; omega
            have e2 : H.take c ++ some n :: some d :: H.drop (c + 2) =
                (H.take c ++ [some n, some d]) ++ H.drop (c + 2) := by simp
            rw [e2, List.drop_left' e3]
            have := congrArg (List.drop 2) hdrop
            simpa [List.drop_drop, Nat.add_comm] using this
          · simp only []
            rw [set_two H c _ _ hroom]
            have e3 : (H.take c ++ [some n, some d]).length = c + 2 := by simp; omega
            have e2 : H.take c ++ some n :: some d :: H.drop (c + 2) =
                (H.take c ++ [some n, some d]) ++ H.drop (c + 2) := by simp
            rw [e2, List.take_left' e3]
            intro cell hm
            rcases List.mem_append.mp hm with hm | hm
            · obtain ⟨p, hp, ht⟩ := hmono cell hm
              exact ⟨p, hp, terminated_below_wr b (i + 1) i p ht⟩
            · simp only [List.mem_cons, List.mem_singleton, List.not_mem_nil, or_false] at hm
              rcases hm with hm | hm
              · exact ⟨n, hm, by omega, z, by omega, hnz, rd_wr_zero b i z hz0⟩
              · exact ⟨d, hm, by omega, i, by omega, hdi, rd_wr_zero_same b i⟩
          · intro m hm; simp at hm
          · intro m hm; simp at hm
        · rw [header_step_full buflen i b n d c H heol hroom] at hstep
          cases hstep
      · rw [header_step_value buflen i b n d c H (fun h => heol (Or.inl h))
          (fun h => heol (Or.inr h))] at hstep
        cases hstep
        refine ⟨hlen, hc, hdrop, hmono, ?_, ?_⟩
        · intro m hm; cases hm; omega
        · intro m hm
          cases hm
          exact ⟨hdl, ⟨n, z, rfl, hnz, hzd, by omega, hz0⟩,
            fun j h1 h2 => hsp j (by omega) h2⟩

theorem header_loop_inv (buflen : Nat) (H0 : List (Option Nat)) :
    ∀ (n i : Nat) (s s1 : hdr_state), loop_inv buflen i H0 s →
      header_loop buflen n i s = .ok s1 → loop_inv buflen (i + n) H0 s1 := by
  intro n
  induction n with
  | zero =>
    intro i s s1 hinv h
    simp only [header_loop] at h
    cases h
    exact hinv
  | succ n ih =>
    intro i s s1 hinv h
    rw [header_loop_succ] at h
    cases hs : header_step buflen i s with
    | error e => rw [hs] at h; cases h
    | ok s2 =>
      rw [hs] at h
      have := ih (i + 1) s2 s1 (header_step_inv buflen i H0 s s2 hinv hs) h
      have e : i + 1 + n = i + (n + 1) := by omega
      rw [e] at this
      exact this

theorem strfind_of_match (b : Buf) (hslen : Nat) (nd : List Nat) (i : Nat) (hpos : 0 < nd.length)
    (hfit : i + nd.length ≤ hslen) (hm : match_at b i nd = true) :
    ∃ h, strfind b hslen nd = some h ∧ h ≤ i := by
  have hex : ∃ j, j + nd.length ≤ hslen ∧ match_at b j nd = true := ⟨i, hfit, hm⟩
  refine ⟨Nat.find hex, ?_, Nat.find_min' hex ⟨hfit, hm⟩⟩
  obtain ⟨h1, h2⟩ := Nat.find_spec hex
  apply strfind_some b hslen nd _ h1 hpos h2
  intro j hj
  have := Nat.find_min hex hj
  by_contra hc
  exact this ⟨by omega, by simpa using hc⟩

theorem parse_checks_stored (req : http_request) (b3 : Buf) (buflen h : Nat)
    (path version : Option Nat) (q : http_request) (h0 : rd b3 h = 0) (hh : h + 2 ≤ buflen)
    (hp : ∀ p, path = some p → p ≤ h)
    (hq : (parse_checks req b3 buflen (h + 2) path version).outcome = .request q) :
    (∃ p, q.url = some p ∧
      terminated_below (parse_checks req b3 buflen (h + 2) path version).buffer buflen p) ∧
    ∃ c, c ≤ q.headers.length ∧ q.headers.drop c = req.headers.drop c ∧
      ∀ cell ∈ q.headers.take c, ∃ p, cell = some p ∧
        terminated_below (parse_checks req b3 buflen (h + 2) path version).buffer buflen p := by
  unfold parse_checks at hq ⊢
  split at hq
  · cases hq
  · rename_i hmeth
    rw [if_neg hmeth]
    simp only [] at hq ⊢
    cases path with
    | none => cases hq
    | some p =>
      simp only [] at hq ⊢
      split at hq
      · cases hq
      · rename_i hlen
        rw [if_neg hlen]
        cases version with
        | none => cases hq
        | some v =>
          simp only [] at hq ⊢
          split at hq
          · cases hq
          · rename_i hver
            rw [if_neg hver]
            have hinv0 : loop_inv buflen (h + 2) req.headers ⟨b3, none, none, 0, req.headers⟩ := by
              refine ⟨rfl, Nat.zero_le _, rfl, ?_, ?_, ?_⟩
              · intro cell hm; simp at hm
              · intro n hn; simp at hn
              · intro d hd; simp at hd
            have hfr := header_loop_frame buflen (buflen - (h + 2)) (h + 2)
              ⟨b3, none, none, 0, req.headers⟩
            cases hl : header_loop buflen (buflen - (h + 2)) (h + 2)
                ⟨b3, none, none, 0, req.headers⟩ with
            | error e => rw [hl] at hq; cases hq
            | ok s =>
              rw [hl] at hq hfr
              simp only [loop_buffer] at hfr
              simp only [parse_result.outcome, parse_outcome.request.injEq] at hq
              have hinv := header_loop_inv buflen req.headers _ _ _ s hinv0 hl
              have e : h + 2 + (buflen - (h + 2)) = buflen := by omega
              rw [e] at hinv
              obtain ⟨hlen', hc, hdrop, hcells, _, _⟩ := hinv
              subst hq
              simp only []
              refine ⟨⟨p, rfl, ?_, h, by omega, hp p rfl, ?_⟩, s.hdrcount, hc, hdrop, hcells⟩
              · have := hp p rfl; omega
              · have h1 := rd_take s.buffer (h + 2) h (by omega)
                have h2 := rd_take b3 (h + 2) h (by omega)
                rw [← h1, hfr.1, h2]
                exact h0

theorem parse_after_stored (req : http_request) (B : Buf) (buflen h : Nat) (q : http_request)
    (hlen : buflen ≤ B.length) (hh : h + 2 ≤ buflen) (h0 : rd B h = 0)
    (hq : (parse_after req B buflen h).outcome = .request q) :
    (∃ p, q.url = some p ∧ terminated_below (parse_after req B buflen h).buffer buflen p) ∧
    ∃ c, c ≤ q.headers.length ∧ q.headers.drop c = req.headers.drop c ∧
      ∀ cell ∈ q.headers.take c, ∃ p, cell = some p ∧
        terminated_below (parse_after req B buflen h).buffer buflen p := by
  have hhl : h < B.length := by omega
  unfold parse_after at hq ⊢
  cases hs1 : strchr B 0 32 with
  | none =>
    rw [hs1] at hq
    simp only [Option.map_none', Option.none_bind] at hq ⊢
    exact parse_checks_stored req B buflen h none none q h0 hh (fun p hp => by simp at hp) hq
  | some s =>
    rw [hs1] at hq
    obtain ⟨_, hsl⟩ := strchr_bounds B 0 32 s h hs1 (Nat.zero_le _) hhl h0
    have h0' : rd (wr B s 0) h = 0 := rd_wr_zero B s h h0
    simp only [Option.map_some', Option.some_bind] at hq ⊢
    cases hs2 : strchr (wr B s 0) (s + 1) 32 with
    | none =>
      rw [hs2] at hq
      simp only [Option.map_none'] at hq ⊢
      exact parse_checks_stored req (wr B s 0) buflen h (some (s + 1)) none q h0' hh
        (fun p hp => by have := Option.some.inj hp; omega) hq
    | some s2 =>
      rw [hs2] at hq
      simp only [Option.map_some'] at hq ⊢
      exact parse_checks_stored req (wr (wr B s 0) s2 0) buflen h (some (s + 1)) (some (s2 + 1)) q
        (rd_wr_zero _ s2 h h0') hh (fun p hp => by have := Option.some.inj hp; omega) hq

/-- C16: when the first CR LF CR LF of the buffer ends exactly at `buflen`,
the parse neither reads nor writes a cell from `buflen` on (its outcome and
the cells below `buflen` are the same whatever stands from `buflen` on, and
those cells come back as they were); the search for the first CR LF succeeds,
so that the final branch, the 400 for a block without a line end, is not
taken; and in a returned request the url and every header cell the call has
filled hold an offset below `buflen` with a NUL at or after it, below
`buflen` (the cells the call has filled are the first `c`, the others are
untouched). -/
theorem header_parse_in_bounds (req : http_request) (buffer : Buf) (buflen idx : Nat)
    (hfirst : first_at buffer [13, 10, 13, 10] idx) (hend : buflen = idx + 4) :
    (∀ Y, uh_http_header_parse req (buffer.take buflen ++ Y) buflen =
      ⟨(uh_http_header_parse req buffer buflen).buffer.take buflen ++ Y,
        (uh_http_header_parse req buffer buflen).outcome⟩) ∧
    (∃ h, strfind buffer buflen [13, 10] = some h ∧ h + 2 ≤ buflen ∧
      uh_http_header_parse req buffer buflen =
        parse_after req (wr (wr (wr buffer (buflen - 1) 0) h 0) (h + 1) 0) buflen h) ∧
    (∀ q, (uh_http_header_parse req buffer buflen).outcome = .request q →
      (∃ p, q.url = some p ∧
        terminated_below (uh_http_header_parse req buffer buflen).buffer buflen p) ∧
      ∃ c, c ≤ q.headers.length ∧ q.headers.drop c = req.headers.drop c ∧
        ∀ cell ∈ q.headers.take c, ∃ p, cell = some p ∧
          terminated_below (uh_http_header_parse req buffer buflen).buffer buflen p) := by
  obtain ⟨hm, _⟩ := hfirst
  have hlen : buflen ≤ buffer.length := by
    have := match_at_in_bounds buffer [13, 10, 13, 10] idx (by decide) (by decide) hm
    simp only [List.length_cons, List.length_nil] at this
    omega
  have hm2 : match_at buffer idx [13, 10] = true := by
    simp only [match_at, Bool.and_eq_true, Bool.and_true] at hm ⊢
    exact ⟨hm.1, hm.2.1⟩
  obtain ⟨h, hfind, hle⟩ := strfind_of_match buffer buflen [13, 10] idx (by decide)
    (by simp only [List.length_cons, List.length_nil]; omega) hm2
  have hh : h + 2 ≤ buflen := by omega
  have hun := uh_http_header_parse_unfold req buffer buflen
  rw [hfind] at hun
  simp only [] at hun
  have hsplit : buffer = buffer.take buflen ++ buffer.drop buflen :=
    (List.take_append_drop buflen buffer).symm
  have hA : (buffer.take buflen).length = buflen := by
    rw [List.length_take]; omega
  refine ⟨?_, ⟨h, hfind, hh, hun⟩, ?_⟩
  · intro Y
    have h1 := uh_http_header_parse_append req (buffer.take buflen) Y
    have h2 := uh_http_header_parse_append req (buffer.take buflen) (buffer.drop buflen)
    rw [hA] at h1 h2
    rw [← hsplit] at h2
    have hl := length_uh_http_header_parse req (buffer.take buflen) buflen
    rw [h1, h2]
    simp only []
    rw [List.take_left' (by rw [hl, hA])]
  · intro q hq
    rw [hun] at hq ⊢
    apply parse_after_stored req _ buflen h q (by simp only [length_wr]; exact hlen) hh _ hq
    apply rd_wr_zero
    apply rd_wr_zero_same

/-- The bounds theorem at the block `GET / HTTP/1.0 CR LF Host: x CR LF CR LF`
followed by the bytes `body`. -/
theorem header_parse_in_bounds_witness :
    first_at (bytes "GET / HTTP/1.0\r\nHost: x\r\n\r\nbody") [13, 10, 13, 10] 23 ∧
    (∃ h, strfind (bytes "GET / HTTP/1.0\r\nHost: x\r\n\r\nbody") 27 [13, 10] = some h ∧
      h + 2 ≤ 27 ∧
      uh_http_header_parse (fresh_request 64)
          (bytes "GET / HTTP/1.0\r\nHost: x\r\n\r\nbody") 27 =
        parse_after (fresh_request 64)
          (wr (wr (wr (bytes "GET / HTTP/1.0\r\nHost: x\r\n\r\nbody") (27 - 1) 0) h 0)
            (h + 1) 0) 27 h) ∧
    (∀ q, (uh_http_header_parse (fresh_request 64)
        (bytes "GET / HTTP/1.0\r\nHost: x\r\n\r\nbody") 27).outcome = .request q →
      (∃ p, q.url = some p ∧
        terminated_below (uh_http_header_parse (fresh_request 64)
          (bytes "GET / HTTP/1.0\r\nHost: x\r\n\r\nbody") 27).buffer 27 p) ∧
      ∃ c, c ≤ q.headers.length ∧
        q.headers.drop c = (fresh_request 64).headers.drop c ∧
        ∀ cell ∈ q.headers.take c, ∃ p, cell = some p ∧
          terminated_below (uh_http_header_parse (fresh_request 64)
            (bytes "GET / HTTP/1.0\r\nHost: x\r\n\r\nbody") 27).buffer 27 p) :=
  ⟨by decide,
    (header_parse_in_bounds (fresh_request 64)
      (bytes "GET / HTTP/1.0\r\nHost: x\r\n\r\nbody") 27 23 (by decide) rfl).2⟩

/-! ## A line without a colon -/

theorem header_loop_upto (buflen : Nat) :
    ∀ (fs : List field_line) (A X : Buf) (c : Nat) (H : List (Option Nat)),
      (∀ f ∈ fs, isalpha (f.name.headD 0) = true ∧ 58 ∉ f.name ∧ 13 ∉ f.rest ∧ 10 ∉ f.rest ∧
        (f.term = [13, 10] ∨ f.term = [13] ∨ f.term = [10])) →
      A.length + (fields_text fs).length ≤ buflen →
      ∃ b, header_loop buflen (fields_text fs).length A.length
          ⟨A ++ (fields_text fs ++ X), none, none, c, H⟩ =
        if 2 * fs.length ≤ H.length - c then
          .ok ⟨A ++ (fields_parsed fs ++ X), none, none, c + 2 * fs.length,
            H.take c ++ (field_ptrs A.length fs ++ H.drop (c + 2 * fs.length))⟩
        else .error b := by
  intro fs
  induction fs with
  | nil =>
    intro A X c H _ _
    refine ⟨[], ?_⟩
    simp [fields_text, fields_parsed, field_ptrs, header_loop]
  | cons f fs ih =>
    intro A X c H hwf hlen
    have hf := hwf f (List.mem_cons_self _ _)
    have hfs := fun g hg => hwf g (List.mem_cons_of_mem _ hg)
    obtain ⟨hn, hcol, h13, h10, hterm⟩ := hf
    obtain ⟨t, junk, hteq, ht, hjunk⟩ : ∃ t junk, f.term = t :: junk ∧ (t = 13 ∨ t = 10) ∧
        ∀ x ∈ junk, isalpha x = false := by
      rcases hterm with h | h | h
      · exact ⟨13, [10], h, Or.inl rfl, by simp; decide⟩
      · exact ⟨13, [], h, Or.inl rfl, by simp⟩
      · exact ⟨10, [], h, Or.inr rfl, by simp⟩
    have htext : f.text = f.name ++ 58 :: (f.rest ++ t :: junk) := by
      simp [field_line.text, hteq]
    have hparsed : f.parsed = f.name ++ 0 :: (f.rest ++ 0 :: junk) := by
      simp [field_line.parsed, hteq]
    have hb0 : A ++ (fields_text (f :: fs) ++ X) =
        A ++ (f.name ++ 58 :: (f.rest ++ t :: (junk ++ (fields_text fs ++ X)))) := by
      simp [fields_text, htext]
    have hcount : (fields_text (f :: fs)).length =
        (f.name.length + 1 + f.rest.length + 1) +
          (junk.length + (fields_text fs).length) := by
      simp [fields_text, htext]; omega
    have hlen' : A.length + f.name.length + 1 + f.rest.length < buflen := by
      have : (fields_text (f :: fs)).length = f.name.length + 1 + f.rest.length + 1 +
          junk.length + (fields_text fs).length := by simp [fields_text, htext]; omega
      omega
    rw [hb0, hcount, header_loop_add,
      header_loop_line buflen A f.name f.rest t _ c H hn hcol h13 h10 ht hlen']
    by_cases hc : c + 1 < H.length
    swap
    · refine ⟨A ++ (f.name ++ 0 :: (f.rest ++ 0 :: (junk ++ (fields_text fs ++ X)))), ?_⟩
      rw [if_neg hc, if_neg (by simp only [List.length_cons]; omega)]
    rw [if_pos hc]
    simp only []
    rw [header_loop_add]
    have hA1 : A ++ (f.name ++ 0 :: (f.rest ++ 0 :: (junk ++ (fields_text fs ++ X)))) =
        (A ++ (f.name ++ 0 :: (f.rest ++ [0]))) ++ (junk ++ (fields_text fs ++ X)) := by
      simp
    have hl1 : (A ++ (f.name ++ 0 :: (f.rest ++ [0]))).length =
        A.length + (f.name.length + 1 + f.rest.length + 1) := by
      simp; omega
    have hskip := header_loop_skip buflen
      ⟨A ++ (f.name ++ 0 :: (f.rest ++ 0 :: (junk ++ (fields_text fs ++ X)))), none, none,
        c + 2, (H.set c (some A.length)).set (c + 1)
          (some (A.length + f.name.length + 1 + (f.rest.takeWhile (fun x => x == 32)).length))⟩
      junk.length (A.length + (f.name.length + 1 + f.rest.length + 1)) (by
        intro j hj1 hj2
        apply header_step_idle
        rw [hA1]
        exact hjunk _ (rd_mid _ junk _ j (by rw [hl1]; exact hj1) (by rw [hl1]; exact hj2)))
    rw [hskip]
    simp only []
    have hA2 : A ++ (f.name ++ 0 :: (f.rest ++ 0 :: (junk ++ (fields_text fs ++ X)))) =
        (A ++ f.parsed) ++ (fields_text fs ++ X) := by
      simp [hparsed]
    have hl2 : (A ++ f.parsed).length =
        A.length + (f.name.length + 1 + f.rest.length + 1) + junk.length := by
      simp [hparsed]; omega
    have hl3 : (A ++ f.parsed).length = A.length + f.text.length := by
      simp [hparsed, htext]
    obtain ⟨b, hb⟩ := ih (A ++ f.parsed) X (c + 2)
      ((H.set c (some A.length)).set (c + 1)
          (some (A.length + f.name.length + 1 + (f.rest.takeWhile (fun x => x == 32)).length)))
      hfs (by rw [hl2]; omega)
    refine ⟨b, ?_⟩
    rw [hA2, ← hl2, hb]
    simp only [List.length_set, List.length_cons]
    have hcond : (2 * fs.length ≤ H.length - (c + 2)) ↔ (2 * (fs.length + 1) ≤ H.length - c) := by
      omega
    by_cases hk : 2 * fs.length ≤ H.length - (c + 2)
    · rw [if_pos hk, if_pos (hcond.mp hk)]
      have e1 : c + 2 + 2 * fs.length = c + 2 * (fs.length + 1) := by omega
      rw [set_two H c _ _ hc]
      simp only [field_ptrs, fields_parsed, List.append_assoc, e1, hl3]
      congr 2
      have e2 : (H.take c ++ some A.length ::
          some (A.length + f.name.length + 1 + (f.rest.takeWhile (fun x => x == 32)).length) ::
          H.drop (c + 2)) = (H.take c ++ [some A.length,
          some (A.length + f.name.length + 1 + (f.rest.takeWhile (fun x => x == 32)).length)]) ++
          H.drop (c + 2) := by simp
      have e3 : (H.take c ++ [some A.length,
          some (A.length + f.name.length + 1 +
            (f.rest.takeWhile (fun x => x == 32)).length)]).length = c + 2 := by
        simp; omega
      rw [e2, List.take_left' e3]
      have e4 : c + 2 * (fs.length + 1) = (c + 2) + 2 * fs.length := by omega
      rw [e4, ← e3, List.drop_append, List.drop_drop]
      simp only [List.append_assoc, List.cons_append, List.nil_append, e3]
    · rw [if_neg hk, if_neg (fun h => hk (hcond.mpr h))]


theorem parse_region (req : http_request) (M U V F T : Buf)
    (hline : valid_request_line M U V) :
    ∃ m ver, method_of M = some m ∧ version_of V = some ver ∧
      uh_http_header_parse req (M ++ 32 :: (U ++ 32 :: (V ++ 13 :: 10 :: (F ++ 13 :: 10 :: T))))
          (M.length + 1 + U.length + 1 + V.length + 2 + F.length + 2) =
        match header_loop (M.length + 1 + U.length + 1 + V.length + 2 + F.length + 2)
            (F.length + 2) (parsed_line M U V).length
            ⟨parsed_line M U V ++ (F ++ ([13, 0] ++ T)), none, none, 0, req.headers⟩ with
        | .error b => ⟨b, .response 413⟩
        | .ok s =>
          ⟨s.buffer, .request
            { method := m
              url := some (M.length + 1)
              version := ver
              redirect_status := 200
              headers := s.headers }⟩ := by
  obtain ⟨hM, hU, hU0, hUsp, hV, hno⟩ := hline
  obtain ⟨m, hm⟩ := Option.ne_none_iff_exists'.mp hM
  obtain ⟨ver, hver'⟩ := Option.ne_none_iff_exists'.mp hV
  refine ⟨m, ver, hm, hver', ?_⟩
  obtain ⟨hM0, hMsp⟩ := method_of_no_nul_sp M m hm
  have hV0 := version_of_no_nul V ver hver'
  have hbuf' : M ++ 32 :: (U ++ 32 :: (V ++ 13 :: 10 :: (F ++ 13 :: 10 :: T))) =
      (M ++ 32 :: (U ++ 32 :: V)) ++ 13 :: 10 :: (F ++ 13 :: 10 :: T) := by
    simp
  have hLlen : (M ++ 32 :: (U ++ 32 :: V)).length = M.length + 1 + U.length + 1 + V.length := by
    simp; omega
  have hfind : strfind (M ++ 32 :: (U ++ 32 :: (V ++ 13 :: 10 :: (F ++ 13 :: 10 :: T))))
      (M.length + 1 + U.length + 1 + V.length + 2 + F.length + 2) [13, 10] =
      some (M.length + 1 + U.length + 1 + V.length) := by
    rw [← hLlen, hbuf']
    apply strfind_crlf_line
    · intro j hj
      rw [rd_append_left _ _ _ hj]
      rcases Nat.lt_or_ge (j + 1) (M ++ 32 :: (U ++ 32 :: V)).length with h1 | h1
      · rw [rd_append_left _ _ _ h1]
        exact hno j hj
      · have e : j + 1 = (M ++ 32 :: (U ++ 32 :: V)).length + 0 := by omega
        rw [e, rd_append_right, rd_cons_zero]
        intro hc
        exact absurd hc.2 (by decide)
    · omega
  rw [parse_three req M U V _ _ hM0 hMsp hU0 hUsp hV0 hfind]
  simp only []
  rw [if_neg (fun h => by rw [(method_of_eq_none M).mpr h] at hm; simp at hm), if_neg hU,
    if_neg (fun h => by rw [(version_of_eq_none V).mpr h] at hver'; simp at hver')]
  have htail : prelude_tail (F ++ 13 :: 10 :: T)
      (M.length + 1 + U.length + 1 + V.length)
      (M.length + 1 + U.length + 1 + V.length + 2 + F.length + 2) =
      F ++ ([13, 0] ++ T) := by
    unfold prelude_tail
    rw [if_neg (by omega)]
    have e : (M.length + 1 + U.length + 1 + V.length + 2 + F.length + 2) -
        (M.length + 1 + U.length + 1 + V.length + 3) = F.length + 1 := by omega
    rw [e, wr_append_right]
    rfl
  rw [htail]
  have hb3 : M ++ 0 :: (U ++ 0 :: (V ++ 0 :: 0 :: (F ++ ([13, 0] ++ T)))) =
      parsed_line M U V ++ (F ++ ([13, 0] ++ T)) := by
    simp [parsed_line]
  have hver : ∀ X : Buf, strtof10 (M ++ 0 :: (U ++ 0 :: (V ++ 0 :: 0 :: X)))
      (M.length + 1 + U.length + 1 + 5) = ver := by
    intro X
    have := strtof10_version (M ++ 0 :: (U ++ [0])) V (0 :: 0 :: X) ver hver'
    simp only [List.append_assoc, List.cons_append, List.nil_append, List.length_append,
      List.length_cons, List.length_nil, Nat.zero_add] at this
    have e3 : M.length + (U.length + 1 + 1) + 5 = M.length + 1 + U.length + 1 + 5 := by omega
    rw [e3] at this
    exact this
  have hmeth := method_switch M (0 :: (U ++ 0 :: (V ++ 0 :: 0 ::
    (F ++ ([13, 0] ++ T))))) m req.method hm
  unfold parse_fields
  rw [hver, hmeth, hb3]
  have hpl := length_parsed_line M U V
  have ecount : (M.length + 1 + U.length + 1 + V.length + 2 + F.length + 2) -
      (M.length + 1 + U.length + 1 + V.length + 2) = F.length + 2 := by omega
  rw [ecount, hpl]

theorem storable_of_wellformed (f : field_line) (h : f.wellformed) : f.storable := by
  obtain ⟨h1, h2, _, _, h3, h4, h5⟩ := h
  exact ⟨h1, h2, h3, h4, h5⟩

theorem length_parsed_storable (f : field_line) (h : f.storable) :
    f.parsed.length = f.text.length := by
  obtain ⟨_, _, _, _, ht⟩ := h
  unfold field_line.parsed field_line.text
  rcases ht with ht | ht | ht <;> simp [ht]

theorem length_fields_parsed (fs : List field_line) (h : ∀ f ∈ fs, f.storable) :
    (fields_parsed fs).length = (fields_text fs).length := by
  induction fs with
  | nil => rfl
  | cons f fs ih =>
    simp only [fields_parsed, fields_text, List.length_append]
    rw [length_parsed_storable f (h f (List.mem_cons_self _ _)),
      ih (fun g hg => h g (List.mem_cons_of_mem _ hg))]

theorem header_loop_upto_gap (buflen : Nat) (gap : Buf) (hgap : ∀ x ∈ gap, isalpha x = false)
    (fs : List field_line) (A X : Buf) (c : Nat) (H : List (Option Nat))
    (hst : ∀ f ∈ fs, f.storable) (hlen : A.length + (fields_text fs).length ≤ buflen) :
    ∃ b, header_loop buflen ((fields_text fs).length + gap.length) A.length
        ⟨A ++ (fields_text fs ++ (gap ++ X)), none, none, c, H⟩ =
      if 2 * fs.length ≤ H.length - c then
        .ok ⟨A ++ (fields_parsed fs ++ (gap ++ X)), none, none, c + 2 * fs.length,
          H.take c ++ (field_ptrs A.length fs ++ H.drop (c + 2 * fs.length))⟩
      else .error b := by
  obtain ⟨b, hb⟩ := header_loop_upto buflen fs A (gap ++ X) c H hst hlen
  refine ⟨b, ?_⟩
  rw [header_loop_add, hb]
  by_cases hk : 2 * fs.length ≤ H.length - c
  · rw [if_pos hk]
    simp only []
    apply header_loop_skip
    intro j hj1 hj2
    apply header_step_idle
    have e : A ++ (fields_parsed fs ++ (gap ++ X)) = (A ++ fields_parsed fs) ++ (gap ++ X) := by
      simp
    have hl : (A ++ fields_parsed fs).length = A.length + (fields_text fs).length := by
      rw [List.length_append, length_fields_parsed fs hst]
    rw [e]
    exact hgap _ (rd_mid _ gap X j (by rw [hl]; exact hj1) (by rw [hl]; exact hj2))
  · rw [if_neg hk]

theorem header_pairs_storable (X : Buf) (L : List (Option Nat)) :
    ∀ (fs : List field_line) (A : Buf), (∀ f ∈ fs, f.storable) →
      (∀ f ∈ fs, 0 ∉ f.name ∧ 0 ∉ f.rest) →
      header_pairs (A ++ (fields_parsed fs ++ X)) (field_ptrs A.length fs ++ L) =
        fs.map (fun f => (f.name, f.value)) ++ header_pairs (A ++ (fields_parsed fs ++ X)) L := by
  intro fs
  induction fs with
  | nil => intro A _ _; rfl
  | cons f fs ih =>
    intro A hwf hnul
    have hf := hwf f (List.mem_cons_self _ _)
    obtain ⟨hn0, hr0⟩ := hnul f (List.mem_cons_self _ _)
    have hlen := length_parsed_storable f hf
    simp only [field_ptrs, header_pairs, List.map_cons, List.cons_append]
    have hb1 : A ++ (fields_parsed (f :: fs) ++ X) =
        A ++ (f.name ++ 0 :: (f.rest ++ 0 :: (f.term.drop 1 ++ (fields_parsed fs ++ X)))) := by
      simp [fields_parsed, field_line.parsed]
    have hs1 : cstr (A ++ (fields_parsed (f :: fs) ++ X)) A.length = f.name := by
      rw [hb1]
      exact cstr_at' A f.name _ hn0
    have hsplit : f.rest = f.rest.takeWhile (fun x => x == 32) ++ f.value := by
      unfold field_line.value
      exact (List.takeWhile_append_dropWhile _ _).symm
    have hv0 : 0 ∉ f.value := by
      unfold field_line.value
      intro h
      exact hr0 ((List.dropWhile_sublist _).subset h)
    have hb2 : A ++ (fields_parsed (f :: fs) ++ X) =
        (A ++ f.name ++ 0 :: f.rest.takeWhile (fun x => x == 32)) ++
          (f.value ++ 0 :: (f.term.drop 1 ++ (fields_parsed fs ++ X))) := by
      rw [hb1]
      conv_lhs => rw [hsplit]
      simp
    have hl2 : (A ++ f.name ++ 0 :: f.rest.takeWhile (fun x => x == 32)).length =
        A.length + f.name.length + 1 + (f.rest.takeWhile (fun x => x == 32)).length := by
      simp; omega
    have hs2 : cstr (A ++ (fields_parsed (f :: fs) ++ X))
        (A.length + f.name.length + 1 + (f.rest.takeWhile (fun x => x == 32)).length) =
        f.value := by
      rw [hb2, ← hl2]
      exact cstr_at' _ f.value _ hv0
    rw [hs1, hs2]
    have hb3 : A ++ (fields_parsed (f :: fs) ++ X) = (A ++ f.parsed) ++ (fields_parsed fs ++ X) := by
      simp [fields_parsed]
    have hl3 : (A ++ f.parsed).length = A.length + f.text.length := by
      simp [hlen]
    rw [hb3, ← hl3]
    exact congrArg (List.cons _) (ih (A ++ f.parsed)
      (fun g hg => hwf g (List.mem_cons_of_mem _ hg))
      (fun g hg => hnul g (List.mem_cons_of_mem _ hg)))

theorem dropWhile_not_alpha (l : List Nat) (h : ∃ x ∈ l, isalpha x = true) :
    isalpha ((l.dropWhile (fun x => !isalpha x)).headD 0) = true := by
  induction l with
  | nil => obtain ⟨x, hx, _⟩ := h; simp at hx
  | cons a l ih =>
    by_cases ha : isalpha a = true
    · simp [List.dropWhile, ha]
    · have ha' : isalpha a = false := by simpa using ha
      simp only [List.dropWhile, ha', Bool.not_false]
      apply ih
      obtain ⟨x, hx, hxa⟩ := h
      rcases List.mem_cons.mp hx with e | e
      · subst e; rw [ha'] at hxa; cases hxa
      · exact ⟨x, e, hxa⟩

theorem takeWhile_not_alpha (l : List Nat) :
    ∀ x ∈ l.takeWhile (fun x => !isalpha x), isalpha x = false := by
  intro x hx
  have := List.mem_takeWhile_imp hx
  simpa using this

theorem joined_storable (l t : List Nat) (f : field_line) (hl : 58 ∉ l)
    (hletter : ∃ x ∈ l, isalpha x = true) (ht : t = [13, 10] ∨ t = [13] ∨ t = [10])
    (hf : f.wellformed) : (joined_line l t f).storable := by
  obtain ⟨h1, h2, _, _, h3, h4, h5⟩ := hf
  refine ⟨?_, ?_, h3, h4, h5⟩
  · have := dropWhile_not_alpha l hletter
    unfold joined_line
    simp only []
    cases hd : l.dropWhile (fun x => !isalpha x) with
    | nil => rw [hd] at this; simp [isalpha_zero] at this
    | cons a r => rw [hd] at this; simpa using this
  · unfold joined_line
    simp only [List.mem_append, not_or]
    refine ⟨fun h => hl ((List.dropWhile_sublist _).subset h), ?_, h2⟩
    rcases ht with e | e | e <;> rw [e] <;> decide

theorem header_loop_colonless (buflen : Nat) (fs1 fs2 : List field_line) (pre : Buf)
    (g : field_line) (A T : Buf) (H : List (Option Nat))
    (h1 : ∀ f ∈ fs1, f.storable) (hpre : ∀ x ∈ pre, isalpha x = false)
    (h2 : ∀ f ∈ g :: fs2, f.storable)
    (hlen : A.length + ((fields_text fs1 ++ (pre ++ fields_text (g :: fs2))).length + 2) =
      buflen) :
    ∃ b, header_loop buflen ((fields_text fs1 ++ (pre ++ fields_text (g :: fs2))).length + 2)
        A.length
        ⟨A ++ ((fields_text fs1 ++ (pre ++ fields_text (g :: fs2))) ++ ([13, 0] ++ T)),
          none, none, 0, H⟩ =
      if 2 * (fs1.length + (fs2.length + 1)) ≤ H.length then
        .ok ⟨A ++ (fields_parsed fs1 ++ (pre ++ (fields_parsed (g :: fs2) ++ ([13, 0] ++ T)))),
          none, none, 2 * (fs1.length + (fs2.length + 1)),
          field_ptrs A.length fs1 ++
            (field_ptrs (A.length + (fields_text fs1).length + pre.length) (g :: fs2) ++
              H.drop (2 * (fs1.length + (fs2.length + 1))))⟩
      else .error b := by
  simp only [List.length_append] at hlen
  have hcount : (fields_text fs1 ++ (pre ++ fields_text (g :: fs2))).length + 2 =
      ((fields_text fs1).length + pre.length) +
        ((fields_text (g :: fs2)).length + ([13, 0] : List Nat).length) := by
    simp only [List.length_append, List.length_cons, List.length_nil]; omega
  have hbuf : A ++ ((fields_text fs1 ++ (pre ++ fields_text (g :: fs2))) ++ ([13, 0] ++ T)) =
      A ++ (fields_text fs1 ++ (pre ++ (fields_text (g :: fs2) ++ ([13, 0] ++ T)))) := by
    simp
  obtain ⟨b1, hb1⟩ := header_loop_upto_gap buflen pre hpre fs1 A
    (fields_text (g :: fs2) ++ ([13, 0] ++ T)) 0 H h1 (by omega)
  rw [hcount, hbuf, header_loop_add, hb1]
  by_cases hk1 : 2 * fs1.length ≤ H.length - 0
  swap
  · refine ⟨b1, ?_⟩
    rw [if_neg hk1, if_neg (by omega)]
  rw [if_pos hk1]
  simp only [Nat.zero_add, List.take_zero, List.nil_append]
  have hA2 : A ++ (fields_parsed fs1 ++ (pre ++ (fields_text (g :: fs2) ++ ([13, 0] ++ T)))) =
      (A ++ (fields_parsed fs1 ++ pre)) ++ (fields_text (g :: fs2) ++ ([13, 0] ++ T)) := by
    simp
  have hl2 : (A ++ (fields_parsed fs1 ++ pre)).length =
      A.length + ((fields_text fs1).length + pre.length) := by
    simp only [List.length_append, length_fields_parsed fs1 h1]
  obtain ⟨b2, hb2⟩ := header_loop_upto_gap buflen [13, 0] (by decide) (g :: fs2)
    (A ++ (fields_parsed fs1 ++ pre)) T (2 * fs1.length)
    (field_ptrs A.length fs1 ++ H.drop (2 * fs1.length)) h2 (by rw [hl2]; omega)
  rw [hA2, ← hl2, hb2]
  have hpl : (field_ptrs A.length fs1).length = 2 * fs1.length := length_field_ptrs fs1 _
  have hHl : (field_ptrs A.length fs1 ++ H.drop (2 * fs1.length)).length = H.length := by
    simp only [List.length_append, hpl, List.length_drop]; omega
  refine ⟨b2, ?_⟩
  rw [hHl]
  simp only [List.length_cons]
  by_cases hk2 : 2 * (fs2.length + 1) ≤ H.length - 2 * fs1.length
  · rw [if_pos hk2, if_pos (by omega)]
    rw [List.take_left' hpl]
    have e1 : 2 * fs1.length + 2 * (fs2.length + 1) = 2 * (fs1.length + (fs2.length + 1)) := by
      omega
    have e2 : (field_ptrs A.length fs1 ++ H.drop (2 * fs1.length)).drop
        (2 * fs1.length + 2 * (fs2.length + 1)) =
        H.drop (2 * (fs1.length + (fs2.length + 1))) := by
      rw [← hpl, List.drop_append, List.drop_drop, hpl, ← e1]
    rw [e2, e1, hl2]
    simp only [List.append_assoc, Nat.add_assoc]
  · rw [if_neg hk2, if_neg (by omega)]

theorem colonless_block_eq (M U V : List Nat) (fs1 : List field_line) (l t : List Nat)
    (f : field_line) (fs2 : List field_line) (T : Buf) :
    colonless_block M U V fs1 l t f fs2 ++ T =
      M ++ 32 :: (U ++ 32 :: (V ++ 13 :: 10 ::
        ((fields_text fs1 ++ (l.takeWhile (fun x => !isalpha x) ++
          fields_text (joined_line l t f :: fs2))) ++ 13 :: 10 :: T))) := by
  simp only [colonless_block, fields_text, field_line.text, joined_line, List.append_assoc,
    List.cons_append, List.nil_append]
  rw [← List.append_assoc (l.takeWhile _), List.takeWhile_append_dropWhile]

theorem length_colonless_block (M U V : List Nat) (fs1 : List field_line) (l t : List Nat)
    (f : field_line) (fs2 : List field_line) :
    (colonless_block M U V fs1 l t f fs2).length =
      M.length + 1 + U.length + 1 + V.length + 2 +
        (fields_text fs1 ++ (l.takeWhile (fun x => !isalpha x) ++
          fields_text (joined_line l t f :: fs2))).length + 2 := by
  have := congrArg List.length (colonless_block_eq M U V fs1 l t f fs2 [])
  simp only [List.append_nil, List.length_append, List.length_cons, List.length_nil] at this ⊢
  omega

/-- C15: in a header block where a line `l` without a colon (with at least one
letter) stands before the field line `f`, the other field lines being well
formed, the parse stores one pair for the two lines together and none for `l`
alone: with `fs1` field lines before and `fs2` after there are
`fs1.length + 1 + fs2.length` pairs. The name of that pair starts at the first
letter of `l`, and the cells from there hold the rest of `l`, its line break
`t` and the name of `f`, the colon of `f` being the NUL that ends it; the
value is the value of `f`. So when no NUL byte stands in the lines, the stored
name is the text of `l` from its first letter, the line break and the name of
`f`. With more pairs than the header array holds the answer is 413. -/
theorem header_parse_colonless_line (req : http_request) (M U V : List Nat)
    (fs1 : List field_line) (l t : List Nat) (f : field_line) (fs2 : List field_line) (T : Buf)
    (hline : valid_request_line M U V) (hwf1 : ∀ g ∈ fs1, g.wellformed)
    (hl : 58 ∉ l ∧ 13 ∉ l ∧ 10 ∉ l) (hletter : ∃ x ∈ l, isalpha x = true)
    (ht : t = [13, 10] ∨ t = [13] ∨ t = [10]) (hf : f.wellformed)
    (hwf2 : ∀ g ∈ fs2, g.wellformed) :
    (fs1.length + 1 + fs2.length ≤ req.headers.length / 2 →
      ∃ q, (uh_http_header_parse req (colonless_block M U V fs1 l t f fs2 ++ T)
          (colonless_block M U V fs1 l t f fs2).length).outcome = .request q ∧
        q.headers.take (2 * (fs1.length + 1 + fs2.length)) =
          field_ptrs (M.length + 1 + U.length + 1 + V.length + 2) fs1 ++
            field_ptrs (M.length + 1 + U.length + 1 + V.length + 2 + (fields_text fs1).length +
              (l.takeWhile (fun x => !isalpha x)).length) (joined_line l t f :: fs2) ∧
        (uh_http_header_parse req (colonless_block M U V fs1 l t f fs2 ++ T)
          (colonless_block M U V fs1 l t f fs2).length).buffer =
          parsed_line M U V ++ (fields_parsed fs1 ++ (l.takeWhile (fun x => !isalpha x) ++
            (fields_parsed (joined_line l t f :: fs2) ++ ([13, 0] ++ T)))) ∧
        ((∀ g ∈ fs1 ++ f :: fs2, 0 ∉ g.name ∧ 0 ∉ g.rest) → 0 ∉ l →
          stored_pairs (fs1.length + 1 + fs2.length)
            (uh_http_header_parse req (colonless_block M U V fs1 l t f fs2 ++ T)
              (colonless_block M U V fs1 l t f fs2).length) =
            some (fs1.map (fun g => (g.name, g.value)) ++
              (l.dropWhile (fun x => !isalpha x) ++ (t ++ f.name), f.value) ::
                fs2.map (fun g => (g.name, g.value))))) ∧
    (req.headers.length / 2 < fs1.length + 1 + fs2.length →
      (uh_http_header_parse req (colonless_block M U V fs1 l t f fs2 ++ T)
          (colonless_block M U V fs1 l t f fs2).length).outcome = .response 413) := by
  have hst1 : ∀ g ∈ fs1, g.storable := fun g hg => storable_of_wellformed g (hwf1 g hg)
  have hg := joined_storable l t f hl.1 hletter ht hf
  have hst2 : ∀ g ∈ joined_line l t f :: fs2, g.storable := by
    intro g hg'
    rcases List.mem_cons.mp hg' with e | e
    · rw [e]; exact hg
    · exact storable_of_wellformed g (hwf2 g e)
  obtain ⟨m, ver, _, _, hp⟩ := parse_region req M U V
    (fields_text fs1 ++ (l.takeWhile (fun x => !isalpha x) ++
      fields_text (joined_line l t f :: fs2))) T hline
  have hpl := length_parsed_line M U V
  obtain ⟨b, hloop⟩ := header_loop_colonless
    (M.length + 1 + U.length + 1 + V.length + 2 +
      (fields_text fs1 ++ (l.takeWhile (fun x => !isalpha x) ++
        fields_text (joined_line l t f :: fs2))).length + 2)
    fs1 fs2 (l.takeWhile (fun x => !isalpha x)) (joined_line l t f) (parsed_line M U V) T
    req.headers hst1 (takeWhile_not_alpha l) hst2 (by rw [hpl]; omega)
  rw [colonless_block_eq, length_colonless_block, hp, hloop]
  have hpt : (field_ptrs (parsed_line M U V).length fs1 ++
      field_ptrs ((parsed_line M U V).length + (fields_text fs1).length +
        (l.takeWhile (fun x => !isalpha x)).length) (joined_line l t f :: fs2)).length =
      2 * (fs1.length + 1 + fs2.length) := by
    simp only [List.length_append, length_field_ptrs, List.length_cons]; omega
  have htk : ∀ D : List (Option Nat), List.take (2 * (fs1.length + 1 + fs2.length))
      (field_ptrs (parsed_line M U V).length fs1 ++
        (field_ptrs ((parsed_line M U V).length + (fields_text fs1).length +
          (l.takeWhile (fun x => !isalpha x)).length) (joined_line l t f :: fs2) ++ D)) =
      field_ptrs (parsed_line M U V).length fs1 ++
        field_ptrs ((parsed_line M U V).length + (fields_text fs1).length +
          (l.takeWhile (fun x => !isalpha x)).length) (joined_line l t f :: fs2) := by
    intro D
    rw [← List.append_assoc, List.take_left' hpt]
  constructor
  · intro hn
    rw [if_pos (by omega)]
    refine ⟨_, rfl, ?_, rfl, ?_⟩
    · simp only []
      rw [htk, hpl]
    · intro hnul hl0
      simp only [stored_pairs]
      rw [htk]
      have hn1 : ∀ g ∈ fs1, 0 ∉ g.name ∧ 0 ∉ g.rest :=
        fun g hg' => hnul g (List.mem_append_left _ hg')
      have hn2 : ∀ g ∈ joined_line l t f :: fs2, 0 ∉ g.name ∧ 0 ∉ g.rest := by
        intro g hg'
        rcases List.mem_cons.mp hg' with e | e
        · rw [e]
          obtain ⟨hf0, hr0⟩ := hnul f (List.mem_append_right _ (List.mem_cons_self _ _))
          refine ⟨?_, hr0⟩
          unfold joined_line
          simp only [List.mem_append, not_or]
          refine ⟨fun h => hl0 ((List.dropWhile_sublist _).subset h), ?_, hf0⟩
          rcases ht with e' | e' | e' <;> rw [e'] <;> decide
        · exact hnul g (List.mem_append_right _ (List.mem_cons_of_mem _ e))
      rw [header_pairs_storable _ _ fs1 (parsed_line M U V) hst1 hn1]
      have hA2 : parsed_line M U V ++ (fields_parsed fs1 ++
          (l.takeWhile (fun x => !isalpha x) ++
            (fields_parsed (joined_line l t f :: fs2) ++ ([13, 0] ++ T)))) =
          (parsed_line M U V ++ (fields_parsed fs1 ++ l.takeWhile (fun x => !isalpha x))) ++
            (fields_parsed (joined_line l t f :: fs2) ++ ([13, 0] ++ T)) := by
        simp
      have hl2 : (parsed_line M U V ++
          (fields_parsed fs1 ++ l.takeWhile (fun x => !isalpha x))).length =
          (parsed_line M U V).length + (fields_text fs1).length +
            (l.takeWhile (fun x => !isalpha x)).length := by
        simp only [List.length_append, length_fields_parsed fs1 hst1]; omega
      have hfin := header_pairs_storable ([13, 0] ++ T) [] (joined_line l t f :: fs2)
        (parsed_line M U V ++ (fields_parsed fs1 ++ l.takeWhile (fun x => !isalpha x))) hst2 hn2
      simp only [List.append_nil] at hfin
      rw [hl2] at hfin
      rw [hA2, hfin]
      simp [header_pairs, joined_line, field_line.value]
  · intro hn
    rw [if_neg (by omega)]

/-- The colon-less line theorem at the block `GET / HTTP/1.0`, `Host: h`,
the line ` foo` without a colon, `Bar: x` and the empty line: two pairs,
`Host` with `h` and the name `foo CR LF Bar` with `x`. -/
theorem header_parse_colonless_line_witness :
    valid_request_line (bytes "GET") (bytes "/") (bytes "HTTP/1.0") ∧
    (1 + 1 + 0 ≤ (fresh_request 64).headers.length / 2 →
      ∃ q, (uh_http_header_parse (fresh_request 64)
          (colonless_block (bytes "GET") (bytes "/") (bytes "HTTP/1.0")
            [⟨bytes "Host", bytes " h", [13, 10]⟩] (bytes " foo") [13, 10]
            ⟨bytes "Bar", bytes " x", [13, 10]⟩ [] ++ bytes "body")
          (colonless_block (bytes "GET") (bytes "/") (bytes "HTTP/1.0")
            [⟨bytes "Host", bytes " h", [13, 10]⟩] (bytes " foo") [13, 10]
            ⟨bytes "Bar", bytes " x", [13, 10]⟩ []).length).outcome = .request q ∧
        q.headers.take (2 * (1 + 1 + 0)) = [some 16, some 22, some 26, some 36]) ∧
    stored_pairs (1 + 1 + 0)
      (uh_http_header_parse (fresh_request 64)
        (colonless_block (bytes "GET") (bytes "/") (bytes "HTTP/1.0")
          [⟨bytes "Host", bytes " h", [13, 10]⟩] (bytes " foo") [13, 10]
          ⟨bytes "Bar", bytes " x", [13, 10]⟩ [] ++ bytes "body")
        (colonless_block (bytes "GET") (bytes "/") (bytes "HTTP/1.0")
          [⟨bytes "Host", bytes " h", [13, 10]⟩] (bytes " foo") [13, 10]
          ⟨bytes "Bar", bytes " x", [13, 10]⟩ []).length) =
      some [(bytes "Host", bytes "h"), (bytes "foo\r\nBar", bytes "x")] := by
  have h := header_parse_colonless_line (fresh_request 64) (bytes "GET") (bytes "/")
    (bytes "HTTP/1.0") [⟨bytes "Host", bytes " h", [13, 10]⟩] (bytes " foo") [13, 10]
    ⟨bytes "Bar", bytes " x", [13, 10]⟩ [] (bytes "body") (by decide) (by decide) (by decide)
    (by decide) (by decide) (by decide) (by decide)
  refine ⟨by decide, ?_, ?_⟩
  · intro hk
    obtain ⟨q, hq, hc, _, _⟩ := h.1 hk
    exact ⟨q, hq, hc⟩
  · obtain ⟨q, _, _, _, hs⟩ := h.1 (by decide)
    exact hs (by decide) (by decide)

/-! ## `uh_client_cb`: the Expect headers -/

theorem strcasecmp_eq_zero (b : Buf) (p : Nat) (lit : List Nat) :
    strcasecmp b p lit = 0 ↔ (cstr b p).map tolower = lit.map tolower := by
  unfold strcasecmp
  split_ifs with h <;> simp [h]

theorem expect_loop_first (b : Buf) (hs : List (Nat × Nat)) :
    expect_loop b hs =
      match first_expect b hs with
      | none => .absent
      | some v =>
        if v.map tolower = (bytes "100-continue").map tolower then .continue_100
        else .failed_417 := by
  induction hs with
  | nil => rfl
  | cons p hs ih =>
    obtain ⟨n, d⟩ := p
    unfold expect_loop
    by_cases hn : (cstr b n).map tolower = (bytes "Expect").map tolower
    · have h1 : strcasecmp b n (bytes "Expect") = 0 := (strcasecmp_eq_zero _ _ _).mpr hn
      have hf : first_expect b ((n, d) :: hs) = some (cstr b d) := by
        unfold first_expect
        rw [List.find?_cons_of_pos _ (by simpa using hn)]
        rfl
      rw [hf]
      simp only [h1, ne_eq, not_true_eq_false, if_false]
      by_cases hv : (cstr b d).map tolower = (bytes "100-continue").map tolower
      · have h2 : strcasecmp b d (bytes "100-continue") = 0 := (strcasecmp_eq_zero _ _ _).mpr hv
        simp [h2, hv]
      · have h2 : strcasecmp b d (bytes "100-continue") ≠ 0 :=
          fun h => hv ((strcasecmp_eq_zero _ _ _).mp h)
        simp [h2, hv]
    · have h1 : strcasecmp b n (bytes "Expect") ≠ 0 :=
        fun h => hn ((strcasecmp_eq_zero _ _ _).mp h)
      have hf : first_expect b ((n, d) :: hs) = first_expect b hs := by
        unfold first_expect
        rw [List.find?_cons_of_neg _ (by simpa using hn)]
      rw [hf, if_pos h1, ih]

theorem client_dispatch_trace (conf : client_config) (w : cb_env) (cl : client)
    (req : http_request) (sent : List client_action) :
    (client_dispatch conf w cl req sent).cl.httpbuf = cl.httpbuf ∧
    ((conf.rfc1918_filter = true ∧ w.peer_rfc1918 = true ∧ w.serv_rfc1918 = false) →
      (client_dispatch conf w cl req sent).trace = sent ++ [.response 403, .shutdown]) ∧
    (¬ (conf.rfc1918_filter = true ∧ w.peer_rfc1918 = true ∧ w.serv_rfc1918 = false) →
      ∃ rest, (client_dispatch conf w cl req sent).trace =
        sent ++ .dispatch (uh_dispatch_request w.handlers conf.dispatch req
          (url_of cl.httpbuf.buf req)).action :: rest) := by
  unfold client_dispatch
  by_cases hf : conf.rfc1918_filter = true ∧ w.peer_rfc1918 = true ∧ w.serv_rfc1918 = false
  · rw [if_pos hf]
    exact ⟨rfl, fun _ => rfl, fun h => absurd hf h⟩
  · rw [if_neg hf]
    simp only []
    split_ifs with h1 h2
    · exact ⟨rfl, fun h => absurd h hf, fun _ => ⟨_, rfl⟩⟩
    · exact ⟨rfl, fun h => absurd h hf, fun _ => ⟨_, rfl⟩⟩
    · exact ⟨rfl, fun h => absurd h hf, fun _ => ⟨[], rfl⟩⟩

/-- C11, amended: for a client that is not dispatched, called with a read
event, whose header is received and parsed into the request `req`, the first
header named `Expect` (case of letters ignored, in the order of the headers)
decides. If its value is not `100-continue` (case ignored), `uh_client_cb`
answers 417 and shuts the client down, and nothing is dispatched. If its value
is `100-continue`, the call sends `100 Continue`, puts `httpbuf.len` to 0 and
goes on: to the 403 and the shutdown when the RFC1918 filter rejects the peer,
to `uh_dispatch_request` otherwise. Later Expect headers are not looked at. -/
theorem expect_first_decides (conf : client_config) (w : cb_env) (cl : client)
    (ev : uloop_events) (req : http_request)
    (hd : cl.dispatched = false) (hr : ev.read = true)
    (hreq : (uh_http_header_recv cl.request cl.httpbuf w.pending).outcome =
      some (.request req)) :
    (∀ v, first_expect (uh_http_header_recv cl.request cl.httpbuf w.pending).httpbuf.buf
          (foreach_header req.headers) = some v →
        v.map tolower ≠ (bytes "100-continue").map tolower →
        (uh_client_cb conf w cl ev).trace = [.header_recv, .response 417, .shutdown] ∧
        (uh_client_cb conf w cl ev).cl.closed = true ∧
        (uh_client_cb conf w cl ev).cl.dispatched = false) ∧
    (∀ v, first_expect (uh_http_header_recv cl.request cl.httpbuf w.pending).httpbuf.buf
          (foreach_header req.headers) = some v →
        v.map tolower = (bytes "100-continue").map tolower →
        (uh_client_cb conf w cl ev).cl.httpbuf.len = 0 ∧
        ((conf.rfc1918_filter = true ∧ w.peer_rfc1918 = true ∧ w.serv_rfc1918 = false) →
          (uh_client_cb conf w cl ev).trace =
            [.header_recv, .continue_100, .response 403, .shutdown]) ∧
        (¬ (conf.rfc1918_filter = true ∧ w.peer_rfc1918 = true ∧ w.serv_rfc1918 = false) →
          ∃ rest, (uh_client_cb conf w cl ev).trace =
            .header_recv :: .continue_100 ::
              .dispatch (uh_dispatch_request w.handlers conf.dispatch req (url_of
                (uh_http_header_recv cl.request cl.httpbuf w.pending).httpbuf.buf req)).action ::
              rest)) := by
  have hev : ev.read ≠ false := by rw [hr]; decide
  constructor
  · intro v hv hne
    have hl := expect_loop_first (uh_http_header_recv cl.request cl.httpbuf w.pending).httpbuf.buf
      (foreach_header req.headers)
    rw [hv] at hl
    simp only [if_neg hne] at hl
    have hcb : uh_client_cb conf w cl ev =
        ⟨uh_client_shutdown { cl with
            httpbuf := (uh_http_header_recv cl.request cl.httpbuf w.pending).httpbuf
            request := req }, [.header_recv, .response 417, .shutdown]⟩ := by
      unfold uh_client_cb
      rw [if_pos hd, if_neg hev]
      simp only [hreq, hl]
    rw [hcb]
    exact ⟨rfl, rfl, hd⟩
  · intro v hv he
    have hl := expect_loop_first (uh_http_header_recv cl.request cl.httpbuf w.pending).httpbuf.buf
      (foreach_header req.headers)
    rw [hv] at hl
    simp only [if_pos he] at hl
    have hcb : uh_client_cb conf w cl ev =
        client_dispatch conf w
          { cl with
            httpbuf := { (uh_http_header_recv cl.request cl.httpbuf w.pending).httpbuf with
              len := 0 }
            request := req } req [.header_recv, .continue_100] := by
      unfold uh_client_cb
      rw [if_pos hd, if_neg hev]
      simp only [hreq, hl]
    obtain ⟨h1, h2, h3⟩ := client_dispatch_trace conf w
      { cl with
        httpbuf := { (uh_http_header_recv cl.request cl.httpbuf w.pending).httpbuf with
          len := 0 }
        request := req } req [.header_recv, .continue_100]
    rw [hcb]
    refine ⟨by rw [h1], fun hf => by rw [h2 hf]; rfl, fun hf => ?_⟩
    obtain ⟨rest, hrest⟩ := h3 hf
    exact ⟨rest, by rw [hrest]; rfl⟩

set_option maxRecDepth 1000000 in
/-- The Expect theorem at the request `GET /index.html HTTP/1.1` with the one
header `Expect: x`: the answer is 417 and the client is shut down. -/
theorem expect_first_decides_witness :
    (fresh_client 128 8).dispatched = false ∧
    (uh_http_header_recv (fresh_client 128 8).request (fresh_client 128 8).httpbuf
      [bytes "GET /index.html HTTP/1.1\r\nExpect: x\r\n\r\n"]).outcome =
      some (.request ⟨.GET, some 4, 11, 200,
        [some 26, some 34, none, none, none, none, none, none]⟩) ∧
    (uh_client_cb ⟨sample_conf none, false, 60⟩
      (sample_env [bytes "GET /index.html HTTP/1.1\r\nExpect: x\r\n\r\n"] 0 5000)
      (fresh_client 128 8) ⟨true, true⟩).trace = [.header_recv, .response 417, .shutdown] ∧
    (uh_client_cb ⟨sample_conf none, false, 60⟩
      (sample_env [bytes "GET /index.html HTTP/1.1\r\nExpect: x\r\n\r\n"] 0 5000)
      (fresh_client 128 8) ⟨true, true⟩).cl.closed = true ∧
    (uh_client_cb ⟨sample_conf none, false, 60⟩
      (sample_env [bytes "GET /index.html HTTP/1.1\r\nExpect: x\r\n\r\n"] 0 5000)
      (fresh_client 128 8) ⟨true, true⟩).cl.dispatched = false :=
  ⟨rfl, by decide,
    (expect_first_decides ⟨sample_conf none, false, 60⟩
      (sample_env [bytes "GET /index.html HTTP/1.1\r\nExpect: x\r\n\r\n"] 0 5000)
      (fresh_client 128 8) ⟨true, true⟩
      ⟨.GET, some 4, 11, 200, [some 26, some 34, none, none, none, none, none, none]⟩
      rfl rfl (by decide)).1 (bytes "x") (by decide) (by decide)⟩

set_option maxRecDepth 1000000 in
/-- The claim as first stated fails at the request `GET /index.html HTTP/1.1`
with the headers `Expect: 100-continue` and `Expect: x`: the request has an
Expect header whose value is not `100-continue`, yet the call sends
`100 Continue` and dispatches the request; no 417 is sent and the client is
not shut down. -/
theorem expect_first_decides_counterexample :
    (uh_http_header_recv (fresh_client 128 8).request (fresh_client 128 8).httpbuf
      [bytes "GET /index.html HTTP/1.1\r\nExpect: 100-continue\r\nExpect: x\r\n\r\n"]).outcome =
      some (.request ⟨.GET, some 4, 11, 200,
        [some 26, some 34, some 48, some 56, none, none, none, none]⟩) ∧
    header_pairs
      (uh_http_header_recv (fresh_client 128 8).request (fresh_client 128 8).httpbuf
        [bytes "GET /index.html HTTP/1.1\r\nExpect: 100-continue\r\nExpect: x\r\n\r\n"]).httpbuf.buf
      [some 26, some 34, some 48, some 56, none, none, none, none] =
      [(bytes "Expect", bytes "100-continue"), (bytes "Expect", bytes "x")] ∧
    (uh_client_cb ⟨sample_conf none, false, 60⟩
      (sample_env
        [bytes "GET /index.html HTTP/1.1\r\nExpect: 100-continue\r\nExpect: x\r\n\r\n"] 0 5000)
      (fresh_client 128 8) ⟨true, true⟩).trace =
      [.header_recv, .continue_100,
        .dispatch (some (.file ⟨bytes "/index.html", bytes "/www/index.html", false⟩))] ∧
    (uh_client_cb ⟨sample_conf none, false, 60⟩
      (sample_env
        [bytes "GET /index.html HTTP/1.1\r\nExpect: 100-continue\r\nExpect: x\r\n\r\n"] 0 5000)
      (fresh_client 128 8) ⟨true, true⟩).cl.closed = false ∧
    (uh_client_cb ⟨sample_conf none, false, 60⟩
      (sample_env
        [bytes "GET /index.html HTTP/1.1\r\nExpect: 100-continue\r\nExpect: x\r\n\r\n"] 0 5000)
      (fresh_client 128 8) ⟨true, true⟩).cl.dispatched = true := by
  refine ⟨?_, ?_, ?_, ?_, ?_⟩ <;> decide

/-! ## `uh_listener_cb`: the bound on the clients of a listener -/

theorem default_max_requests_pos (n : Int) : 1 ≤ default_max_requests n := by
  unfold default_max_requests
  split_ifs <;> omega

theorem uh_listener_cb_bound (serv : listener) (e : accept_env) :
    (uh_listener_cb serv e).1.max_requests = serv.max_requests ∧
    (uh_listener_cb serv e).1.tls = serv.tls ∧
    serv.n_clients ≤ (uh_listener_cb serv e).1.n_clients ∧
    (uh_listener_cb serv e).1.n_clients ≤ serv.n_clients + 1 ∧
    (serv.max_requests ≤ serv.n_clients → uh_listener_cb serv e = (serv, none)) ∧
    (serv.n_clients ≤ serv.max_requests →
      (uh_listener_cb serv e).1.n_clients ≤ serv.max_requests) := by
  unfold uh_listener_cb uh_client_remove uh_client_add
  split_ifs
  all_goals simp_all
  all_goals omega

theorem listener_step_bound (serv : listener) (ev : listener_event)
    (h : 0 ≤ serv.n_clients ∧ serv.n_clients ≤ serv.max_requests) :
    (listener_step serv ev).max_requests = serv.max_requests ∧
    0 ≤ (listener_step serv ev).n_clients ∧
    (listener_step serv ev).n_clients ≤ serv.max_requests := by
  cases ev with
  | acceptor e =>
    obtain ⟨h1, _, h3, _, _, h6⟩ := uh_listener_cb_bound serv e
    exact ⟨h1, by simp only [listener_step]; omega, h6 h.2⟩
  | removal =>
    simp only [listener_step, uh_client_remove]
    split_ifs <;> (simp; omega)

theorem listener_run_bound (evs : List listener_event) :
    ∀ serv : listener, 0 ≤ serv.n_clients ∧ serv.n_clients ≤ serv.max_requests →
      (listener_run serv evs).max_requests = serv.max_requests ∧
      0 ≤ (listener_run serv evs).n_clients ∧
      (listener_run serv evs).n_clients ≤ serv.max_requests := by
  induction evs with
  | nil => intro serv h; exact ⟨rfl, h.1, h.2⟩
  | cons ev evs ih =>
    intro serv h
    obtain ⟨h1, h2, h3⟩ := listener_step_bound serv ev h
    have := ih (listener_step serv ev) ⟨h2, by rw [h1]; exact h3⟩
    rw [h1] at this
    exact this

/-- C12: for a listener that starts with `n_clients = 0` and whose
`max_requests` is what `main` makes of the configured value `n`, which is at
least 1, after every sequence of acceptor callbacks and client removals
`n_clients` is at least 0 and at most `max_requests`. For every single call
`uh_listener_cb` accepts nothing and leaves the listener as it was when
`n_clients >= max_requests`, and it never raises `n_clients` by more than
one. -/
theorem listener_clients_bound (n : Int) (tls : Bool) (evs : List listener_event) :
    1 ≤ default_max_requests n ∧
    (0 ≤ (listener_run ⟨0, default_max_requests n, tls⟩ evs).n_clients ∧
      (listener_run ⟨0, default_max_requests n, tls⟩ evs).n_clients ≤
        default_max_requests n) ∧
    (∀ (serv : listener) (e : accept_env),
      (serv.max_requests ≤ serv.n_clients → uh_listener_cb serv e = (serv, none)) ∧
      (uh_listener_cb serv e).1.n_clients ≤ serv.n_clients + 1) := by
  have hpos := default_max_requests_pos n
  refine ⟨hpos, ?_, ?_⟩
  · have := listener_run_bound evs ⟨0, default_max_requests n, tls⟩
      ⟨Int.le_refl 0, by simp only []; omega⟩
    exact ⟨this.2.1, this.2.2⟩
  · intro serv e
    obtain ⟨_, _, _, h4, h5, _⟩ := uh_listener_cb_bound serv e
    exact ⟨h5, h4⟩

/-- The listener theorem with `-n 2`: three connections arrive, one client is
removed and another connection arrives. Two clients are accepted, the third
call accepts nothing, and after the removal the next is accepted. -/
theorem listener_clients_bound_witness :
    (listener_run ⟨0, default_max_requests 2, false⟩
      [.acceptor ⟨7, true, 1⟩, .acceptor ⟨8, true, 1⟩, .acceptor ⟨9, true, 1⟩]).n_clients = 2 ∧
    (listener_run ⟨0, default_max_requests 2, false⟩
      [.acceptor ⟨7, true, 1⟩, .acceptor ⟨8, true, 1⟩, .acceptor ⟨9, true, 1⟩, .removal,
        .acceptor ⟨9, true, 1⟩]).n_clients ≤ default_max_requests 2 :=
  ⟨by decide,
    (listener_clients_bound 2 false
      [.acceptor ⟨7, true, 1⟩, .acceptor ⟨8, true, 1⟩, .acceptor ⟨9, true, 1⟩, .removal,
        .acceptor ⟨9, true, 1⟩]).2.1.2⟩

/-! ## The script timer -/

theorem int32_of_fits (x : Int) (h1 : -2147483648 ≤ x) (h2 : x ≤ 2147483647) : int32 x = x := by
  unfold int32
  omega

theorem timeout_run_idle (c : client) (h : c.timeout.pending = false) :
    ∀ alive : List Bool, timeout_run c alive = [] := by
  intro alive
  induction alive with
  | nil => rfl
  | cons a rest ih =>
    have he : timeout_expire c a = (c, []) := by
      unfold timeout_expire
      rw [if_neg (by rw [h]; decide)]
    unfold timeout_run
    rw [he]
    exact ih

theorem client_dispatch_spawned (conf : client_config) (w : cb_env) (c : client)
    (req : http_request) (sent : List client_action) (hc : c.dispatched = false)
    (hd : (client_dispatch conf w c req sent).cl.dispatched = true) (hpid : w.child_pid ≠ 0) :
    (client_dispatch conf w c req sent).cl.pid = w.child_pid ∧
    (client_dispatch conf w c req sent).cl.timeout =
      ⟨some .uh_timeout_cb, true, w.now + int32 (conf.script_timeout * 1000)⟩ := by
  unfold client_dispatch at hd ⊢
  by_cases h1 : conf.rfc1918_filter = true ∧ w.peer_rfc1918 = true ∧ w.serv_rfc1918 = false
  · rw [if_pos h1] at hd
    simp only [uh_client_shutdown, hc] at hd
    cases hd
  rw [if_neg h1] at hd ⊢
  simp only [] at hd ⊢
  by_cases h2 : (uh_dispatch_request w.handlers conf.dispatch req
      (url_of c.httpbuf.buf req)).ret = false
  · rw [if_pos h2] at hd
    simp only [uh_client_shutdown, hc] at hd
    cases hd
  rw [if_neg h2, if_pos hpid]
  exact ⟨rfl, rfl⟩

theorem uh_client_cb_spawned (conf : client_config) (w : cb_env) (c : client)
    (ev : uloop_events) (hc : c.dispatched = false)
    (hd : (uh_client_cb conf w c ev).cl.dispatched = true) (hpid : w.child_pid ≠ 0) :
    (uh_client_cb conf w c ev).cl.pid = w.child_pid ∧
    (uh_client_cb conf w c ev).cl.timeout =
      ⟨some .uh_timeout_cb, true, w.now + int32 (conf.script_timeout * 1000)⟩ := by
  unfold uh_client_cb at hd ⊢
  rw [if_pos hc] at hd ⊢
  by_cases hr : ev.read = false
  · rw [if_pos hr] at hd
    rw [hc] at hd
    cases hd
  rw [if_neg hr] at hd ⊢
  simp only [] at hd ⊢
  cases ho : (uh_http_header_recv c.request c.httpbuf w.pending).outcome with
  | none =>
    rw [ho] at hd
    simp only [uh_client_shutdown, hc] at hd
    cases hd
  | some o =>
    rw [ho] at hd
    cases o with
    | response status =>
      simp only [uh_client_shutdown, hc] at hd
      cases hd
    | request req =>
      simp only [] at hd ⊢
      cases he : expect_loop (uh_http_header_recv c.request c.httpbuf w.pending).httpbuf.buf
          (foreach_header req.headers) with
      | failed_417 =>
        rw [he] at hd
        simp only [uh_client_shutdown, hc] at hd
        cases hd
      | continue_100 =>
        rw [he] at hd
        simp only [] at hd ⊢
        exact client_dispatch_spawned conf w _ req _ hc hd hpid
      | absent =>
        rw [he] at hd
        simp only [] at hd ⊢
        exact client_dispatch_spawned conf w _ req _ hc hd hpid

/-- C13, amended: when `script_timeout * 1000` is within the range of `int`,
a call of `uh_client_cb` at the clock value `now` that dispatches a request
whose handler spawned a child (`proc.pid` is not 0) arms the one timer of the
client, `cl->timeout`, with `uh_timeout_cb` for `script_timeout * 1000` ms. If
the child exists at that expiry, SIGTERM is sent and the same timer is armed
with `uh_kill9_cb` for 1000 ms more; if the child exists at that second
expiry, SIGKILL is sent, `(script_timeout + 1) * 1000` ms of timer time after
the call. Whatever the child does, the signals sent over the expiries of the
timer are a beginning of the list SIGTERM, SIGKILL: SIGKILL never comes
without SIGTERM before it. -/
theorem script_timeout_escalation (conf : client_config) (w : cb_env) (cl c1 : client)
    (ev : uloop_events)
    (hlo : -2147483648 ≤ conf.script_timeout * 1000)
    (hhi : conf.script_timeout * 1000 ≤ 2147483647)
    (hd : cl.dispatched = false) (hc1 : c1 = (uh_client_cb conf w cl ev).cl)
    (hdisp : c1.dispatched = true) (hpid : w.child_pid ≠ 0) :
    c1.pid = w.child_pid ∧
    c1.timeout = ⟨some .uh_timeout_cb, true, w.now + conf.script_timeout * 1000⟩ ∧
    timeout_expire c1 true =
      ({ c1 with timeout := ⟨some .uh_kill9_cb, true,
          w.now + conf.script_timeout * 1000 + 1000⟩ },
        [(w.now + conf.script_timeout * 1000, .SIGTERM)]) ∧
    (timeout_expire (timeout_expire c1 true).1 true).2 =
      [(w.now + (conf.script_timeout + 1) * 1000, .SIGKILL)] ∧
    (∀ alive : List Bool, timeout_run c1 alive <+:
      [(w.now + conf.script_timeout * 1000, .SIGTERM),
        (w.now + (conf.script_timeout + 1) * 1000, .SIGKILL)]) := by
  subst hc1
  obtain ⟨hp, ht⟩ := uh_client_cb_spawned conf w cl ev hd hdisp hpid
  rw [int32_of_fits _ hlo hhi] at ht
  generalize (uh_client_cb conf w cl ev).cl = c at hp ht hdisp ⊢
  obtain ⟨cd, chb, creq, cpid, cpa, cto, ccl⟩ := c
  simp only at hp ht
  subst ht
  have e2 : w.now + (conf.script_timeout + 1) * 1000 =
      w.now + conf.script_timeout * 1000 + 1000 := by ring
  have hx1 : timeout_expire ⟨cd, chb, creq, cpid, cpa,
      ⟨some .uh_timeout_cb, true, w.now + conf.script_timeout * 1000⟩, ccl⟩ true =
      (⟨cd, chb, creq, cpid, cpa,
        ⟨some .uh_kill9_cb, true, w.now + conf.script_timeout * 1000 + 1000⟩, ccl⟩,
        [(w.now + conf.script_timeout * 1000, .SIGTERM)]) := by
    simp [timeout_expire, uh_timeout_cb, uloop_timeout_set]
  have hx1f : timeout_expire ⟨cd, chb, creq, cpid, cpa,
      ⟨some .uh_timeout_cb, true, w.now + conf.script_timeout * 1000⟩, ccl⟩ false =
      (⟨cd, chb, creq, cpid, cpa,
        ⟨some .uh_timeout_cb, false, w.now + conf.script_timeout * 1000⟩, ccl⟩, []) := by
    simp [timeout_expire, uh_timeout_cb]
  have hx2 : timeout_expire ⟨cd, chb, creq, cpid, cpa,
      ⟨some .uh_kill9_cb, true, w.now + conf.script_timeout * 1000 + 1000⟩, ccl⟩ true =
      (⟨cd, chb, creq, cpid, cpa,
        ⟨some .uh_kill9_cb, false, w.now + conf.script_timeout * 1000 + 1000⟩, ccl⟩,
        [(w.now + conf.script_timeout * 1000 + 1000, .SIGKILL)]) := by
    simp [timeout_expire, uh_kill9_cb]
  have hx2f : timeout_expire ⟨cd, chb, creq, cpid, cpa,
      ⟨some .uh_kill9_cb, true, w.now + conf.script_timeout * 1000 + 1000⟩, ccl⟩ false =
      (⟨cd, chb, creq, cpid, cpa,
        ⟨some .uh_kill9_cb, false, w.now + conf.script_timeout * 1000 + 1000⟩, ccl⟩, []) := by
    simp [timeout_expire, uh_kill9_cb]
  refine ⟨hp, rfl, hx1, ?_, ?_⟩
  · rw [hx1, hx2, e2]
  · intro alive
    rw [e2]
    cases alive with
    | nil => exact List.nil_prefix
    | cons a1 rest =>
      unfold timeout_run
      cases a1 with
      | false =>
        rw [hx1f, timeout_run_idle _ rfl]
        exact List.nil_prefix
      | true =>
        rw [hx1]
        cases rest with
        | nil =>
          simp only [timeout_run, List.append_nil]
          exact ⟨[_], rfl⟩
        | cons a2 rest2 =>
          unfold timeout_run
          cases a2 with
          | false =>
            rw [hx2f, timeout_run_idle _ rfl]
            exact ⟨[_], rfl⟩
          | true =>
            rw [hx2, timeout_run_idle _ rfl]
            exact ⟨[], rfl⟩

set_option maxRecDepth 1000000 in
/-- The timer theorem at a request for the script `/cgi-bin/t.php` whose
handler spawns the child 77 at the clock value 5000, with a script timeout of
60 seconds: SIGTERM at 65000 and SIGKILL at 66000. -/
theorem script_timeout_escalation_witness :
    (fresh_client 128 8).dispatched = false ∧
    (uh_client_cb ⟨sample_conf none, false, 60⟩
      (sample_env [bytes "GET /cgi-bin/t.php HTTP/1.1\r\n\r\n"] 77 5000)
      (fresh_client 128 8) ⟨true, true⟩).cl.dispatched = true ∧
    (uh_client_cb ⟨sample_conf none, false, 60⟩
      (sample_env [bytes "GET /cgi-bin/t.php HTTP/1.1\r\n\r\n"] 77 5000)
      (fresh_client 128 8) ⟨true, true⟩).cl.timeout = ⟨some .uh_timeout_cb, true, 5000 + 60 * 1000⟩ ∧
    ∀ alive : List Bool,
      timeout_run (uh_client_cb ⟨sample_conf none, false, 60⟩
        (sample_env [bytes "GET /cgi-bin/t.php HTTP/1.1\r\n\r\n"] 77 5000)
        (fresh_client 128 8) ⟨true, true⟩).cl alive <+:
      [(5000 + 60 * 1000, .SIGTERM), (5000 + (60 + 1) * 1000, .SIGKILL)] :=
  ⟨rfl, by decide,
    (script_timeout_escalation ⟨sample_conf none, false, 60⟩
      (sample_env [bytes "GET /cgi-bin/t.php HTTP/1.1\r\n\r\n"] 77 5000)
      (fresh_client 128 8) _ ⟨true, true⟩ (by decide) (by decide) rfl rfl (by decide)
      (by decide)).2.1,
    (script_timeout_escalation ⟨sample_conf none, false, 60⟩
      (sample_env [bytes "GET /cgi-bin/t.php HTTP/1.1\r\n\r\n"] 77 5000)
      (fresh_client 128 8) _ ⟨true, true⟩ (by decide) (by decide) rfl rfl (by decide)
      (by decide)).2.2.2.2⟩

set_option maxRecDepth 1000000 in
/-- The claim as first stated fails for a script timeout of 3000000 seconds,
where `script_timeout * 1000` does not fit an `int`: the same request, spawned
at the clock value 5000, gets its timer armed for a time before the call, not
for 3000000000 ms after it, and a child that stays alive is sent SIGKILL 1000
ms after SIGTERM, long before 3000001 seconds have passed. -/
theorem script_timeout_escalation_counterexample :
    (uh_client_cb ⟨sample_conf none, false, 3000000⟩
      (sample_env [bytes "GET /cgi-bin/t.php HTTP/1.1\r\n\r\n"] 77 5000)
      (fresh_client 128 8) ⟨true, true⟩).cl.dispatched = true ∧
    (uh_client_cb ⟨sample_conf none, false, 3000000⟩
      (sample_env [bytes "GET /cgi-bin/t.php HTTP/1.1\r\n\r\n"] 77 5000)
      (fresh_client 128 8) ⟨true, true⟩).cl.pid = 77 ∧
    (uh_client_cb ⟨sample_conf none, false, 3000000⟩
      (sample_env [bytes "GET /cgi-bin/t.php HTTP/1.1\r\n\r\n"] 77 5000)
      (fresh_client 128 8) ⟨true, true⟩).cl.timeout =
      ⟨some .uh_timeout_cb, true, 5000 - 1294967296⟩ ∧
    (uh_client_cb ⟨sample_conf none, false, 3000000⟩
      (sample_env [bytes "GET /cgi-bin/t.php HTTP/1.1\r\n\r\n"] 77 5000)
      (fresh_client 128 8) ⟨true, true⟩).cl.timeout.time ≠ 5000 + 3000000 * 1000 ∧
    timeout_run (uh_client_cb ⟨sample_conf none, false, 3000000⟩
      (sample_env [bytes "GET /cgi-bin/t.php HTTP/1.1\r\n\r\n"] 77 5000)
      (fresh_client 128 8) ⟨true, true⟩).cl [true, true] =
      [(5000 - 1294967296, .SIGTERM), (5000 - 1294967296 + 1000, .SIGKILL)] := by
  refine ⟨?_, ?_, ?_, ?_, ?_⟩ <;> decide

/-! ## `uh_client_cb`: one parse and one dispatch per connection -/

theorem client_dispatch_cases (conf : client_config) (w : cb_env) (c : client)
    (req : http_request) (sent : List client_action) (hc : c.dispatched = false)
    (hs : sent.countP is_dispatch = 0) :
    ((client_dispatch conf w c req sent).cl.closed = true ∧
      (client_dispatch conf w c req sent).cl.dispatched = false ∧
      (client_dispatch conf w c req sent).trace.count .header_recv = sent.count .header_recv ∧
      (client_dispatch conf w c req sent).trace.countP is_dispatch ≤ 1 ∧
      (client_dispatch conf w c req sent).trace.getLast? = some .shutdown) ∨
    ((client_dispatch conf w c req sent).cl.dispatched = true ∧
      (client_dispatch conf w c req sent).cl.closed = c.closed ∧
      (client_dispatch conf w c req sent).trace.count .header_recv = sent.count .header_recv ∧
      (client_dispatch conf w c req sent).trace.countP is_dispatch = 1 ∧
      (uh_dispatch_request w.handlers conf.dispatch req (url_of c.httpbuf.buf req)).ret = true) := by
  unfold client_dispatch
  by_cases h1 : conf.rfc1918_filter = true ∧ w.peer_rfc1918 = true ∧ w.serv_rfc1918 = false
  · rw [if_pos h1]
    left
    refine ⟨rfl, hc, ?_, ?_, ?_⟩
    · simp [List.count_append]
    · simp [List.countP_append, hs, is_dispatch]
    · simp [List.getLast?_append]
  rw [if_neg h1]
  simp only []
  by_cases h2 : (uh_dispatch_request w.handlers conf.dispatch req
      (url_of c.httpbuf.buf req)).ret = false
  · rw [if_pos h2]
    left
    refine ⟨rfl, hc, ?_, ?_, ?_⟩
    · simp [List.count_append]
    · simp [List.countP_append, hs, is_dispatch]
    · simp [List.getLast?_append]
  rw [if_neg h2]
  have h2' : (uh_dispatch_request w.handlers conf.dispatch req
      (url_of c.httpbuf.buf req)).ret = true := by simpa using h2
  by_cases h3 : w.child_pid ≠ 0
  · rw [if_pos h3]
    right
    refine ⟨rfl, rfl, ?_, ?_, h2'⟩
    · simp [List.count_append]
    · simp [List.countP_append, hs, is_dispatch]
  · rw [if_neg h3]
    right
    refine ⟨rfl, rfl, ?_, ?_, h2'⟩
    · simp [List.count_append]
    · simp [List.countP_append, hs, is_dispatch]

theorem uh_client_cb_cases (conf : client_config) (w : cb_env) (c : client) (ev : uloop_events) :
    (c.dispatched = true ∧
      (uh_client_cb conf w c ev = ⟨c, [.response_cb]⟩ ∨
        uh_client_cb conf w c ev = ⟨uh_client_shutdown c, [.response_cb, .shutdown]⟩)) ∨
    (c.dispatched = false ∧ ev.read = false ∧ uh_client_cb conf w c ev = ⟨c, []⟩) ∨
    (c.dispatched = false ∧ ev.read = true ∧
      (uh_client_cb conf w c ev).cl.closed = true ∧
      (uh_client_cb conf w c ev).cl.dispatched = false ∧
      (uh_client_cb conf w c ev).trace.count .header_recv = 1 ∧
      (uh_client_cb conf w c ev).trace.countP is_dispatch ≤ 1 ∧
      (uh_client_cb conf w c ev).trace.getLast? = some .shutdown) ∨
    (c.dispatched = false ∧ ev.read = true ∧
      (uh_client_cb conf w c ev).cl.dispatched = true ∧
      (uh_client_cb conf w c ev).cl.closed = c.closed ∧
      (uh_client_cb conf w c ev).trace.count .header_recv = 1 ∧
      (uh_client_cb conf w c ev).trace.countP is_dispatch = 1 ∧
      ∃ req, (uh_http_header_recv c.request c.httpbuf w.pending).outcome =
          some (.request req) ∧
        (uh_dispatch_request w.handlers conf.dispatch req (url_of
          (uh_http_header_recv c.request c.httpbuf w.pending).httpbuf.buf req)).ret = true) := by
  by_cases hd : c.dispatched = true
  · left
    refine ⟨hd, ?_⟩
    unfold uh_client_cb
    rw [if_neg (by rw [hd]; decide)]
    by_cases hcb : w.cb_ret = false
    · right; rw [if_pos hcb]
    · left; rw [if_neg hcb]
  · have hd' : c.dispatched = false := by simpa using hd
    right
    by_cases hr : ev.read = false
    · left
      refine ⟨hd', hr, ?_⟩
      unfold uh_client_cb
      rw [if_pos hd', if_pos hr]
    · have hr' : ev.read = true := by simpa using hr
      right
      unfold uh_client_cb
      rw [if_pos hd', if_neg hr]
      simp only []
      cases ho : (uh_http_header_recv c.request c.httpbuf w.pending).outcome with
      | none =>
        left
        exact ⟨hd', hr', rfl, hd', rfl, by simp [is_dispatch], rfl⟩
      | some o =>
        cases o with
        | response status =>
          left
          refine ⟨hd', hr', rfl, hd', ?_, ?_, ?_⟩
          · simp [List.count_cons]
          · simp [List.countP_cons, is_dispatch]
          · simp
        | request req =>
          simp only []
          cases he : expect_loop (uh_http_header_recv c.request c.httpbuf w.pending).httpbuf.buf
              (foreach_header req.headers) with
          | failed_417 =>
            left
            exact ⟨hd', hr', rfl, hd', rfl, by simp [is_dispatch], rfl⟩
          | continue_100 =>
            simp only []
            rcases client_dispatch_cases conf w
              { c with
                httpbuf := { (uh_http_header_recv c.request c.httpbuf w.pending).httpbuf with
                  len := 0 }
                request := req } req [.header_recv, .continue_100] hd' (by decide) with
              ⟨h1, h2, h3, h4, h5⟩ | ⟨h1, h2, h3, h4, h5⟩
            · left
              exact ⟨hd', hr', h1, h2, by rw [h3]; rfl, h4, h5⟩
            · right
              exact ⟨hd', hr', h1, h2, by rw [h3]; rfl, h4, req, rfl, h5⟩
          | absent =>
            simp only []
            rcases client_dispatch_cases conf w
              { c with
                httpbuf := (uh_http_header_recv c.request c.httpbuf w.pending).httpbuf
                request := req } req [.header_recv] hd' (by decide) with
              ⟨h1, h2, h3, h4, h5⟩ | ⟨h1, h2, h3, h4, h5⟩
            · left
              exact ⟨hd', hr', h1, h2, by rw [h3]; rfl, h4, h5⟩
            · right
              exact ⟨hd', hr', h1, h2, by rw [h3]; rfl, h4, req, rfl, h5⟩

theorem client_run_dispatched (conf : client_config) :
    ∀ (evs : List (uloop_events × cb_env)) (c : client), c.dispatched = true →
      (client_run conf c evs).trace.count .header_recv = 0 ∧
      (client_run conf c evs).trace.countP is_dispatch = 0 ∧
      (client_run conf c evs).cl.dispatched = true := by
  intro evs
  induction evs with
  | nil => intro c hd; exact ⟨rfl, rfl, hd⟩
  | cons e evs ih =>
    intro c hd
    obtain ⟨ev, w⟩ := e
    unfold client_run
    by_cases hcl : c.closed = true
    · rw [if_pos hcl]; exact ⟨rfl, rfl, hd⟩
    · rw [if_neg hcl]
      simp only []
      rcases uh_client_cb_cases conf w c ev with ⟨_, h | h⟩ | ⟨h, _⟩ | ⟨h, _⟩ | ⟨h, _⟩
      · rw [h]
        obtain ⟨i1, i2, i3⟩ := ih c hd
        simp only []
        refine ⟨?_, ?_, i3⟩
        · rw [List.count_append, i1]; decide
        · rw [List.countP_append, i2]; decide
      · rw [h]
        obtain ⟨i1, i2, i3⟩ := ih (uh_client_shutdown c) hd
        simp only []
        refine ⟨?_, ?_, i3⟩
        · rw [List.count_append, i1]; decide
        · rw [List.countP_append, i2]; decide
      · rw [hd] at h; cases h
      · rw [hd] at h; cases h
      · rw [hd] at h; cases h

theorem client_run_closed (conf : client_config) (evs : List (uloop_events × cb_env))
    (c : client) (hc : c.closed = true) : client_run conf c evs = ⟨c, []⟩ := by
  cases evs with
  | nil => rfl
  | cons e evs =>
    obtain ⟨ev, w⟩ := e
    unfold client_run
    rw [if_pos hc]

theorem client_run_once (conf : client_config) :
    ∀ (evs : List (uloop_events × cb_env)) (c : client),
      (client_run conf c evs).trace.count .header_recv ≤ 1 ∧
      (client_run conf c evs).trace.countP is_dispatch ≤ 1 := by
  intro evs
  induction evs with
  | nil => intro c; exact ⟨Nat.zero_le _, Nat.zero_le _⟩
  | cons e evs ih =>
    intro c
    obtain ⟨ev, w⟩ := e
    by_cases hcl : c.closed = true
    · rw [client_run_closed conf _ c hcl]
      exact ⟨Nat.zero_le _, Nat.zero_le _⟩
    unfold client_run
    rw [if_neg hcl]
    simp only []
    rcases uh_client_cb_cases conf w c ev with ⟨hd, _⟩ | ⟨_, _, h⟩ | ⟨_, _, h1, _, h3, h4, _⟩ |
      ⟨_, _, h1, _, h3, h4, _⟩
    · have := client_run_dispatched conf ((ev, w) :: evs) c hd
      unfold client_run at this
      rw [if_neg hcl] at this
      simp only [] at this
      exact ⟨by rw [this.1]; exact Nat.zero_le _, by rw [this.2.1]; exact Nat.zero_le _⟩
    · rw [h]
      simpa using ih c
    · rw [client_run_closed conf evs _ h1]
      simp only [List.append_nil]
      exact ⟨by rw [h3], h4⟩
    · obtain ⟨i1, i2, _⟩ := client_run_dispatched conf evs _ h1
      rw [List.count_append, List.countP_append, i1, i2, h3, h4]
      exact ⟨Nat.le_refl _, Nat.le_refl _⟩

/-- C14: over any sequence of `uh_client_cb` calls on one connection,
`uh_http_header_recv`, inside which the one call of the parse stands, runs at
most once and `uh_dispatch_request` runs at most once. For every single call:
on a dispatched client it only calls the response callback `cl->cb` (and shuts
the client down when that returns false) and `dispatched` stays true; on a
client that is not dispatched a call without the read event changes nothing
and does nothing; `dispatched` becomes true only when the header was received
and parsed into a request and `uh_dispatch_request` returned true; and a call
with the read event that does not end with `dispatched` set has shut the
client down, which is the last thing it did, so that nothing is tried again. -/
theorem client_cb_once (conf : client_config) (cl : client)
    (evs : List (uloop_events × cb_env)) :
    ((client_run conf cl evs).trace.count .header_recv ≤ 1 ∧
      (client_run conf cl evs).trace.countP is_dispatch ≤ 1) ∧
    (∀ (w : cb_env) (c : client) (ev : uloop_events),
      (c.dispatched = true →
        (uh_client_cb conf w c ev).cl.dispatched = true ∧
        ((uh_client_cb conf w c ev).trace = [.response_cb] ∨
          (uh_client_cb conf w c ev).trace = [.response_cb, .shutdown])) ∧
      (c.dispatched = false → ev.read = false → uh_client_cb conf w c ev = ⟨c, []⟩) ∧
      (c.dispatched = false → (uh_client_cb conf w c ev).cl.dispatched = true →
        ∃ req, (uh_http_header_recv c.request c.httpbuf w.pending).outcome =
            some (.request req) ∧
          (uh_dispatch_request w.handlers conf.dispatch req (url_of
            (uh_http_header_recv c.request c.httpbuf w.pending).httpbuf.buf req)).ret = true) ∧
      (c.dispatched = false → ev.read = true →
        (uh_client_cb conf w c ev).cl.dispatched = false →
        (uh_client_cb conf w c ev).cl.closed = true ∧
          (uh_client_cb conf w c ev).trace.getLast? = some .shutdown)) := by
  refine ⟨client_run_once conf evs cl, ?_⟩
  intro w c ev
  rcases uh_client_cb_cases conf w c ev with ⟨hd, h | h⟩ | ⟨hd, hr, h⟩ |
    ⟨hd, hr, h1, h2, _, _, h5⟩ | ⟨hd, hr, h1, _, _, _, h5⟩
  · refine ⟨fun _ => ?_, fun h' => ?_, fun h' => ?_, fun h' => ?_⟩
    · rw [h]; exact ⟨hd, Or.inl rfl⟩
    · rw [hd] at h'; cases h'
    · rw [hd] at h'; cases h'
    · rw [hd] at h'; cases h'
  · refine ⟨fun _ => ?_, fun h' => ?_, fun h' => ?_, fun h' => ?_⟩
    · rw [h]; exact ⟨hd, Or.inr rfl⟩
    · rw [hd] at h'; cases h'
    · rw [hd] at h'; cases h'
    · rw [hd] at h'; cases h'
  · refine ⟨fun h' => ?_, fun _ _ => h, fun _ h' => ?_, fun _ h' => ?_⟩
    · rw [hd] at h'; cases h'
    · rw [h, hd] at h'; cases h'
    · rw [hr] at h'; cases h'
  · refine ⟨fun h' => ?_, fun _ h' => ?_, fun _ h' => ?_, fun _ _ _ => ⟨h1, h5⟩⟩
    · rw [hd] at h'; cases h'
    · rw [hr] at h'; cases h'
    · rw [h2] at h'; cases h'
  · refine ⟨fun h' => ?_, fun _ h' => ?_, fun _ _ => h5, fun _ _ h' => ?_⟩
    · rw [hd] at h'; cases h'
    · rw [hr] at h'; cases h'
    · rw [h1] at h'; cases h'

set_option maxRecDepth 1000000 in
/-- The theorem at a connection that gets a write event, then the request
`GET /index.html HTTP/1.1` with a read event, then two more events: the header
is received once, the request is dispatched once, and the two later calls
only call the response callback. -/
theorem client_cb_once_witness :
    (client_run ⟨sample_conf none, false, 60⟩ (fresh_client 128 8)
      [(⟨false, true⟩, sample_env [bytes "GET /index.html HTTP/1.1\r\n\r\n"] 0 0),
        (⟨true, true⟩, sample_env [bytes "GET /index.html HTTP/1.1\r\n\r\n"] 0 10),
        (⟨true, true⟩, sample_env [bytes "GET /index.html HTTP/1.1\r\n\r\n"] 0 20),
        (⟨false, true⟩, sample_env [] 0 30)]).trace =
      [.header_recv,
        .dispatch (some (.file ⟨bytes "/index.html", bytes "/www/index.html", false⟩)),
        .response_cb, .response_cb] ∧
    (client_run ⟨sample_conf none, false, 60⟩ (fresh_client 128 8)
      [(⟨false, true⟩, sample_env [bytes "GET /index.html HTTP/1.1\r\n\r\n"] 0 0),
        (⟨true, true⟩, sample_env [bytes "GET /index.html HTTP/1.1\r\n\r\n"] 0 10),
        (⟨true, true⟩, sample_env [bytes "GET /index.html HTTP/1.1\r\n\r\n"] 0 20),
        (⟨false, true⟩, sample_env [] 0 30)]).trace.count .header_recv ≤ 1 ∧
    (client_run ⟨sample_conf none, false, 60⟩ (fresh_client 128 8)
      [(⟨false, true⟩, sample_env [bytes "GET /index.html HTTP/1.1\r\n\r\n"] 0 0),
        (⟨true, true⟩, sample_env [bytes "GET /index.html HTTP/1.1\r\n\r\n"] 0 10),
        (⟨true, true⟩, sample_env [bytes "GET /index.html HTTP/1.1\r\n\r\n"] 0 20),
        (⟨false, true⟩, sample_env [] 0 30)]).trace.countP is_dispatch ≤ 1 :=
  ⟨by decide,
    (client_cb_once ⟨sample_conf none, false, 60⟩ (fresh_client 128 8)
      [(⟨false, true⟩, sample_env [bytes "GET /index.html HTTP/1.1\r\n\r\n"] 0 0),
        (⟨true, true⟩, sample_env [bytes "GET /index.html HTTP/1.1\r\n\r\n"] 0 10),
        (⟨true, true⟩, sample_env [bytes "GET /index.html HTTP/1.1\r\n\r\n"] 0 20),
        (⟨false, true⟩, sample_env [] 0 30)]).1⟩

/-! ## The stored pairs of a block of well-formed field lines -/

theorem header_pairs_unset (b : Buf) (L : List (Option Nat))
    (h : ∀ n, L.head? ≠ some (some n)) : header_pairs b L = [] := by
  cases L with
  | nil => rfl
  | cons a L =>
    cases a with
    | none => rfl
    | some n => exact absurd rfl (h n)

/-- C2, amended: for a header block with a valid request line and well-formed
field lines, none of which has a NUL byte in its name or after its colon, and
with no more field lines than the header array has pairs, the parse returns a
request whose stored pairs are exactly the (name, value) of the field lines in
their order: the name as written, the value being the text after the first
colon without its leading spaces. The first `2 * fs.length` cells hold these
pairs and every cell after them is left as the call found it; so when the
first of those cells was unset, as in a zeroed request, the walk over all the
cells up to the first unset name yields these pairs and no other. -/
theorem header_parse_stores_fields (req : http_request) (M U V : List Nat)
    (fs : List field_line) (T : Buf)
    (hline : valid_request_line M U V) (hwf : ∀ f ∈ fs, f.wellformed)
    (hnul : ∀ f ∈ fs, 0 ∉ f.name ∧ 0 ∉ f.rest)
    (hcount : fs.length ≤ req.headers.length / 2) :
    stored_pairs fs.length (uh_http_header_parse req (header_block M U V fs ++ T)
        (header_block M U V fs).length) =
      some (fs.map (fun f => (f.name, f.value))) ∧
    ∃ q, (uh_http_header_parse req (header_block M U V fs ++ T)
        (header_block M U V fs).length).outcome = .request q ∧
      q.headers.length = req.headers.length ∧
      q.headers.drop (2 * fs.length) = req.headers.drop (2 * fs.length) ∧
      header_pairs (uh_http_header_parse req (header_block M U V fs ++ T)
          (header_block M U V fs).length).buffer (q.headers.take (2 * fs.length)) =
        fs.map (fun f => (f.name, f.value)) ∧
      ((∀ n, (req.headers.drop (2 * fs.length)).head? ≠ some (some n)) →
        header_pairs (uh_http_header_parse req (header_block M U V fs ++ T)
            (header_block M U V fs).length).buffer q.headers =
          fs.map (fun f => (f.name, f.value))) := by
  obtain ⟨m, ver, b, _, _, hp⟩ := parse_block_valid req M U V fs T hline hwf
  rw [hp, if_pos (by omega)]
  have hst : ∀ f ∈ fs, f.storable := fun f hf => storable_of_wellformed f (hwf f hf)
  have hpl : (field_ptrs (parsed_line M U V).length fs).length = 2 * fs.length :=
    length_field_ptrs fs _
  have htake : header_pairs (parsed_line M U V ++ (fields_parsed fs ++ ([13, 0] ++ T)))
      ((field_ptrs (parsed_line M U V).length fs ++
        req.headers.drop (2 * fs.length)).take (2 * fs.length)) =
      fs.map (fun f => (f.name, f.value)) := by
    rw [List.take_left' hpl]
    exact header_pairs_fields _ fs (parsed_line M U V) hwf hnul
  refine ⟨?_, _, rfl, ?_, ?_, htake, ?_⟩
  · simp only [stored_pairs]
    exact congrArg some htake
  · simp only [List.length_append, hpl, List.length_drop]
    omega
  · simp only []
    rw [List.drop_left' hpl]
  · intro hunset
    simp only []
    rw [header_pairs_storable _ _ fs (parsed_line M U V) hst hnul,
      header_pairs_unset _ _ hunset, List.append_nil]

/-- The stored pairs theorem at a zeroed request of 64 cells and a block with
the fields `Host: h` and `X-A:b:c`: the walk over all the cells yields these
two pairs and the cells from the fifth on are unset as before. -/
theorem header_parse_stores_fields_witness :
    valid_request_line (bytes "GET") (bytes "/") (bytes "HTTP/1.1") ∧
    stored_pairs 2 (uh_http_header_parse (fresh_request 64)
        (header_block (bytes "GET") (bytes "/") (bytes "HTTP/1.1")
          [⟨bytes "Host", bytes "  h", [13, 10]⟩, ⟨bytes "X-A", bytes "b:c", [10]⟩] ++ [])
        (header_block (bytes "GET") (bytes "/") (bytes "HTTP/1.1")
          [⟨bytes "Host", bytes "  h", [13, 10]⟩, ⟨bytes "X-A", bytes "b:c", [10]⟩]).length) =
      some [(bytes "Host", bytes "h"), (bytes "X-A", bytes "b:c")] ∧
    ∃ q, (uh_http_header_parse (fresh_request 64)
        (header_block (bytes "GET") (bytes "/") (bytes "HTTP/1.1")
          [⟨bytes "Host", bytes "  h", [13, 10]⟩, ⟨bytes "X-A", bytes "b:c", [10]⟩] ++ [])
        (header_block (bytes "GET") (bytes "/") (bytes "HTTP/1.1")
          [⟨bytes "Host", bytes "  h", [13, 10]⟩,
            ⟨bytes "X-A", bytes "b:c", [10]⟩]).length).outcome = .request q ∧
      q.headers.drop (2 * 2) = (fresh_request 64).headers.drop (2 * 2) ∧
      header_pairs (uh_http_header_parse (fresh_request 64)
          (header_block (bytes "GET") (bytes "/") (bytes "HTTP/1.1")
            [⟨bytes "Host", bytes "  h", [13, 10]⟩, ⟨bytes "X-A", bytes "b:c", [10]⟩] ++ [])
          (header_block (bytes "GET") (bytes "/") (bytes "HTTP/1.1")
            [⟨bytes "Host", bytes "  h", [13, 10]⟩,
              ⟨bytes "X-A", bytes "b:c", [10]⟩]).length).buffer q.headers =
        [(bytes "Host", bytes "h"), (bytes "X-A", bytes "b:c")] := by
  have h := header_parse_stores_fields (fresh_request 64) (bytes "GET") (bytes "/")
    (bytes "HTTP/1.1")
    [⟨bytes "Host", bytes "  h", [13, 10]⟩, ⟨bytes "X-A", bytes "b:c", [10]⟩] []
    (by decide) (by decide) (by decide) (by decide)
  obtain ⟨h1, q, hq, _, hdrop, _, hall⟩ := h
  have e : (List.drop (2 * [(⟨bytes "Host", bytes "  h", [13, 10]⟩ : field_line),
      ⟨bytes "X-A", bytes "b:c", [10]⟩].length) (fresh_request 64).headers).head? = some none := by
    decide
  exact ⟨by decide, h1, q, hq, hdrop, hall (fun n => by rw [e]; simp)⟩

end Uhttpd
